import Mathlib

namespace Vxl

/-! # The voxel map engine of `pyspades/vxl_c.cpp`

A shallow embedding of the map codec, the streaming encoder, the support
check and the surface predicate, followed by theorems about them.

C `int` values are `Int`; every value that occurs stays far below `2^31`, so
no wrap-around is modelled for coordinates and keys.  A color is the 32-bit
pattern of the stored `int`, a `Nat` below `2^32`.  A byte is a `Nat` below
`256`.
-/

/-- Modelled from the spec: `MAP_X` of the header `vxl_c.h`, which is not among
the source files ("Fixed constants: X = 512, Y = 512, Z = 64"). -/
def MAP_X : Int := 512

/-- Modelled from the spec: `MAP_Y` of the header `vxl_c.h` (Y = 512). -/
def MAP_Y : Int := 512

/-- Modelled from the spec: `MAP_Z` of the header `vxl_c.h` (Z = 64). -/
def MAP_Z : Int := 64

/-- Modelled from the spec: `DEFAULT_COLOR` of the header `vxl_c.h`
("0x674028 is used as DEFAULT_COLOR"). -/
def DEFAULT_COLOR : Nat := 0x674028

/-- Modelled from the spec: the macro `get_pos` of the header `vxl_c.h`
("key(x,y,z) = x + y·512 + z·512·512"). -/
def get_pos (x y z : Int) : Int := x + y * 512 + z * 512 * 512

/-- Modelled from the spec: `struct MapData` of the header `vxl_c.h`: the dense
occupancy bits `geometry[key]` and the sparse map `colors[key]`, both read
through the flat key.  A key outside `0 .. 512*512*64` is outside the bitset
in the source; the model gives it a value nobody relies on. -/
structure MapData where
  geometry : Int → Bool
  colors : Int → Option Nat

/-- The value of `new MapData`: an all-zero bitset and an empty color map. -/
def MapData.empty : MapData := ⟨fun _ => false, fun _ => none⟩

/-- Source `map->geometry[key] = bit`. -/
def MapData.set_geometry (map : MapData) (key : Int) (bit : Bool) : MapData :=
  { map with geometry := fun k => if k = key then bit else map.geometry k }

/-- Source `map->colors[key] = color`. -/
def MapData.set_color (map : MapData) (key : Int) (color : Nat) : MapData :=
  { map with colors := fun k => if k = key then some color else map.colors k }

/-- Source `map->colors.erase(key)`. -/
def MapData.erase_color (map : MapData) (key : Int) : MapData :=
  { map with colors := fun k => if k = key then none else map.colors k }

/-- Source `struct Position`. -/
structure Position where
  x : Int
  y : Int
  z : Int
deriving DecidableEq, Repr

/-- Source `push_back_node`: the work stack is a list whose head is the top
(`nodes[node_pos - 1]`).  The source grows the array by 250000 entries
whenever fewer than six are free, so the stack is unbounded. -/
def push_back_node (nodes : List Position) (x y z : Int) : List Position :=
  ⟨x, y, z⟩ :: nodes

/-- Source `add_node`: push an in-bounds solid voxel, ignore anything else. -/
def add_node (x y z : Int) (map : MapData) (nodes : List Position) : List Position :=
  if x < 0 ∨ x > 511 ∨ y < 0 ∨ y > 511 ∨ z < 0 ∨ z > 63 then nodes
  else if !map.geometry (get_pos x y z) then nodes
  else push_back_node nodes x y z

/-- The six `add_node` calls of `check_node`, in source order. -/
def add_neighbors (x y z : Int) (map : MapData) (nodes : List Position) : List Position :=
  add_node x y (z + 1) map
    (add_node (x + 1) y z map
      (add_node (x - 1) y z map
        (add_node x (y + 1) z map
          (add_node x (y - 1) z map
            (add_node x y (z - 1) map nodes)))))

/-- The key belongs to an in-bounds voxel. -/
def key_in_map (k : Int) : Prop := 0 ≤ k ∧ k < 16777216

instance (k : Int) : Decidable (key_in_map k) := by
  unfold key_in_map; infer_instance

/-- The number of stack nodes whose key belongs to no in-bounds voxel (only a
seed can be one). -/
def stray_nodes (nodes : List Position) : Nat :=
  (nodes.filter fun p => ¬ key_in_map (get_pos p.x p.y p.z)).length

/-- The measure that bounds the work-stack loop: seven units for every in-map
key not yet visited and for every stray node, one for every node. -/
def walk_measure (nodes : List Position) (marked : Finset Int) : Nat :=
  7 * (16777216 - (marked.filter key_in_map).card) + 7 * stray_nodes nodes + nodes.length

theorem add_node_measure (x y z : Int) (map : MapData) (nodes : List Position) :
    (add_node x y z map nodes).length ≤ nodes.length + 1 ∧
      stray_nodes (add_node x y z map nodes) = stray_nodes nodes := by
  unfold add_node push_back_node
  split_ifs with h1 h2
  · exact ⟨Nat.le_succ _, rfl⟩
  · exact ⟨Nat.le_succ _, rfl⟩
  · refine ⟨by simp, ?_⟩
    have hk : key_in_map (get_pos x y z) := by
      unfold key_in_map get_pos
      omega
    simp [stray_nodes, List.filter_cons, hk]

theorem add_neighbors_measure (x y z : Int) (map : MapData) (nodes : List Position) :
    (add_neighbors x y z map nodes).length ≤ nodes.length + 6 ∧
      stray_nodes (add_neighbors x y z map nodes) = stray_nodes nodes := by
  unfold add_neighbors
  have h1 := add_node_measure x y (z - 1) map nodes
  have h2 := add_node_measure x (y - 1) z map (add_node x y (z - 1) map nodes)
  have h3 := add_node_measure x (y + 1) z map (add_node x (y - 1) z map
    (add_node x y (z - 1) map nodes))
  have h4 := add_node_measure (x - 1) y z map (add_node x (y + 1) z map
    (add_node x (y - 1) z map (add_node x y (z - 1) map nodes)))
  have h5 := add_node_measure (x + 1) y z map (add_node (x - 1) y z map
    (add_node x (y + 1) z map (add_node x (y - 1) z map (add_node x y (z - 1) map nodes))))
  have h6 := add_node_measure x y (z + 1) map (add_node (x + 1) y z map
    (add_node (x - 1) y z map (add_node x (y + 1) z map (add_node x (y - 1) z map
      (add_node x y (z - 1) map nodes)))))
  refine ⟨by omega, ?_⟩
  rw [h6.2, h5.2, h4.2, h3.2, h2.2, h1.2]

theorem marked_in_map_card (marked : Finset Int) :
    (marked.filter key_in_map).card ≤ 16777216 := by
  have hsub : marked.filter key_in_map ⊆ Finset.Ico (0 : Int) 16777216 := by
    intro k hk
    have := (Finset.mem_filter.1 hk).2
    exact Finset.mem_Ico.2 this
  have := Finset.card_le_card hsub
  rw [Int.card_Ico] at this
  simpa using this

theorem walk_measure_pop (p : Position) (rest : List Position) (marked : Finset Int) :
    walk_measure rest marked < walk_measure (p :: rest) marked := by
  unfold walk_measure stray_nodes
  have : (rest.filter fun p => ¬ key_in_map (get_pos p.x p.y p.z)).length ≤
      ((p :: rest).filter fun p => ¬ key_in_map (get_pos p.x p.y p.z)).length := by
    rw [List.filter_cons]
    split_ifs <;> simp
  simp only [List.length_cons]
  omega

theorem walk_measure_visit (map : MapData) (p : Position) (rest : List Position)
    (marked : Finset Int) (h : get_pos p.x p.y p.z ∉ marked) :
    walk_measure (add_neighbors p.x p.y p.z map rest) (insert (get_pos p.x p.y p.z) marked)
      < walk_measure (p :: rest) marked := by
  obtain ⟨hlen, hstray⟩ := add_neighbors_measure p.x p.y p.z map rest
  have hcard := marked_in_map_card (insert (get_pos p.x p.y p.z) marked)
  unfold walk_measure
  rw [hstray]
  simp only [List.length_cons]
  by_cases hk : key_in_map (get_pos p.x p.y p.z)
  · have e1 : stray_nodes (p :: rest) = stray_nodes rest := by
      simp [stray_nodes, List.filter_cons, hk]
    have e2 : ((insert (get_pos p.x p.y p.z) marked).filter key_in_map).card =
        (marked.filter key_in_map).card + 1 := by
      rw [Finset.filter_insert, if_pos hk, Finset.card_insert_of_not_mem]
      intro hmem
      exact h (Finset.mem_filter.1 hmem).1
    rw [e2] at hcard
    rw [e1, e2]
    omega
  · have e1 : stray_nodes (p :: rest) = stray_nodes rest + 1 := by
      simp [stray_nodes, List.filter_cons, hk]
    have e2 : (insert (get_pos p.x p.y p.z) marked).filter key_in_map =
        marked.filter key_in_map := by
      rw [Finset.filter_insert, if_neg hk]
    rw [e1, e2]
    omega

/-- The `while (node_pos > 0)` loop of `check_node`.  `none`: a popped node had
`z >= 62` and the function returned 0 from inside the loop; `some marked`: the
stack ran empty with this visited set.  Every iteration lowers
`walk_measure`. -/
def check_loop (map : MapData) : List Position → Finset Int → Option (Finset Int)
  | [], marked => some marked
  | p :: rest, marked =>
    if p.z ≥ 62 then none
    else if get_pos p.x p.y p.z ∈ marked then check_loop map rest marked
    else check_loop map (add_neighbors p.x p.y p.z map rest)
      (insert (get_pos p.x p.y p.z) marked)
termination_by nodes marked => walk_measure nodes marked
decreasing_by
  · exact walk_measure_pop p rest marked
  · exact walk_measure_visit map p rest marked ‹_›

/-- The `if (destroy)` loop of `check_node` over the visited set, in the
order of an ordered set. -/
def destroy_marked (map : MapData) (marked : Finset Int) : MapData :=
  (marked.sort (· ≤ ·)).foldl (fun m k => (m.set_geometry k false).erase_color k) map

/-- What a call of `check_node` leaves behind: the returned `int`, the map,
and the static set `marked`. -/
structure CheckResult where
  ret : Int
  map : MapData
  marked : Finset Int

/-- Source `check_node`.  The static `marked` is an argument and a result: the
source never clears it on entry, only before each `return`. -/
def check_node (x y z : Int) (map : MapData) (destroy : Bool) (marked : Finset Int) :
    CheckResult :=
  match check_loop map (push_back_node [] x y z) marked with
  | none => ⟨0, map, ∅⟩
  | some visited =>
    ⟨visited.card, if destroy then destroy_marked map visited else map, ∅⟩

/-- Modelled from the spec: `get_xyz` of the header `vxl_c.h`, the inverse of
`get_pos` on the keys of in-bounds voxels (which are never negative). -/
def get_xyz (pos : Int) : Position := ⟨pos % 512, pos / 512 % 512, pos / 262144⟩

/-- In-bounds coordinates: `0 ≤ x,y < 512`, `0 ≤ z < 64`. -/
def in_bounds (x y z : Int) : Prop := 0 ≤ x ∧ x < 512 ∧ 0 ≤ y ∧ y < 512 ∧ 0 ≤ z ∧ z < 64

instance (x y z : Int) : Decidable (in_bounds x y z) := by
  unfold in_bounds; infer_instance

/-- The voxel `q` is one of the six axis neighbours of `p`. -/
def adjacent (p q : Position) : Prop :=
  (q.x = p.x ∧ q.y = p.y ∧ (q.z = p.z - 1 ∨ q.z = p.z + 1)) ∨
  (q.x = p.x ∧ q.z = p.z ∧ (q.y = p.y - 1 ∨ q.y = p.y + 1)) ∨
  (q.y = p.y ∧ q.z = p.z ∧ (q.x = p.x - 1 ∨ q.x = p.x + 1))

instance (p q : Position) : Decidable (adjacent p q) := by
  unfold adjacent; infer_instance

/-- One step of an axis-adjacent path through solid voxels: from `p` to an
in-bounds solid neighbour `q`. -/
def walk_step (map : MapData) (p q : Position) : Prop :=
  adjacent p q ∧ in_bounds q.x q.y q.z ∧ map.geometry (get_pos q.x q.y q.z) = true

/-- The voxel `q` is reached from `p` by an axis-adjacent path whose voxels
after `p` are all in-bounds and solid. -/
def connected (map : MapData) (p q : Position) : Prop :=
  Relation.ReflTransGen (walk_step map) p q

/-- The seed is supported: its walk reaches a voxel with `z ≥ 62`. -/
def supported (map : MapData) (p : Position) : Prop :=
  ∃ q, connected map p q ∧ q.z ≥ 62

/-- The invariant of the work-stack loop for the walk that started at `seed`:
everything on the stack or in the visited set was reached from the seed, the
visited voxels lie above `z = 62`, every solid neighbour of a visited voxel
is visited or waits on the stack, and the seed itself has been taken up. -/
structure walk_inv (map : MapData) (seed : Position) (nodes : List Position)
    (marked : Finset Int) : Prop where
  nodes_conn : ∀ p ∈ nodes, connected map seed p
  marked_conn : ∀ k ∈ marked,
    ∃ p, connected map seed p ∧ get_pos p.x p.y p.z = k ∧ p.z < 62
  closed : ∀ p, connected map seed p → get_pos p.x p.y p.z ∈ marked →
    ∀ q, walk_step map p q → get_pos q.x q.y q.z ∈ marked ∨ q ∈ nodes
  seed_seen : seed ∈ nodes ∨ get_pos seed.x seed.y seed.z ∈ marked

/-- The grid whose only solid voxel is (256,256,30), colored 0xFFFF0000. -/
def floating_voxel : MapData :=
  ⟨fun k => decide (k = get_pos 256 256 30),
   fun k => if k = get_pos 256 256 30 then some 0xFFFF0000 else none⟩

/-- The grid with a solid pillar at (10,10,z) for z in 30..63 and air elsewhere. -/
def pillar : MapData :=
  ⟨fun k => decide ((get_xyz k).x = 10 ∧ (get_xyz k).y = 10 ∧ 30 ≤ (get_xyz k).z ∧
    (get_xyz k).z ≤ 63), fun _ => none⟩

/-- Source `is_surface`, with its `int` result 0 or 1. -/
def is_surface (map : MapData) (x y z : Int) : Int :=
  if map.geometry (get_pos x y z) = false then 0
  else if z = 0 then 1
  else if x > 0 ∧ map.geometry (get_pos (x - 1) y z) = false then 1
  else if x + 1 < 512 ∧ map.geometry (get_pos (x + 1) y z) = false then 1
  else if y > 0 ∧ map.geometry (get_pos x (y - 1) z) = false then 1
  else if y + 1 < 512 ∧ map.geometry (get_pos x (y + 1) z) = false then 1
  else if z > 0 ∧ map.geometry (get_pos x y (z - 1)) = false then 1
  else if z + 1 < 64 ∧ map.geometry (get_pos x y (z + 1)) = false then 1
  else 0

/-- Source `get_write_color`. -/
def get_write_color (map : MapData) (x y z : Int) : Nat :=
  match map.colors (get_pos x y z) with
  | none => DEFAULT_COLOR
  | some color => color

/-- The value a `char` store keeps of an `int`: its low eight bits. -/
def to_byte (value : Int) : Nat := (value % 256).toNat

/-- Source `write_color`: the four bytes B, G, R, A appended to the output. -/
def write_color (color : Nat) : List Nat :=
  [color % 256, color / 256 % 256, color / 65536 % 256, color / 16777216 % 256]

/-- The loop `for (z = 0; z < len; ++z) write_color(&out, get_write_color(map, i, j, start + z))`. -/
def write_colors (map : MapData) (i j start len : Int) : List Nat :=
  (List.range len.toNat).flatMap fun (z : Nat) =>
    write_color (get_write_color map i j (start + z))

/-- The loop `while (k < MAP_Z && cond(k)) ++k;`, returning the final `k`. -/
def skip_while (cond : Int → Bool) (k : Int) : Int :=
  if k < MAP_Z ∧ cond k = true then skip_while cond (k + 1) else k
termination_by (MAP_Z - k).toNat
decreasing_by
  rename_i h
  have := h.1
  simp only [MAP_Z] at *
  omega

/-- The loop `while (is_surface(map, i, j, k)) ++k;` of the bottom run, which
the source does not bound by `MAP_Z`: it is entered only after the probe `z`
stopped below `MAP_Z` at a voxel that is no surface, so it ends there.  The
model gives it `fuel` iterations. -/
def skip_surface (map : MapData) (i j : Int) : Nat → Int → Int
  | 0, k => k
  | fuel + 1, k => if is_surface map i j k ≠ 0 then skip_surface map i j fuel (k + 1) else k

/-- One iteration of the loop `while (k < MAP_Z)` of `save_vxl`, lines 269 to
348: the bytes it writes and the final `k`. -/
def save_span (map : MapData) (i j k : Int) : List Nat × Int :=
  let air_start := k
  let k := skip_while (fun k => !map.geometry (get_pos i j k)) k
  let top_colors_start := k
  let k := skip_while (fun k => decide (is_surface map i j k ≠ 0)) k
  let top_colors_end := k
  let k := skip_while
    (fun k => map.geometry (get_pos i j k) && !decide (is_surface map i j k ≠ 0)) k
  let bottom_colors_start := k
  let z := skip_while (fun z => decide (is_surface map i j z ≠ 0)) k
  let k := if z = MAP_Z then k else skip_surface map i j 64 k
  let bottom_colors_end := k
  let top_colors_len := top_colors_end - top_colors_start
  let bottom_colors_len := bottom_colors_end - bottom_colors_start
  let colors := top_colors_len + bottom_colors_len
  ([to_byte (if k = MAP_Z then 0 else colors + 1), to_byte top_colors_start,
    to_byte (top_colors_end - 1), to_byte air_start]
    ++ write_colors map i j top_colors_start top_colors_len
    ++ write_colors map i j bottom_colors_start bottom_colors_len, k)

/-- The loop `while (k < MAP_Z)` of `save_vxl` for the column `(i, j)`, from
`k` on.  Every iteration moves `k` forward, so the 64 iterations the model
allows from `k = 0` are never used up (`save_spans_fuel`). -/
def save_spans (map : MapData) (i j : Int) : Nat → Int → List Nat
  | 0, _ => []
  | fuel + 1, k =>
    if k < MAP_Z then
      (save_span map i j k).1 ++ save_spans map i j fuel (save_span map i j k).2
    else []

/-- The body of the two `for` loops of `save_vxl`: the bytes of column `(i, j)`. -/
def save_column (map : MapData) (i j : Int) : List Nat :=
  save_spans map i j 64 0

/-- The two `for` loops of `save_vxl`: all the bytes they write through the
pointer `out`, however many.  `save_vxl` itself, with the block that receives
them, follows below. -/
def save_vxl_loops (map : MapData) : List Nat :=
  (List.range 512).flatMap fun (j : Nat) =>
    (List.range 512).flatMap fun (i : Nat) => save_column map i j

/-- Source `create_temp`: the size of the block `out_global`, allocated once
with `malloc(10 * 1024 * 1024)`. -/
def TEMP_SIZE : Nat := 10 * 1024 * 1024

/-- Source `save_vxl`.  The loops write through the pointer `out` into the
block of `create_temp` without any bound check: when they write more than
`TEMP_SIZE` bytes the source runs past the end of the block, which is
undefined behaviour and `none` here.  Otherwise the result is the bytes handed
to `PyBytes_FromStringAndSize`. -/
def save_vxl (map : MapData) : Option (List Nat) :=
  if (save_vxl_loops map).length ≤ TEMP_SIZE then some (save_vxl_loops map) else none

/-- Source `struct MapGenerator`; `map` is the generator's own copy. -/
structure MapGenerator where
  map : MapData
  x : Int
  y : Int

/-- Source `create_map_generator` (`copy_map` copies the value). -/
def create_map_generator (original : MapData) : MapGenerator :=
  ⟨original, 0, 0⟩

/-- One iteration of the loop `while (k < MAP_Z)` of `get_generator_data`,
lines 478 to 549: the bytes it writes and the final `k`. -/
def generator_span (map : MapData) (i j k : Int) : List Nat × Int :=
  let air_start := k
  let k := skip_while (fun k => !map.geometry (get_pos i j k)) k
  let top_colors_start := k
  let k := skip_while (fun k => decide (is_surface map i j k ≠ 0)) k
  let top_colors_end := k
  let k := skip_while
    (fun k => map.geometry (get_pos i j k) && !decide (is_surface map i j k ≠ 0)) k
  let bottom_colors_start := k
  let z := skip_while (fun z => decide (is_surface map i j z ≠ 0)) k
  let k := if z = MAP_Z then k else skip_surface map i j 64 k
  let bottom_colors_end := k
  let top_colors_len := top_colors_end - top_colors_start
  let bottom_colors_len := bottom_colors_end - bottom_colors_start
  let colors := top_colors_len + bottom_colors_len
  ([to_byte (if k = MAP_Z then 0 else colors + 1), to_byte top_colors_start,
    to_byte (top_colors_end - 1), to_byte air_start]
    ++ write_colors map i j top_colors_start top_colors_len
    ++ write_colors map i j bottom_colors_start bottom_colors_len, k)

/-- The loop `while (k < MAP_Z)` of `get_generator_data` for the column
`(i, j)`, from `k` on. -/
def generator_spans (map : MapData) (i j : Int) : Nat → Int → List Nat
  | 0, _ => []
  | fuel + 1, k =>
    if k < MAP_Z then
      (generator_span map i j k).1 ++
        generator_spans map i j fuel (generator_span map i j k).2
    else []

/-- The bytes `get_generator_data` writes for the column `(i, j)`. -/
def generator_column (map : MapData) (i j : Int) : List Nat :=
  generator_spans map i j 64 0

/-- The state of the two `for` loops of `get_generator_data`. -/
structure GeneratorLoop where
  out : List Nat
  i : Int
  column : Int
  done : Bool

/-- The inner loop `for (i = generator->x; i < MAP_X; ++i)` of
`get_generator_data` in row `j`; `done` records the `goto done`. -/
def generator_row (map : MapData) (columns j : Int) (st : GeneratorLoop) : GeneratorLoop :=
  if st.i < MAP_X then
    if st.column = columns then { st with done := true }
    else generator_row map columns j
      ⟨st.out ++ generator_column map st.i j, st.i + 1, st.column + 1, false⟩
  else st
termination_by (MAP_X - st.i).toNat
decreasing_by
  rename_i h _
  simp only [MAP_X] at *
  omega

/-- The outer loop `for (j = generator->y; j < MAP_Y; ++j)` of
`get_generator_data`: `x` is `generator->x`, `st.i` the current value of the
local `i`.  Returns the output and the `i` and `j` that reach `done:`. -/
def generator_rows (map : MapData) (columns : Int) (x j : Int) (st : GeneratorLoop) :
    List Nat × Int × Int :=
  if j < MAP_Y then
    let row := generator_row map columns j { st with i := x }
    if row.done then (row.out, row.i, j)
    else generator_rows map columns 0 (j + 1) row
  else (st.out, st.i, j)
termination_by (MAP_Y - j).toNat
decreasing_by
  simp only [MAP_Y] at *
  omega

/-- The loops of `get_generator_data` and the cursor update at `done:`: all
the bytes written through `out`, however many, and the generator afterwards.
The local `i` is not initialised when the outer loop does not run; `i0` is the
value it then happens to hold.  `get_generator_data` itself, with the block
that receives the bytes, follows below. -/
def get_generator_data_loops (generator : MapGenerator) (columns : Int) (i0 : Int) :
    List Nat × MapGenerator :=
  let r := generator_rows generator.map columns generator.x generator.y ⟨[], i0, 0, false⟩
  (r.1, ⟨generator.map, r.2.1, r.2.2⟩)

/-- Source `get_generator_data`.  Every call writes from the start of the
block of `create_temp`, again without a bound check: a call whose loops write
more than `TEMP_SIZE` bytes runs past the end of the block, which is `none`
here.  Otherwise the result is the bytes returned and the generator
afterwards. -/
def get_generator_data (generator : MapGenerator) (columns : Int) (i0 : Int) :
    Option (List Nat × MapGenerator) :=
  if (get_generator_data_loops generator columns i0).1.length ≤ TEMP_SIZE then
    some (get_generator_data_loops generator columns i0)
  else none

/-- The bytes the loops of a sequence of calls of `get_generator_data`
write, each call given with its column count and the value its uninitialised
`i` would hold. -/
def generator_stream_loops (generator : MapGenerator) : List (Int × Int) → List Nat
  | [] => []
  | (columns, i0) :: calls =>
    (get_generator_data_loops generator columns i0).1 ++
      generator_stream_loops (get_generator_data_loops generator columns i0).2 calls

/-- A sequence of calls of `get_generator_data`, each with its column count
and the value its uninitialised `i` would hold: the concatenation of the byte
strings returned, `none` when a call runs past the block. -/
def generator_stream (generator : MapGenerator) : List (Int × Int) → Option (List Nat)
  | [] => some []
  | (columns, i0) :: calls =>
    match get_generator_data generator columns i0 with
    | none => none
    | some r =>
      match generator_stream r.2 calls with
      | none => none
      | some rest => some (r.1 ++ rest)

/-- The byte `v[p]` of an `unsigned char *`: memory is a function from
addresses to bytes. -/
def read_byte (v : Int → Nat) (p : Int) : Int := ((v p % 256 : Nat) : Int)

/-- The `int` read by `*color` at address `p` on a little-endian host, as its
32-bit pattern. -/
def read_color (v : Int → Nat) (p : Int) : Nat :=
  v p % 256 + 256 * (v (p + 1) % 256) + 65536 * (v (p + 2) % 256) +
    16777216 * (v (p + 3) % 256)

/-- The loop `for (i = z; i < top_color_start; i++) map->geometry[get_pos(x, y, i)] = 0`. -/
def carve_air (map : MapData) (x y z top_color_start : Int) : MapData :=
  (List.range (top_color_start - z).toNat).foldl
    (fun (m : MapData) (n : Nat) => m.set_geometry (get_pos x y (z + n)) false) map

/-- The two color loops of `load_vxl`: `count` times
`map->colors[get_pos(x, y, z)] = *color++` with `z` running up from `start`. -/
def read_colors (v : Int → Nat) (map : MapData) (x y color start : Int) (count : Nat) :
    MapData :=
  (List.range count).foldl
    (fun (m : MapData) (n : Nat) =>
      m.set_color (get_pos x y (start + n)) (read_color v (color + 4 * n))) map

/-- The loop `for (;;)` of `load_vxl` for the column `(x, y)`: `p` is the
pointer `v`, `z` the cursor.  The source loops until it meets a span with
`N == 0`; the model gives up with `none` after `fuel` spans. -/
def load_spans (v : Int → Nat) (x y : Int) : Nat → Int → Int → MapData → Option (Int × MapData)
  | 0, _, _, _ => none
  | fuel + 1, p, z, map =>
    let number_4byte_chunks := read_byte v p
    let top_color_start := read_byte v (p + 1)
    let top_color_end := read_byte v (p + 2)
    let map := carve_air map x y z top_color_start
    let color := p + 4
    let len_bottom := top_color_end - top_color_start + 1
    let map := read_colors v map x y color top_color_start len_bottom.toNat
    let color := color + 4 * len_bottom.toNat
    if number_4byte_chunks = 0 then
      some (p + 4 * (len_bottom + 1), map)
    else
      let len_top := (number_4byte_chunks - 1) - len_bottom
      let p := p + read_byte v p * 4
      let bottom_color_end := read_byte v (p + 3)
      let bottom_color_start := bottom_color_end - len_top
      let map := read_colors v map x y color bottom_color_start len_top.toNat
      load_spans v x y fuel p (bottom_color_start + len_top.toNat) map

/-- The body of the two `for` loops of `load_vxl` for the column `(x, y)`:
fill the column, then read its spans from `p`. -/
def load_column (fuel : Nat) (v : Int → Nat) (x y : Int) (st : Int × MapData) :
    Option (Int × MapData) :=
  load_spans v x y fuel st.1 0
    ((List.range 64).foldl
      (fun (m : MapData) (z : Nat) => m.set_geometry (get_pos x y z) true) st.2)

/-- Source `load_vxl`.  `v = none` is the `NULL` pointer.  `fuel` bounds the
spans read per column; `none` means some column had more. -/
def load_vxl (fuel : Nat) (v : Option (Int → Nat)) : Option MapData :=
  match v with
  | none => some MapData.empty
  | some v =>
    ((List.range 512).foldlM (fun (st : Int × MapData) (y : Nat) =>
      (List.range 512).foldlM (fun (st : Int × MapData) (x : Nat) => load_column fuel v x y st) st)
      ((0 : Int), MapData.empty)).map Prod.snd

/-- The memory behind a pointer to the bytes `l`: `l` from address 0 on, and
zero bytes around it. -/
def buffer (l : List Nat) : Int → Nat :=
  fun p => if 0 ≤ p then l.getD p.toNat 0 else 0

/-- The grid in which every voxel is solid and none is colored. -/
def solid_map : MapData := ⟨fun _ => true, fun _ => none⟩

/-- The grid in which exactly the voxels at `z = 63` are solid, each colored
0xFF808080 (for the key of an in-bounds voxel, `key / 262144` is its `z`). -/
def bedrock : MapData :=
  ⟨fun k => decide (k / 262144 = 63), fun k => if k / 262144 = 63 then some 0xFF808080 else none⟩

/-- The bytes `save_vxl` writes for the column with linear index `c`. -/
def column_bytes (map : MapData) (c : Nat) : List Nat :=
  save_column map ((c % 512 : Nat) : Int) ((c / 512 : Nat) : Int)

/-- The memory `v` carries the bytes `l` from address `p` on. -/
def holds (v : Int → Nat) (p : Int) (l : List Nat) : Prop :=
  ∀ n : Nat, n < l.length → l[n]? = some (v (p + n))

/-- The state of `load_vxl` after `c` columns of the bytes the loops of
`save_vxl` write for `G`. -/
def decoded_upto (G : MapData) (c : Nat) (st : Int × MapData) : Prop :=
  st.1 = (((List.range c).flatMap (column_bytes G)).length : Int) ∧
  (∀ x y z, in_bounds x y z → y * 512 + x < c →
    st.2.geometry (get_pos x y z) = G.geometry (get_pos x y z) ∧
    st.2.colors (get_pos x y z) =
      if is_surface G x y z ≠ 0 then some (get_write_color G x y z % 4294967296) else none) ∧
  (∀ x y z, in_bounds x y z → (c : Int) ≤ y * 512 + x → st.2.colors (get_pos x y z) = none)

/-- Every stored color is a 32-bit pattern, as the `int` values of the source are. -/
def colors_fit (M : MapData) : Prop := ∀ k c, M.colors k = some c → c < 4294967296

/-- A stream whose first span is malformed: `N = 1, S = 0, E = 0`, so that
`N < 1 + len_top = 2`; a terminal span of an all-air column follows it, and
every further column is such a span. -/
def malformed_stream : List Nat :=
  [1, 0, 0, 0] ++ (List.range 262144).flatMap fun _ => [0, 64, 63, 0]

/-- The pointer of `load_vxl` after `c` columns of `malformed_stream`. -/
def malformed_upto (c : Nat) (st : Int × MapData) : Prop :=
  st.1 = if c = 0 then 0 else 4 + 4 * (c : Int)

/-- The generator holds the grid `map` and its cursor stands at the column
with linear index `c`, or behind the last column when `c = 262144`. -/
def generator_at (map : MapData) (c : Nat) (g : MapGenerator) : Prop :=
  g.map = map ∧
  ((c < 262144 ∧ g.x = ((c % 512 : Nat) : Int) ∧ g.y = ((c / 512 : Nat) : Int)) ∨
    (c = 262144 ∧ g.y = 512))

/-- Modelled from the spec: `get_solid_wrap` of the header `vxl_c.h`
("out-of-bounds Z returns 0 (air above, air below); X and Y wrap modulo
512"). -/
def get_solid_wrap (x y z : Int) (map : MapData) : Bool :=
  if z < 0 ∨ z ≥ 64 then false else map.geometry (get_pos (x % 512) (y % 512) z)

/-- Source `#define SHADOW_DISTANCE 18`. -/
def SHADOW_DISTANCE : Int := 18

/-- Source `#define SHADOW_STEP 2`. -/
def SHADOW_STEP : Int := 2

/-- The loop `while (dec && z)` of `sunblock`, with the state `dec`, `i`, `y`,
`z`.  `dec` runs through 18, 16, ..., 2, so the loop makes at most nine
iterations; the model allows `fuel` of them (`sunblock_loop_fuel`). -/
def sunblock_loop (map : MapData) (x : Int) : Nat → Int → Int → Int → Int → Int
  | 0, _, i, _, _ => i
  | fuel + 1, dec, i, y, z =>
    if dec ≠ 0 ∧ z ≠ 0 then
      sunblock_loop map x fuel (dec - SHADOW_STEP)
        (if get_solid_wrap x (y - 1) (z - 1) map then i - dec else i) (y - 1) (z - 1)
    else i

/-- Source `sunblock`. -/
def sunblock (map : MapData) (x y z : Int) : Int :=
  sunblock_loop map x 9 SHADOW_DISTANCE 127 y z

/-- Source `update_shadows`: every entry `(key, color)` of the color map gets
the value `(color & 0x00FFFFFF) | (a << 24)`, where `a` is `sunblock` at the
`(x, y, z)` that `get_xyz` gives for the key.  The pass reads the geometry and
writes values only, so an entry does not depend on the order of iteration. -/
def update_shadows (map : MapData) : MapData :=
  { map with colors := fun k => (map.colors k).map fun color =>
      (color &&& 0x00FFFFFF) |||
        ((sunblock map (get_xyz k).x (get_xyz k).y (get_xyz k).z * 16777216) %
          4294967296).toNat }

/-- The weight the `k`-th step of the shadow ray of `(x, y, z)` takes off:
`20 - 2k` when `solid_wrap(x, y - k, z - k)` is solid, nothing otherwise. -/
def shadow_weight (map : MapData) (x y z : Int) (k : Nat) : Int :=
  if get_solid_wrap x (y - k) (z - k) map then 20 - 2 * (k : Int) else 0

/-- The grid whose only solid voxel is (5,0,0). -/
def shadow_block : MapData := ⟨fun k => decide (k = get_pos 5 0 0), fun _ => none⟩

/-- Every key of the color map belongs to a solid voxel. -/
def color_keys_solid (map : MapData) : Prop :=
  ∀ k c, map.colors k = some c → map.geometry k = true

/-- The all-solid grid with the one air voxel (1,1,2). -/
def solid_with_hole : MapData := solid_map.set_geometry (get_pos 1 1 2) false

/-- Source `crc32_table`. -/
def crc32_table : List Nat := [
  0x00000000, 0x77073096, 0xee0e612c, 0x990951ba, 0x076dc419, 0x706af48f,
  0xe963a535, 0x9e6495a3, 0x0edb8832, 0x79dcb8a4, 0xe0d5e91e, 0x97d2d988,
  0x09b64c2b, 0x7eb17cbd, 0xe7b82d07, 0x90bf1d91, 0x1db71064, 0x6ab020f2,
  0xf3b97148, 0x84be41de, 0x1adad47d, 0x6ddde4eb, 0xf4d4b551, 0x83d385c7,
  0x136c9856, 0x646ba8c0, 0xfd62f97a, 0x8a65c9ec, 0x14015c4f, 0x63066cd9,
  0xfa0f3d63, 0x8d080df5, 0x3b6e20c8, 0x4c69105e, 0xd56041e4, 0xa2677172,
  0x3c03e4d1, 0x4b04d447, 0xd20d85fd, 0xa50ab56b, 0x35b5a8fa, 0x42b2986c,
  0xdbbbc9d6, 0xacbcf940, 0x32d86ce3, 0x45df5c75, 0xdcd60dcf, 0xabd13d59,
  0x26d930ac, 0x51de003a, 0xc8d75180, 0xbfd06116, 0x21b4f4b5, 0x56b3c423,
  0xcfba9599, 0xb8bda50f, 0x2802b89e, 0x5f058808, 0xc60cd9b2, 0xb10be924,
  0x2f6f7c87, 0x58684c11, 0xc1611dab, 0xb6662d3d, 0x76dc4190, 0x01db7106,
  0x98d220bc, 0xefd5102a, 0x71b18589, 0x06b6b51f, 0x9fbfe4a5, 0xe8b8d433,
  0x7807c9a2, 0x0f00f934, 0x9609a88e, 0xe10e9818, 0x7f6a0dbb, 0x086d3d2d,
  0x91646c97, 0xe6635c01, 0x6b6b51f4, 0x1c6c6162, 0x856530d8, 0xf262004e,
  0x6c0695ed, 0x1b01a57b, 0x8208f4c1, 0xf50fc457, 0x65b0d9c6, 0x12b7e950,
  0x8bbeb8ea, 0xfcb9887c, 0x62dd1ddf, 0x15da2d49, 0x8cd37cf3, 0xfbd44c65,
  0x4db26158, 0x3ab551ce, 0xa3bc0074, 0xd4bb30e2, 0x4adfa541, 0x3dd895d7,
  0xa4d1c46d, 0xd3d6f4fb, 0x4369e96a, 0x346ed9fc, 0xad678846, 0xda60b8d0,
  0x44042d73, 0x33031de5, 0xaa0a4c5f, 0xdd0d7cc9, 0x5005713c, 0x270241aa,
  0xbe0b1010, 0xc90c2086, 0x5768b525, 0x206f85b3, 0xb966d409, 0xce61e49f,
  0x5edef90e, 0x29d9c998, 0xb0d09822, 0xc7d7a8b4, 0x59b33d17, 0x2eb40d81,
  0xb7bd5c3b, 0xc0ba6cad, 0xedb88320, 0x9abfb3b6, 0x03b6e20c, 0x74b1d29a,
  0xead54739, 0x9dd277af, 0x04db2615, 0x73dc1683, 0xe3630b12, 0x94643b84,
  0x0d6d6a3e, 0x7a6a5aa8, 0xe40ecf0b, 0x9309ff9d, 0x0a00ae27, 0x7d079eb1,
  0xf00f9344, 0x8708a3d2, 0x1e01f268, 0x6906c2fe, 0xf762575d, 0x806567cb,
  0x196c3671, 0x6e6b06e7, 0xfed41b76, 0x89d32be0, 0x10da7a5a, 0x67dd4acc,
  0xf9b9df6f, 0x8ebeeff9, 0x17b7be43, 0x60b08ed5, 0xd6d6a3e8, 0xa1d1937e,
  0x38d8c2c4, 0x4fdff252, 0xd1bb67f1, 0xa6bc5767, 0x3fb506dd, 0x48b2364b,
  0xd80d2bda, 0xaf0a1b4c, 0x36034af6, 0x41047a60, 0xdf60efc3, 0xa867df55,
  0x316e8eef, 0x4669be79, 0xcb61b38c, 0xbc66831a, 0x256fd2a0, 0x5268e236,
  0xcc0c7795, 0xbb0b4703, 0x220216b9, 0x5505262f, 0xc5ba3bbe, 0xb2bd0b28,
  0x2bb45a92, 0x5cb36a04, 0xc2d7ffa7, 0xb5d0cf31, 0x2cd99e8b, 0x5bdeae1d,
  0x9b64c2b0, 0xec63f226, 0x756aa39c, 0x026d930a, 0x9c0906a9, 0xeb0e363f,
  0x72076785, 0x05005713, 0x95bf4a82, 0xe2b87a14, 0x7bb12bae, 0x0cb61b38,
  0x92d28e9b, 0xe5d5be0d, 0x7cdcefb7, 0x0bdbdf21, 0x86d3d2d4, 0xf1d4e242,
  0x68ddb3f8, 0x1fda836e, 0x81be16cd, 0xf6b9265b, 0x6fb077e1, 0x18b74777,
  0x88085ae6, 0xff0f6a70, 0x66063bca, 0x11010b5c, 0x8f659eff, 0xf862ae69,
  0x616bffd3, 0x166ccf45, 0xa00ae278, 0xd70dd2ee, 0x4e048354, 0x3903b3c2,
  0xa7672661, 0xd06016f7, 0x4969474d, 0x3e6e77db, 0xaed16a4a, 0xd9d65adc,
  0x40df0b66, 0x37d83bf0, 0xa9bcae53, 0xdebb9ec5, 0x47b2cf7f, 0x30b5ffe9,
  0xbdbdf21c, 0xcabac28a, 0x53b39330, 0x24b4a3a6, 0xbad03605, 0xcdd70693,
  0x54de5729, 0x23d967bf, 0xb3667a2e, 0xc4614ab8, 0x5d681b02, 0x2a6f2b94,
  0xb40bbe37, 0xc30c8ea1, 0x5a05df1b, 0x2d02ef8d
]

/-- Source `compute_crc32`, on the `len` bytes of `buf`.  The values are
`uint32_t`; XOR, AND and right shift never leave that range. -/
def compute_crc32 (initial : Nat) (buf : List Nat) : Nat :=
  (buf.foldl (fun (crc : Nat) (b : Nat) =>
    crc32_table.getD ((crc ^^^ b) &&& 0xFF) 0 ^^^ (crc >>> 8)) (initial ^^^ 0xFFFFFFFF)) ^^^
    0xFFFFFFFF

/-- One step of the reflected bit-by-bit CRC with the polynomial 0xEDB88320:
shift right by one, and XOR the polynomial in when the bit shifted out was
set. -/
def crc_bit_step (crc : Nat) : Nat :=
  if crc % 2 = 1 then (crc >>> 1) ^^^ 0xEDB88320 else crc >>> 1

/-- The bit-by-bit CRC takes a byte in by XOR and makes eight steps. -/
def crc_byte_step (crc b : Nat) : Nat := crc_bit_step^[8] (crc ^^^ b)

/-- The IEEE CRC-32 as the spec words it: reflected, bit by bit, polynomial
0xEDB88320, initial value 0xFFFFFFFF and final XOR 0xFFFFFFFF. -/
def crc32_bitwise (buf : List Nat) : Nat :=
  (buf.foldl crc_byte_step 0xFFFFFFFF) ^^^ 0xFFFFFFFF

/-- The grid whose columns with even `x` are solid from top to bottom and
whose columns with odd `x` are air; no voxel is colored. -/
def stripes : MapData := ⟨fun k => decide (k % 2 = 0), fun _ => none⟩

/-- The variables `top_colors_start`, `top_colors_end`, `bottom_colors_start`
and `bottom_colors_end` of the iteration of the loop `while (k < MAP_Z)` of
`save_vxl` that begins at `k`. -/
def span_runs (map : MapData) (i j k : Int) : Int × Int × Int × Int :=
  let k := skip_while (fun k => !map.geometry (get_pos i j k)) k
  let top_colors_start := k
  let k := skip_while (fun k => decide (is_surface map i j k ≠ 0)) k
  let top_colors_end := k
  let k := skip_while
    (fun k => map.geometry (get_pos i j k) && !decide (is_surface map i j k ≠ 0)) k
  let bottom_colors_start := k
  let z := skip_while (fun z => decide (is_surface map i j z ≠ 0)) k
  let k := if z = MAP_Z then k else skip_surface map i j 64 k
  (top_colors_start, top_colors_end, bottom_colors_start, k)

/-- The values of `k` at which the iterations of the loop `while (k < MAP_Z)`
of `save_vxl` begin in the column `(i, j)`, from `k` on: one for every span
written. -/
def span_starts (map : MapData) (i j : Int) : Nat → Int → List Int
  | 0, _ => []
  | fuel + 1, k =>
    if k < MAP_Z then k :: span_starts map i j fuel (save_span map i j k).2 else []

/-- The generator the loops of a sequence of calls of `get_generator_data`
leave, each call given with its column count and the value its uninitialised
`i` would hold. -/
def generator_after_loops (generator : MapGenerator) : List (Int × Int) → MapGenerator
  | [] => generator
  | (columns, i0) :: calls =>
    generator_after_loops (get_generator_data_loops generator columns i0).2 calls

/-- The generator after a sequence of calls of `get_generator_data`, `none`
when a call runs past the block. -/
def generator_after (generator : MapGenerator) : List (Int × Int) → Option MapGenerator
  | [] => some generator
  | (columns, i0) :: calls =>
    match get_generator_data generator columns i0 with
    | none => none
    | some r => generator_after r.2 calls

/-- No call of the sequence writes more than the block holds. -/
def calls_fit (generator : MapGenerator) : List (Int × Int) → Prop
  | [] => True
  | (columns, i0) :: calls =>
    (get_generator_data_loops generator columns i0).1.length ≤ TEMP_SIZE ∧
      calls_fit (get_generator_data_loops generator columns i0).2 calls

/-- The composition `load_vxl(save_vxl(G))`: encode `G`, take the returned
bytes as the memory behind the pointer and decode them, with room for `fuel`
spans per column. -/
def round_trip (fuel : Nat) (G : MapData) : Option MapData :=
  match save_vxl G with
  | none => none
  | some bytes => load_vxl fuel (some (buffer bytes))

/-- The loop `while (node_pos > 0)` of `check_node` once more, together with
the number of iterations it makes: every iteration pops one node.  The first
component is `check_loop` (`check_loop_steps_fst`); the recursion is
well-founded by the same measure, so the loop ends on every input. -/
def check_loop_steps (map : MapData) :
    List Position → Finset Int → Option (Finset Int) × Nat
  | [], marked => (some marked, 0)
  | p :: rest, marked =>
    if p.z ≥ 62 then (none, 1)
    else if get_pos p.x p.y p.z ∈ marked then
      let r := check_loop_steps map rest marked
      (r.1, r.2 + 1)
    else
      let r := check_loop_steps map (add_neighbors p.x p.y p.z map rest)
        (insert (get_pos p.x p.y p.z) marked)
      (r.1, r.2 + 1)
termination_by nodes marked => walk_measure nodes marked
decreasing_by
  · exact walk_measure_pop p rest marked
  · exact walk_measure_visit map p rest marked ‹_›

/-- The key belongs to an in-bounds voxel with `z < 62`. -/
def low_key (k : Int) : Prop := 0 ≤ k ∧ k < 16252928

instance (k : Int) : Decidable (low_key k) := by
  unfold low_key; infer_instance

/-- The in-bounds voxels with `z < 62`, through their keys. -/
def low_voxels : Finset Position := (Finset.Ico (0 : Int) 16252928).image get_xyz

/-- The number of stack nodes that are not in bounds (only a seed can be
one). -/
def outside_nodes (nodes : List Position) : Nat :=
  (nodes.filter fun p => ¬ in_bounds p.x p.y p.z).length

/-- The iterations the loop can still make: one for every node on the stack,
six for every key of a low voxel not yet visited, less one as long as the key
of the corner voxel (0,0,0) is among them, and one more for a node out of
bounds. -/
def walk_budget (nodes : List Position) (marked : Finset Int) : Int :=
  (nodes.length : Int) + 6 * (16252928 - ((marked.filter low_key).card : Int)) -
    (if (0 : Int) ∈ marked then 0 else 1) + (outside_nodes nodes : Int)

theorem get_xyz_get_pos (x y z : Int) (h : in_bounds x y z) :
    get_xyz (get_pos x y z) = ⟨x, y, z⟩ := by
  obtain ⟨h1, h2, h3, h4, h5, h6⟩ := h
  simp only [get_xyz, get_pos, Position.mk.injEq]
  refine ⟨by omega, by omega, by omega⟩

theorem get_pos_inj {x y z a b c : Int} (h : in_bounds x y z) (h2 : in_bounds a b c)
    (e : get_pos x y z = get_pos a b c) : x = a ∧ y = b ∧ z = c := by
  have e1 := get_xyz_get_pos x y z h
  have e2 := get_xyz_get_pos a b c h2
  rw [e, e2] at e1
  simpa using e1.symm

theorem mem_add_node (q : Position) (x y z : Int) (map : MapData) (nodes : List Position) :
    q ∈ add_node x y z map nodes ↔
      q ∈ nodes ∨ (q = ⟨x, y, z⟩ ∧ in_bounds x y z ∧ map.geometry (get_pos x y z) = true) := by
  unfold add_node push_back_node in_bounds
  split_ifs with h1 h2
  · constructor
    · exact Or.inl
    · rintro (h | ⟨_, h, _⟩)
      · exact h
      · omega
  · constructor
    · exact Or.inl
    · rintro (h | ⟨_, _, h⟩)
      · exact h
      · simp [h] at h2
  · simp only [List.mem_cons]
    constructor
    · rintro (h | h)
      · refine Or.inr ⟨h, by omega, by simpa using h2⟩
      · exact Or.inl h
    · rintro (h | ⟨h, _⟩)
      · exact Or.inr h
      · exact Or.inl h

theorem mem_add_neighbors (q p : Position) (map : MapData) (nodes : List Position) :
    q ∈ add_neighbors p.x p.y p.z map nodes ↔ q ∈ nodes ∨ walk_step map p q := by
  unfold add_neighbors walk_step adjacent
  simp only [mem_add_node]
  constructor
  · rintro (((((((h | ⟨rfl, h⟩) | ⟨rfl, h⟩) | ⟨rfl, h⟩) | ⟨rfl, h⟩) | ⟨rfl, h⟩) | ⟨rfl, h⟩))
    · exact Or.inl h
    all_goals exact Or.inr ⟨by simp, h⟩
  · rintro (h | ⟨hadj, hb, hs⟩)
    · simp [h]
    · obtain ⟨qx, qy, qz⟩ := q
      simp only at hadj hb hs
      rcases hadj with ⟨rfl, rfl, rfl | rfl⟩ | ⟨rfl, rfl, rfl | rfl⟩ | ⟨rfl, rfl, rfl | rfl⟩ <;>
        simp [hb, hs]

theorem connected_in_bounds {map : MapData} {seed p : Position}
    (hs : in_bounds seed.x seed.y seed.z) (h : connected map seed p) :
    in_bounds p.x p.y p.z := by
  induction h with
  | refl => exact hs
  | tail _ hstep _ => exact hstep.2.1

theorem connected_key_inj {map : MapData} {seed p q : Position}
    (hs : in_bounds seed.x seed.y seed.z) (hp : connected map seed p)
    (hq : connected map seed q) (e : get_pos p.x p.y p.z = get_pos q.x q.y q.z) : p = q := by
  have := get_pos_inj (connected_in_bounds hs hp) (connected_in_bounds hs hq) e
  obtain ⟨px, py, pz⟩ := p
  obtain ⟨qx, qy, qz⟩ := q
  simpa using this

theorem walk_inv_start (map : MapData) (seed : Position) :
    walk_inv map seed (push_back_node [] seed.x seed.y seed.z) ∅ := by
  refine ⟨?_, ?_, ?_, ?_⟩
  · intro p hp
    simp only [push_back_node, List.mem_singleton] at hp
    subst hp
    exact Relation.ReflTransGen.refl
  · intro k hk
    simp at hk
  · intro p _ hk
    simp at hk
  · left
    simp [push_back_node]

theorem walk_inv_skip {map : MapData} {seed p : Position} {rest : List Position}
    {marked : Finset Int} (h : walk_inv map seed (p :: rest) marked)
    (hp : get_pos p.x p.y p.z ∈ marked) : walk_inv map seed rest marked := by
  refine ⟨fun q hq => h.nodes_conn q (List.mem_cons_of_mem _ hq), h.marked_conn, ?_, ?_⟩
  · intro a ha hk q hq
    rcases h.closed a ha hk q hq with h1 | h1
    · exact Or.inl h1
    · rcases List.mem_cons.1 h1 with rfl | h2
      · exact Or.inl hp
      · exact Or.inr h2
  · rcases h.seed_seen with h1 | h1
    · rcases List.mem_cons.1 h1 with rfl | h2
      · exact Or.inr hp
      · exact Or.inl h2
    · exact Or.inr h1

theorem walk_inv_visit {map : MapData} {seed p : Position} {rest : List Position}
    {marked : Finset Int} (hs : in_bounds seed.x seed.y seed.z)
    (h : walk_inv map seed (p :: rest) marked) (hz : ¬ p.z ≥ 62) :
    walk_inv map seed (add_neighbors p.x p.y p.z map rest)
      (insert (get_pos p.x p.y p.z) marked) := by
  have hpc : connected map seed p := h.nodes_conn p (List.mem_cons_self _ _)
  refine ⟨?_, ?_, ?_, ?_⟩
  · intro q hq
    rcases (mem_add_neighbors q p map rest).1 hq with h1 | h1
    · exact h.nodes_conn q (List.mem_cons_of_mem _ h1)
    · exact Relation.ReflTransGen.tail hpc h1
  · intro k hk
    rcases Finset.mem_insert.1 hk with rfl | h1
    · exact ⟨p, hpc, rfl, by omega⟩
    · exact h.marked_conn k h1
  · intro a ha hk q hq
    rcases Finset.mem_insert.1 hk with h1 | h1
    · have : a = p := connected_key_inj hs ha hpc h1
      subst this
      exact Or.inr ((mem_add_neighbors q a map rest).2 (Or.inr hq))
    · rcases h.closed a ha h1 q hq with h2 | h2
      · exact Or.inl (Finset.mem_insert_of_mem h2)
      · rcases List.mem_cons.1 h2 with rfl | h3
        · exact Or.inl (Finset.mem_insert_self _ _)
        · exact Or.inr ((mem_add_neighbors q p map rest).2 (Or.inl h3))
  · rcases h.seed_seen with h1 | h1
    · rcases List.mem_cons.1 h1 with rfl | h2
      · exact Or.inr (Finset.mem_insert_self _ _)
      · exact Or.inl ((mem_add_neighbors seed p map rest).2 (Or.inl h2))
    · exact Or.inr (Finset.mem_insert_of_mem h1)

theorem check_loop_none {map : MapData} {seed : Position}
    (hs : in_bounds seed.x seed.y seed.z) (nodes : List Position) (marked : Finset Int)
    (h : walk_inv map seed nodes marked) (e : check_loop map nodes marked = none) :
    supported map seed := by
  induction nodes, marked using check_loop.induct map with
  | case1 marked => simp [check_loop] at e
  | case2 p rest marked hz =>
    exact ⟨p, h.nodes_conn p (List.mem_cons_self _ _), hz⟩
  | case3 p rest marked hz hm ih =>
    rw [check_loop, if_neg hz, if_pos hm] at e
    exact ih (walk_inv_skip h hm) e
  | case4 p rest marked hz hm ih =>
    rw [check_loop, if_neg hz, if_neg hm] at e
    exact ih (walk_inv_visit hs h hz) e

theorem check_loop_some {map : MapData} {seed : Position}
    (hs : in_bounds seed.x seed.y seed.z) (nodes : List Position) (marked : Finset Int)
    (h : walk_inv map seed nodes marked) (m : Finset Int)
    (e : check_loop map nodes marked = some m) :
    (∀ p, connected map seed p → get_pos p.x p.y p.z ∈ m) ∧
    (∀ k ∈ m, ∃ p, connected map seed p ∧ get_pos p.x p.y p.z = k ∧ p.z < 62) := by
  induction nodes, marked using check_loop.induct map with
  | case1 marked =>
    simp only [check_loop, Option.some.injEq] at e
    subst e
    refine ⟨?_, h.marked_conn⟩
    intro p hp
    induction hp with
    | refl =>
      rcases h.seed_seen with h1 | h1
      · simp at h1
      · exact h1
    | tail hab hstep ih =>
      rcases h.closed _ hab ih _ hstep with h1 | h1
      · exact h1
      · simp at h1
  | case2 p rest marked hz =>
    simp [check_loop, hz] at e
  | case3 p rest marked hz hm ih =>
    rw [check_loop, if_neg hz, if_pos hm] at e
    exact ih (walk_inv_skip h hm) e
  | case4 p rest marked hz hm ih =>
    rw [check_loop, if_neg hz, if_neg hm] at e
    exact ih (walk_inv_visit hs h hz) e

theorem destroy_fold_geometry (l : List Int) (map : MapData) (k : Int) :
    (l.foldl (fun m k => (m.set_geometry k false).erase_color k) map).geometry k =
      if k ∈ l then false else map.geometry k := by
  induction l generalizing map with
  | nil => simp
  | cons a l ih =>
    rw [List.foldl_cons, ih]
    by_cases h1 : k ∈ l
    · simp [h1]
    · by_cases h2 : k = a
      · simp [h2, MapData.set_geometry, MapData.erase_color]
      · simp [h1, h2, MapData.set_geometry, MapData.erase_color]

theorem destroy_fold_colors (l : List Int) (map : MapData) (k : Int) :
    (l.foldl (fun m k => (m.set_geometry k false).erase_color k) map).colors k =
      if k ∈ l then none else map.colors k := by
  induction l generalizing map with
  | nil => simp
  | cons a l ih =>
    rw [List.foldl_cons, ih]
    by_cases h1 : k ∈ l
    · simp [h1]
    · by_cases h2 : k = a
      · simp [h2, MapData.set_geometry, MapData.erase_color]
      · simp [h1, h2, MapData.set_geometry, MapData.erase_color]

theorem destroy_marked_geometry (map : MapData) (marked : Finset Int) (k : Int) :
    (destroy_marked map marked).geometry k = if k ∈ marked then false else map.geometry k := by
  unfold destroy_marked
  rw [destroy_fold_geometry]
  simp only [Finset.mem_sort]

theorem destroy_marked_colors (map : MapData) (marked : Finset Int) (k : Int) :
    (destroy_marked map marked).colors k = if k ∈ marked then none else map.colors k := by
  unfold destroy_marked
  rw [destroy_fold_colors]
  simp only [Finset.mem_sort]

theorem MapData.ext_fields {a b : MapData} (hg : ∀ k, a.geometry k = b.geometry k)
    (hc : ∀ k, a.colors k = b.colors k) : a = b := by
  cases a; cases b
  simp only [MapData.mk.injEq]
  exact ⟨funext hg, funext hc⟩

/-- The walk from an in-bounds seed: the loop returns from inside exactly when
the seed is supported, and otherwise ends with the keys of the voxels the walk
reaches, all of them with `z < 62`. -/
theorem check_loop_walk (map : MapData) (x y z : Int) (hin : in_bounds x y z) :
    (supported map ⟨x, y, z⟩ → check_loop map (push_back_node [] x y z) ∅ = none) ∧
    (¬ supported map ⟨x, y, z⟩ → ∃ m, check_loop map (push_back_node [] x y z) ∅ = some m ∧
      (∀ p, connected map ⟨x, y, z⟩ p → get_pos p.x p.y p.z ∈ m) ∧
      (∀ k ∈ m, ∃ p, connected map ⟨x, y, z⟩ p ∧ get_pos p.x p.y p.z = k ∧ p.z < 62)) := by
  have hinv := walk_inv_start map ⟨x, y, z⟩
  have hs : in_bounds (Position.mk x y z).x (Position.mk x y z).y (Position.mk x y z).z := hin
  cases hres : check_loop map (push_back_node [] x y z) ∅ with
  | none =>
    have hsup := check_loop_none hs _ _ hinv hres
    exact ⟨fun _ => rfl, fun hn => absurd hsup hn⟩
  | some m =>
    have hspec := check_loop_some hs _ _ hinv m hres
    refine ⟨?_, fun _ => ⟨m, rfl, hspec⟩⟩
    rintro ⟨q, hq, hz⟩
    obtain ⟨p, hp, hk, hlt⟩ := hspec.2 _ (hspec.1 q hq)
    have := connected_key_inj hs hp hq hk
    subst this
    omega

/-- The visited keys of a finished walk, read back as voxels. -/
theorem walk_component {map : MapData} {seed : Position}
    (hs : in_bounds seed.x seed.y seed.z) (m : Finset Int)
    (h1 : ∀ p, connected map seed p → get_pos p.x p.y p.z ∈ m)
    (h2 : ∀ k ∈ m, ∃ p, connected map seed p ∧ get_pos p.x p.y p.z = k ∧ p.z < 62) :
    (∀ p, p ∈ m.image get_xyz ↔ connected map seed p) ∧ (m.image get_xyz).card = m.card ∧
    (∀ p ∈ m.image get_xyz, p.z < 62 ∧ get_pos p.x p.y p.z ∈ m) := by
  have back : ∀ k ∈ m, connected map seed (get_xyz k) ∧ get_pos (get_xyz k).x (get_xyz k).y
      (get_xyz k).z = k ∧ (get_xyz k).z < 62 := by
    intro k hk
    obtain ⟨p, hp, rfl, hz⟩ := h2 k hk
    rw [get_xyz_get_pos _ _ _ (connected_in_bounds hs hp)]
    exact ⟨hp, rfl, hz⟩
  refine ⟨?_, ?_, ?_⟩
  · intro p
    constructor
    · intro hp
      obtain ⟨k, hk, rfl⟩ := Finset.mem_image.1 hp
      exact (back k hk).1
    · intro hp
      refine Finset.mem_image.2 ⟨_, h1 p hp, ?_⟩
      exact get_xyz_get_pos _ _ _ (connected_in_bounds hs hp)
  · apply Finset.card_image_of_injOn
    intro a ha b hb hab
    have e1 := (back a ha).2.1
    have e2 := (back b hb).2.1
    rw [← e1, ← e2, hab]
  · intro p hp
    obtain ⟨k, hk, rfl⟩ := Finset.mem_image.1 hp
    refine ⟨(back k hk).2.2, ?_⟩
    rw [(back k hk).2.1]
    exact hk

theorem check_node_of_supported (map : MapData) (x y z : Int) (destroy : Bool)
    (hin : in_bounds x y z) (h : supported map ⟨x, y, z⟩) :
    check_node x y z map destroy ∅ = ⟨0, map, ∅⟩ := by
  unfold check_node
  rw [(check_loop_walk map x y z hin).1 h]

theorem check_node_of_unsupported (map : MapData) (x y z : Int) (destroy : Bool)
    (hin : in_bounds x y z) (h : ¬ supported map ⟨x, y, z⟩) :
    ∃ m : Finset Int,
      check_node x y z map destroy ∅ =
        ⟨m.card, if destroy then destroy_marked map m else map, ∅⟩ ∧
      (∀ p, connected map ⟨x, y, z⟩ p → get_pos p.x p.y p.z ∈ m) ∧
      (∀ k ∈ m, ∃ p, connected map ⟨x, y, z⟩ p ∧ get_pos p.x p.y p.z = k ∧ p.z < 62) := by
  obtain ⟨m, hm, h1, h2⟩ := (check_loop_walk map x y z hin).2 h
  refine ⟨m, ?_, h1, h2⟩
  unfold check_node
  rw [hm]

/-- The walk of an unsupported in-bounds seed, as a set of voxels: the call
returns its size, the set holds the seed, and with `destroy` set exactly its
keys are cleared. -/
theorem check_node_walk_set (map : MapData) (x y z : Int) (destroy : Bool)
    (hin : in_bounds x y z) (h : ¬ supported map ⟨x, y, z⟩) :
    ∃ s : Finset Position,
      (∀ p, p ∈ s ↔ connected map ⟨x, y, z⟩ p) ∧
      (check_node x y z map destroy ∅).ret = s.card ∧
      (check_node x y z map destroy ∅).marked = ∅ ∧
      ⟨x, y, z⟩ ∈ s ∧
      (∀ p ∈ s, in_bounds p.x p.y p.z ∧ p.z < 62) ∧
      (destroy = false → (check_node x y z map destroy ∅).map = map) ∧
      (destroy = true → ∀ k,
        (check_node x y z map destroy ∅).map.geometry k =
          (if ∃ p ∈ s, get_pos p.x p.y p.z = k then false else map.geometry k) ∧
        (check_node x y z map destroy ∅).map.colors k =
          (if ∃ p ∈ s, get_pos p.x p.y p.z = k then none else map.colors k)) := by
  obtain ⟨m, hm, h1, h2⟩ := check_node_of_unsupported map x y z destroy hin h
  have hs : in_bounds (Position.mk x y z).x (Position.mk x y z).y (Position.mk x y z).z := hin
  obtain ⟨c1, c2, c3⟩ := walk_component hs m h1 h2
  have hkey : ∀ k, (∃ p ∈ m.image get_xyz, get_pos p.x p.y p.z = k) ↔ k ∈ m := by
    intro k
    constructor
    · rintro ⟨p, hp, rfl⟩
      exact (c3 p hp).2
    · intro hk
      obtain ⟨p, hp, rfl, _⟩ := h2 k hk
      exact ⟨p, (c1 p).2 hp, rfl⟩
  refine ⟨m.image get_xyz, c1, ?_, ?_, ?_, ?_, ?_, ?_⟩
  · rw [hm, c2]
  · rw [hm]
  · exact (c1 _).2 Relation.ReflTransGen.refl
  · intro p hp
    exact ⟨connected_in_bounds hs ((c1 p).1 hp), (c3 p hp).1⟩
  · intro hd
    rw [hm, hd]
    simp
  · intro hd k
    rw [hm, hd]
    simp only [if_true, destroy_marked_geometry, destroy_marked_colors, hkey, and_self]

theorem connected_solid {map : MapData} {seed p : Position}
    (hs : map.geometry (get_pos seed.x seed.y seed.z) = true) (h : connected map seed p) :
    map.geometry (get_pos p.x p.y p.z) = true := by
  induction h with
  | refl => exact hs
  | tail _ hstep _ => exact hstep.2.2

/-- C3: for an in-bounds solid seed, `check_node` returns 0 when the seed is
connected, by an axis-adjacent path through solid voxels, to a solid voxel
with `z ≥ 62` (the seed itself included); otherwise it returns the number of
voxels of the seed's axis-connected solid component, which is at least 1. -/
theorem check_node_support (map : MapData) (x y z : Int) (destroy : Bool)
    (hin : in_bounds x y z) (hsolid : map.geometry (get_pos x y z) = true) :
    ((∃ q, connected map ⟨x, y, z⟩ q ∧ map.geometry (get_pos q.x q.y q.z) = true ∧ q.z ≥ 62) →
      (check_node x y z map destroy ∅).ret = 0) ∧
    ((¬ ∃ q, connected map ⟨x, y, z⟩ q ∧ map.geometry (get_pos q.x q.y q.z) = true ∧ q.z ≥ 62) →
      ∃ s : Finset Position, (∀ p, p ∈ s ↔ connected map ⟨x, y, z⟩ p) ∧
        (check_node x y z map destroy ∅).ret = s.card ∧ 1 ≤ s.card) := by
  constructor
  · rintro ⟨q, hq, _, hz⟩
    rw [check_node_of_supported map x y z destroy hin ⟨q, hq, hz⟩]
  · intro hn
    have hns : ¬ supported map ⟨x, y, z⟩ := by
      rintro ⟨q, hq, hz⟩
      exact hn ⟨q, hq, connected_solid hsolid hq, hz⟩
    obtain ⟨s, h1, h2, _, h4, _⟩ := check_node_walk_set map x y z destroy hin hns
    exact ⟨s, h1, h2, Finset.card_pos.2 ⟨_, h4⟩⟩

theorem pillar_geometry (z : Int) (h0 : 0 ≤ z) (h1 : z < 64) :
    pillar.geometry (get_pos 10 10 z) = decide (30 ≤ z) := by
  have hin : in_bounds 10 10 z := ⟨by omega, by omega, by omega, by omega, h0, h1⟩
  simp only [pillar, get_xyz_get_pos 10 10 z hin]
  by_cases h : 30 ≤ z
  · simp [h]; omega
  · simp [h]

theorem pillar_connected (n : Nat) (hn : n ≤ 32) :
    connected pillar ⟨10, 10, 30⟩ ⟨10, 10, 30 + n⟩ := by
  induction n with
  | zero => exact Relation.ReflTransGen.refl
  | succ n ih =>
    refine Relation.ReflTransGen.tail (ih (by omega)) ⟨?_, ?_, ?_⟩
    · left
      simp only [true_and]
      right
      push_cast
      ring
    · show in_bounds 10 10 (30 + ((n + 1 : Nat) : Int))
      exact ⟨by omega, by omega, by omega, by omega, by omega, by omega⟩
    · simp only
      rw [pillar_geometry _ (by omega) (by omega)]
      simp
      omega

/-- C3, the supported pillar: a solid pillar at (10,10,30..63) gives 0 for the
seed (10,10,30). -/
theorem check_node_support_witness :
    in_bounds 10 10 30 ∧ pillar.geometry (get_pos 10 10 30) = true ∧
      (check_node 10 10 30 pillar false ∅).ret = 0 := by
  have hin : in_bounds 10 10 30 := by decide
  have hsolid : pillar.geometry (get_pos 10 10 30) = true := by
    rw [pillar_geometry 30 (by omega) (by omega)]; rfl
  refine ⟨hin, hsolid, (check_node_support pillar 10 10 30 false hin hsolid).1 ?_⟩
  refine ⟨⟨10, 10, 62⟩, pillar_connected 32 (le_refl _), ?_, by simp⟩
  rw [pillar_geometry 62 (by omega) (by omega)]; rfl

theorem check_node_of_loop_some {map : MapData} {x y z : Int} {marked m : Finset Int}
    (destroy : Bool) (h : check_loop map (push_back_node [] x y z) marked = some m) :
    check_node x y z map destroy marked =
      ⟨m.card, if destroy then destroy_marked map m else map, ∅⟩ := by
  unfold check_node
  rw [h]

theorem check_node_of_loop_none {map : MapData} {x y z : Int} {marked : Finset Int}
    (destroy : Bool) (h : check_loop map (push_back_node [] x y z) marked = none) :
    check_node x y z map destroy marked = ⟨0, map, ∅⟩ := by
  unfold check_node
  rw [h]

/-- A seed with `z ≥ 62` ends the loop at once. -/
theorem check_loop_floor (map : MapData) (x y z : Int) (marked : Finset Int) (hz : z ≥ 62) :
    check_loop map (push_back_node [] x y z) marked = none := by
  unfold push_back_node
  rw [check_loop, if_pos hz]

/-- A seed above the floor none of whose in-bounds neighbours is solid is the
only voxel of its walk. -/
theorem check_loop_isolated (map : MapData) (x y z : Int) (hz : z < 62)
    (hiso : ∀ q, ¬ walk_step map ⟨x, y, z⟩ q) :
    check_loop map (push_back_node [] x y z) ∅ = some {get_pos x y z} := by
  have hnb : add_neighbors x y z map [] = [] := by
    apply List.eq_nil_iff_forall_not_mem.2
    intro q hq
    rcases (mem_add_neighbors q ⟨x, y, z⟩ map []).1 hq with h | h
    · simp at h
    · exact hiso q h
  unfold push_back_node
  rw [check_loop, if_neg (by simpa using hz), if_neg (by simp)]
  simp only [hnb]
  rw [check_loop]
  rfl

theorem destroy_marked_air (map : MapData) (k : Int) (hg : map.geometry k = false)
    (hc : map.colors k = none) : destroy_marked map {k} = map := by
  apply MapData.ext_fields
  · intro a
    rw [destroy_marked_geometry]
    by_cases h : a = k
    · simp [h, hg]
    · simp [h]
  · intro a
    rw [destroy_marked_colors]
    by_cases h : a = k
    · simp [h, hc]
    · simp [h]

theorem floating_voxel_isolated (q : Position) : ¬ walk_step floating_voxel ⟨256, 256, 30⟩ q := by
  rintro ⟨hadj, hb, hs⟩
  have hk : get_pos q.x q.y q.z = get_pos 256 256 30 := by
    simpa [floating_voxel] using hs
  have := get_pos_inj hb (by decide : in_bounds 256 256 30) hk
  unfold adjacent at hadj
  simp only at hadj
  omega

theorem floating_voxel_connected (p : Position)
    (h : connected floating_voxel ⟨256, 256, 30⟩ p) : p = ⟨256, 256, 30⟩ := by
  induction h with
  | refl => rfl
  | tail _ hstep ih =>
    subst ih
    exact absurd hstep (floating_voxel_isolated _)

/-- C4 (amended): for an in-bounds air seed, `check_node` returns 0 and leaves
the grid unchanged, for either destroy flag, only when the seed has `z ≥ 62` or
its walk reaches a voxel with `z ≥ 62`; otherwise the walk visits the seed
itself and every solid voxel reachable from it, the call returns their number
(at least 1, exactly 1 with the geometry unchanged when no in-bounds neighbour
of the seed is solid), `destroy = false` leaves the grid unchanged and
`destroy = true` clears exactly the visited keys. -/
theorem check_node_air_seed (map : MapData) (x y z : Int) (destroy : Bool)
    (hin : in_bounds x y z) (hair : map.geometry (get_pos x y z) = false) :
    (z ≥ 62 → check_node x y z map destroy ∅ = ⟨0, map, ∅⟩) ∧
    (supported map ⟨x, y, z⟩ → check_node x y z map destroy ∅ = ⟨0, map, ∅⟩) ∧
    (¬ supported map ⟨x, y, z⟩ →
      ∃ s : Finset Position, (∀ p, p ∈ s ↔ connected map ⟨x, y, z⟩ p) ∧
        (check_node x y z map destroy ∅).ret = s.card ∧ 1 ≤ s.card ∧
        (destroy = false → (check_node x y z map destroy ∅).map = map) ∧
        (destroy = true → ∀ k,
          (check_node x y z map destroy ∅).map.geometry k =
            (if ∃ p ∈ s, get_pos p.x p.y p.z = k then false else map.geometry k) ∧
          (check_node x y z map destroy ∅).map.colors k =
            (if ∃ p ∈ s, get_pos p.x p.y p.z = k then none else map.colors k))) ∧
    (z < 62 → (∀ q, ¬ walk_step map ⟨x, y, z⟩ q) →
      (check_node x y z map destroy ∅).ret = 1 ∧
      ∀ k, (check_node x y z map destroy ∅).map.geometry k = map.geometry k) := by
  refine ⟨?_, ?_, ?_, ?_⟩
  · intro hz
    exact check_node_of_loop_none destroy (check_loop_floor map x y z ∅ hz)
  · intro hsup
    exact check_node_of_supported map x y z destroy hin hsup
  · intro hns
    obtain ⟨s, h1, h2, _, h4, _, h6, h7⟩ := check_node_walk_set map x y z destroy hin hns
    exact ⟨s, h1, h2, Finset.card_pos.2 ⟨_, h4⟩, h6, h7⟩
  · intro hz hiso
    rw [check_node_of_loop_some destroy (check_loop_isolated map x y z hz hiso)]
    refine ⟨by simp, ?_⟩
    intro k
    cases destroy
    · simp
    · simp only [if_true, destroy_marked_geometry, Finset.mem_singleton]
      by_cases hk : k = get_pos x y z
      · simp [hk, hair]
      · simp [hk]

/-- C4 (amended), at the air seed (0,0,0) of the empty grid: the call returns
1, the seed itself. -/
theorem check_node_air_seed_witness :
    in_bounds 0 0 0 ∧ MapData.empty.geometry (get_pos 0 0 0) = false ∧
      (check_node 0 0 0 MapData.empty false ∅).ret = 1 := by
  refine ⟨by decide, rfl, ?_⟩
  refine ((check_node_air_seed MapData.empty 0 0 0 false (by decide) rfl).2.2.2 (by decide)
    ?_).1
  rintro q ⟨_, _, hs⟩
  simp [MapData.empty] at hs

/-- C4 as stated fails: the air seed (256,256,29) under the floating voxel
(256,256,30) makes `check_node` return 2, not 0, and with `destroy` set the
voxel (256,256,30) is removed. -/
theorem check_node_air_seed_counterexample :
    in_bounds 256 256 29 ∧ floating_voxel.geometry (get_pos 256 256 29) = false ∧
      floating_voxel.geometry (get_pos 256 256 30) = true ∧
      (check_node 256 256 29 floating_voxel true ∅).ret = 2 ∧
      (check_node 256 256 29 floating_voxel true ∅).map.geometry (get_pos 256 256 30) = false := by
  have hloop : check_loop floating_voxel (push_back_node [] 256 256 29) ∅ =
      some {get_pos 256 256 30, get_pos 256 256 29} := by
    have h1 : add_neighbors 256 256 29 floating_voxel [] = [⟨256, 256, 30⟩] := by
      simp [add_neighbors, add_node, push_back_node, floating_voxel, get_pos]
    have h2 : add_neighbors 256 256 30 floating_voxel [] = [] := by
      simp [add_neighbors, add_node, push_back_node, floating_voxel, get_pos]
    unfold push_back_node
    rw [check_loop, if_neg (by decide), if_neg (by simp)]
    simp only [h1]
    rw [check_loop, if_neg (by decide), if_neg (by simp [get_pos])]
    simp only [h2]
    rw [check_loop]
    rfl
  rw [check_node_of_loop_some true hloop]
  refine ⟨by decide, by simp [floating_voxel, get_pos], by simp [floating_voxel], ?_, ?_⟩
  · simp [get_pos]
  · simp [destroy_marked_geometry]

/-- C5 (amended): when `check_node` with `destroy` set returns `n > 0` for an
in-bounds seed, a further `check_node` on any voxel that call destroyed visits
that voxel alone: it returns 1 (not 0) and leaves the grid unchanged. -/
theorem check_node_after_destroy (map : MapData) (x y z : Int) (hin : in_bounds x y z)
    (a b c : Int) (hin2 : in_bounds a b c) (destroy2 : Bool)
    (hpos : (check_node x y z map true ∅).ret > 0)
    (hwas : map.geometry (get_pos a b c) = true)
    (hgone : (check_node x y z map true ∅).map.geometry (get_pos a b c) = false) :
    (check_node a b c (check_node x y z map true ∅).map destroy2
        (check_node x y z map true ∅).marked).ret = 1 ∧
    (check_node a b c (check_node x y z map true ∅).map destroy2
        (check_node x y z map true ∅).marked).map = (check_node x y z map true ∅).map := by
  by_cases hsup : supported map ⟨x, y, z⟩
  · rw [check_node_of_supported map x y z true hin hsup] at hpos
    simp at hpos
  · obtain ⟨s, h1, _, h3, _, h5, _, h7⟩ := check_node_walk_set map x y z true hin hsup
    have hmap := h7 rfl
    have hmem : (⟨a, b, c⟩ : Position) ∈ s := by
      have hg := (hmap (get_pos a b c)).1
      rw [hgone] at hg
      by_cases hex : ∃ p ∈ s, get_pos p.x p.y p.z = get_pos a b c
      · obtain ⟨p, hp, hk⟩ := hex
        obtain ⟨e1, e2, e3⟩ := get_pos_inj (h5 p hp).1 hin2 hk
        obtain ⟨px, py, pz⟩ := p
        simp only at e1 e2 e3
        subst e1 e2 e3
        exact hp
      · rw [if_neg hex, hwas] at hg
        exact absurd hg (by simp)
    have hc : c < 62 := (h5 _ hmem).2
    have hiso : ∀ q, ¬ walk_step (check_node x y z map true ∅).map ⟨a, b, c⟩ q := by
      rintro q ⟨hadj, hb, hs⟩
      rw [(hmap _).1] at hs
      by_cases hex : ∃ p ∈ s, get_pos p.x p.y p.z = get_pos q.x q.y q.z
      · rw [if_pos hex] at hs
        exact absurd hs (by simp)
      · rw [if_neg hex] at hs
        have hq : connected map ⟨x, y, z⟩ q :=
          Relation.ReflTransGen.tail ((h1 _).1 hmem) ⟨hadj, hb, hs⟩
        exact hex ⟨q, (h1 q).2 hq, rfl⟩
    have hcol : (check_node x y z map true ∅).map.colors (get_pos a b c) = none := by
      rw [(hmap _).2, if_pos ⟨_, hmem, rfl⟩]
    rw [h3, check_node_of_loop_some destroy2 (check_loop_isolated _ a b c hc hiso)]
    refine ⟨by simp, ?_⟩
    cases destroy2
    · simp
    · simp only [if_true]
      exact destroy_marked_air _ _ hgone hcol

/-- The first call on the floating voxel (256,256,30), with `destroy` set. -/
theorem floating_voxel_destroyed :
    check_node 256 256 30 floating_voxel true ∅ =
      ⟨1, destroy_marked floating_voxel {get_pos 256 256 30}, ∅⟩ := by
  rw [check_node_of_loop_some true
    (check_loop_isolated floating_voxel 256 256 30 (by decide) floating_voxel_isolated)]
  simp

/-- C5 (amended), at the floating voxel: destroying it returns 1, and a second
call on it returns 1 again. -/
theorem check_node_after_destroy_witness :
    in_bounds 256 256 30 ∧
      (check_node 256 256 30 floating_voxel true ∅).ret > 0 ∧
      floating_voxel.geometry (get_pos 256 256 30) = true ∧
      (check_node 256 256 30 floating_voxel true ∅).map.geometry (get_pos 256 256 30) = false ∧
      (check_node 256 256 30 (check_node 256 256 30 floating_voxel true ∅).map true
        (check_node 256 256 30 floating_voxel true ∅).marked).ret = 1 := by
  have hin : in_bounds 256 256 30 := by decide
  have h1 : (check_node 256 256 30 floating_voxel true ∅).ret > 0 := by
    rw [floating_voxel_destroyed]; decide
  have h2 : floating_voxel.geometry (get_pos 256 256 30) = true := by simp [floating_voxel]
  have h3 : (check_node 256 256 30 floating_voxel true ∅).map.geometry (get_pos 256 256 30)
      = false := by
    rw [floating_voxel_destroyed]
    simp [destroy_marked_geometry]
  exact ⟨hin, h1, h2, h3,
    (check_node_after_destroy floating_voxel 256 256 30 hin 256 256 30 hin true h1 h2 h3).1⟩

/-- C5 as stated fails: after the floating voxel (256,256,30) is destroyed by a
call that returns 1, a further call on that voxel returns 1, not 0. -/
theorem check_node_after_destroy_counterexample :
    (check_node 256 256 30 floating_voxel true ∅).ret = 1 ∧
      floating_voxel.geometry (get_pos 256 256 30) = true ∧
      (check_node 256 256 30 floating_voxel true ∅).map.geometry (get_pos 256 256 30) = false ∧
      (check_node 256 256 30 (check_node 256 256 30 floating_voxel true ∅).map false
        (check_node 256 256 30 floating_voxel true ∅).marked).ret = 1 := by
  rw [floating_voxel_destroyed]
  have hiso : ∀ q, ¬ walk_step (destroy_marked floating_voxel {get_pos 256 256 30})
      ⟨256, 256, 30⟩ q := by
    rintro q ⟨hadj, hb, hs⟩
    rw [destroy_marked_geometry] at hs
    by_cases hk : get_pos q.x q.y q.z = get_pos 256 256 30
    · simp [hk] at hs
    · simp [hk, floating_voxel] at hs
  refine ⟨rfl, by simp [floating_voxel], by simp [destroy_marked_geometry], ?_⟩
  rw [check_node_of_loop_some false (check_loop_isolated _ 256 256 30 (by decide) hiso)]
  simp

/-- C6: `check_node` with `destroy = false` leaves geometry and colors
unchanged, it leaves the static visited set empty, and a second call with the
same arguments returns the same value. -/
theorem check_node_stable (map : MapData) (x y z : Int) :
    (check_node x y z map false ∅).map = map ∧
    (check_node x y z map false ∅).marked = ∅ ∧
    (check_node x y z (check_node x y z map false ∅).map false
      (check_node x y z map false ∅).marked).ret = (check_node x y z map false ∅).ret := by
  have h1 : (check_node x y z map false ∅).map = map := by
    unfold check_node
    cases check_loop map (push_back_node [] x y z) ∅ <;> simp
  have h2 : (check_node x y z map false ∅).marked = ∅ := by
    unfold check_node
    cases check_loop map (push_back_node [] x y z) ∅ <;> rfl
  refine ⟨h1, h2, ?_⟩
  rw [h1, h2]

/-- C7: for an in-bounds solid seed, when `check_node` with `destroy` set
returns `n > 0`, the `n` voxels of the seed's component, all solid before and
all with `z < 62`, are air afterwards with their colors erased, every other
key keeps its geometry bit and its color, and in particular no voxel with
`z ≥ 62` is removed; when it returns 0 the grid is unchanged. -/
theorem check_node_destroy_frame (map : MapData) (x y z : Int)
    (hin : in_bounds x y z) (hsolid : map.geometry (get_pos x y z) = true) :
    ((check_node x y z map true ∅).ret > 0 →
      ∃ s : Finset Position,
        (s.card : Int) = (check_node x y z map true ∅).ret ∧
        (∀ p, p ∈ s ↔ connected map ⟨x, y, z⟩ p) ∧
        (∀ a b c, (⟨a, b, c⟩ : Position) ∈ s → in_bounds a b c ∧ c < 62 ∧
          map.geometry (get_pos a b c) = true ∧
          (check_node x y z map true ∅).map.geometry (get_pos a b c) = false ∧
          (check_node x y z map true ∅).map.colors (get_pos a b c) = none) ∧
        (∀ k, (∀ p ∈ s, get_pos p.x p.y p.z ≠ k) →
          (check_node x y z map true ∅).map.geometry k = map.geometry k ∧
          (check_node x y z map true ∅).map.colors k = map.colors k) ∧
        (∀ a b c, in_bounds a b c → c ≥ 62 →
          (check_node x y z map true ∅).map.geometry (get_pos a b c) =
            map.geometry (get_pos a b c) ∧
          (check_node x y z map true ∅).map.colors (get_pos a b c) =
            map.colors (get_pos a b c))) ∧
    ((check_node x y z map true ∅).ret = 0 → (check_node x y z map true ∅).map = map) := by
  by_cases hsup : supported map ⟨x, y, z⟩
  · rw [check_node_of_supported map x y z true hin hsup]
    exact ⟨fun h => absurd h (by simp), fun _ => rfl⟩
  · obtain ⟨s, h1, h2, _, h4, h5, _, h7⟩ := check_node_walk_set map x y z true hin hsup
    have hmap := h7 rfl
    have hframe : ∀ k, (∀ p ∈ s, get_pos p.x p.y p.z ≠ k) →
        (check_node x y z map true ∅).map.geometry k = map.geometry k ∧
        (check_node x y z map true ∅).map.colors k = map.colors k := by
      intro k hk
      have hex : ¬ ∃ p ∈ s, get_pos p.x p.y p.z = k := by
        rintro ⟨p, hp, e⟩
        exact hk p hp e
      rw [(hmap k).1, (hmap k).2, if_neg hex, if_neg hex]
      exact ⟨rfl, rfl⟩
    constructor
    · intro _
      refine ⟨s, h2.symm, h1, ?_, hframe, ?_⟩
      · intro a b c hp
        refine ⟨(h5 _ hp).1, (h5 _ hp).2, connected_solid hsolid ((h1 _).1 hp), ?_, ?_⟩
        · rw [(hmap _).1, if_pos ⟨_, hp, rfl⟩]
        · rw [(hmap _).2, if_pos ⟨_, hp, rfl⟩]
      · intro a b c hb hc
        apply hframe
        intro p hp e
        have := get_pos_inj (h5 p hp).1 hb e
        have := (h5 p hp).2
        omega
    · intro h0
      rw [h2] at h0
      have : 0 < s.card := Finset.card_pos.2 ⟨_, h4⟩
      omega

/-- C7, the single floating voxel: the grid whose only solid voxel is
(256,256,30), colored 0xFFFF0000, returns 1 and ends with that voxel air and
uncolored. -/
theorem check_node_destroy_frame_witness :
    in_bounds 256 256 30 ∧ floating_voxel.geometry (get_pos 256 256 30) = true ∧
      floating_voxel.colors (get_pos 256 256 30) = some 0xFFFF0000 ∧
      (check_node 256 256 30 floating_voxel true ∅).ret = 1 ∧
      (check_node 256 256 30 floating_voxel true ∅).map.geometry (get_pos 256 256 30) = false ∧
      (check_node 256 256 30 floating_voxel true ∅).map.colors (get_pos 256 256 30) = none := by
  have hin : in_bounds 256 256 30 := by decide
  have hsolid : floating_voxel.geometry (get_pos 256 256 30) = true := by simp [floating_voxel]
  have hret : (check_node 256 256 30 floating_voxel true ∅).ret = 1 := by
    rw [floating_voxel_destroyed]
  obtain ⟨s, _, h2, h3, _⟩ :=
    (check_node_destroy_frame floating_voxel 256 256 30 hin hsolid).1 (by rw [hret]; decide)
  have hmem : (⟨256, 256, 30⟩ : Position) ∈ s := (h2 _).2 Relation.ReflTransGen.refl
  exact ⟨hin, hsolid, by simp [floating_voxel], hret, (h3 _ _ _ hmem).2.2.2.1,
    (h3 _ _ _ hmem).2.2.2.2⟩

theorem skip_while_spec (cond : Int → Bool) (k : Int) (hk : k ≤ 64) :
    k ≤ skip_while cond k ∧ skip_while cond k ≤ 64 ∧
    (∀ t, k ≤ t → t < skip_while cond k → cond t = true) ∧
    (skip_while cond k < 64 → cond (skip_while cond k) = false) := by
  induction k using skip_while.induct cond with
  | case1 k h ih =>
    have hlt : k < 64 := by simpa [MAP_Z] using h.1
    obtain ⟨i1, i2, i3, i4⟩ := ih (by omega)
    rw [skip_while, if_pos h]
    refine ⟨by omega, i2, ?_, i4⟩
    intro t ht1 ht2
    by_cases e : t = k
    · rw [e]; exact h.2
    · exact i3 t (by omega) ht2
  | case2 k h =>
    rw [skip_while, if_neg h]
    refine ⟨le_refl _, hk, fun t h1 h2 => by omega, ?_⟩
    intro hlt
    by_contra hc
    exact h ⟨by simpa [MAP_Z] using hlt, by simpa using hc⟩

theorem skip_surface_eq (map : MapData) (i j : Int) (fuel : Nat) (k r : Int)
    (hkr : k ≤ r) (hfuel : r - k < fuel)
    (hrun : ∀ t, k ≤ t → t < r → is_surface map i j t ≠ 0)
    (hend : is_surface map i j r = 0) :
    skip_surface map i j fuel k = r := by
  induction fuel generalizing k with
  | zero => omega
  | succ fuel ih =>
    rw [skip_surface]
    by_cases e : k = r
    · rw [e, if_neg (by simp [hend])]
    · rw [if_pos (hrun k (le_refl _) (by omega))]
      exact ih (k + 1) (by omega) (by omega) (fun t h1 h2 => hrun t (by omega) h2)

theorem is_surface_solid (map : MapData) (x y z : Int) (h : is_surface map x y z ≠ 0) :
    map.geometry (get_pos x y z) = true := by
  unfold is_surface at h
  by_cases hg : map.geometry (get_pos x y z) = false
  · simp [hg] at h
  · simpa using hg

theorem is_surface_top (map : MapData) (x y : Int)
    (h : map.geometry (get_pos x y 0) = true) : is_surface map x y 0 = 1 := by
  unfold is_surface
  simp [h]

theorem is_surface_zero_or_one (map : MapData) (x y z : Int) :
    is_surface map x y z = 0 ∨ is_surface map x y z = 1 := by
  unfold is_surface
  split_ifs <;> simp

/-- What one iteration of the span loop finds in the column from `k` on: air
up to `t0`, the top run of surface voxels up to `t1`, solid voxels that are no
surface up to `b0`, the bottom run of surface voxels up to `b1`. -/
theorem save_span_spec (map : MapData) (i j k : Int) (h0 : 0 ≤ k) (hk : k < 64) :
    ∃ t0 t1 b0 b1 : Int,
      k ≤ t0 ∧ t0 ≤ t1 ∧ t1 ≤ b0 ∧ b0 ≤ b1 ∧ b1 ≤ 64 ∧ k < b1 ∧ 1 ≤ t1 ∧
      (∀ t, k ≤ t → t < t0 → map.geometry (get_pos i j t) = false) ∧
      (∀ t, t0 ≤ t → t < t1 → is_surface map i j t ≠ 0) ∧
      (∀ t, t1 ≤ t → t < b0 →
        map.geometry (get_pos i j t) = true ∧ is_surface map i j t = 0) ∧
      (∀ t, b0 ≤ t → t < b1 → is_surface map i j t ≠ 0) ∧
      (b1 = 64 → b0 = 64) ∧
      save_span map i j k =
        ([to_byte (if b1 = 64 then 0 else (t1 - t0) + (b1 - b0) + 1), to_byte t0,
          to_byte (t1 - 1), to_byte k]
          ++ write_colors map i j t0 (t1 - t0) ++ write_colors map i j b0 (b1 - b0), b1) := by
  obtain ⟨a1, a2, a3, a4⟩ :=
    skip_while_spec (fun k => !map.geometry (get_pos i j k)) k (by omega)
  generalize ht0 : skip_while (fun k => !map.geometry (get_pos i j k)) k = t0 at a1 a2 a3 a4
  obtain ⟨c1, c2, c3, c4⟩ :=
    skip_while_spec (fun k => decide (is_surface map i j k ≠ 0)) t0 a2
  generalize ht1 : skip_while (fun k => decide (is_surface map i j k ≠ 0)) t0 = t1
    at c1 c2 c3 c4
  obtain ⟨d1, d2, d3, d4⟩ := skip_while_spec
    (fun k => map.geometry (get_pos i j k) && !decide (is_surface map i j k ≠ 0)) t1 c2
  generalize hb0 : skip_while
    (fun k => map.geometry (get_pos i j k) && !decide (is_surface map i j k ≠ 0)) t1 = b0
    at d1 d2 d3 d4
  obtain ⟨e1, e2, e3, e4⟩ :=
    skip_while_spec (fun k => decide (is_surface map i j k ≠ 0)) b0 d2
  generalize hz : skip_while (fun k => decide (is_surface map i j k ≠ 0)) b0 = z
    at e1 e2 e3 e4
  have hair : ∀ t, k ≤ t → t < t0 → map.geometry (get_pos i j t) = false := by
    intro t h1 h2
    simpa using a3 t h1 h2
  have htop : ∀ t, t0 ≤ t → t < t1 → is_surface map i j t ≠ 0 := by
    intro t h1 h2
    simpa using c3 t h1 h2
  have hmid : ∀ t, t1 ≤ t → t < b0 →
      map.geometry (get_pos i j t) = true ∧ is_surface map i j t = 0 := by
    intro t h1 h2
    simpa using d3 t h1 h2
  have hsolid0 : t0 < 64 → map.geometry (get_pos i j t0) = true := by
    intro h
    simpa using a4 h
  have ht1pos : 1 ≤ t1 := by
    by_contra hcon
    have e0 : t0 = 0 := by omega
    have e1 : t1 = 0 := by omega
    have hs := hsolid0 (by omega)
    rw [e0] at hs
    have := c4 (by omega)
    rw [e1, is_surface_top map i j hs] at this
    simp at this
  have hkb0 : k < b0 := by
    by_contra hcon
    have e0 : t0 = k := by omega
    have e1 : t1 = k := by omega
    have e2 : b0 = k := by omega
    have hs := hsolid0 (by omega)
    have f1 := c4 (by omega)
    have f2 := d4 (by omega)
    rw [e1] at f1
    rw [e2] at f2
    rw [e0] at hs
    simp only [decide_eq_false_iff_not, ne_eq, not_not] at f1
    simp [hs, f1] at f2
  have hsave : save_span map i j k =
      ([to_byte (if (if z = MAP_Z then b0 else skip_surface map i j 64 b0) = MAP_Z then 0
          else (t1 - t0) + ((if z = MAP_Z then b0 else skip_surface map i j 64 b0) - b0) + 1),
        to_byte t0, to_byte (t1 - 1), to_byte k]
        ++ write_colors map i j t0 (t1 - t0)
        ++ write_colors map i j b0 ((if z = MAP_Z then b0 else skip_surface map i j 64 b0) - b0),
        (if z = MAP_Z then b0 else skip_surface map i j 64 b0)) := by
    simp only [save_span, ht0, ht1, hb0, hz]
  by_cases hzz : z = MAP_Z
  · rw [if_pos hzz] at hsave
    refine ⟨t0, t1, b0, b0, a1, c1, d1, le_refl _, d2, hkb0, ht1pos, hair, htop, hmid,
      fun t h1 h2 => by omega, fun h => h, ?_⟩
    rw [hsave]
    simp [MAP_Z]
  · rw [if_neg hzz] at hsave
    have hz64 : z < 64 := by
      have : z ≠ 64 := by simpa [MAP_Z] using hzz
      omega
    have hrun : ∀ t, b0 ≤ t → t < z → is_surface map i j t ≠ 0 := by
      intro t h1 h2
      simpa using e3 t h1 h2
    have hend : is_surface map i j z = 0 := by
      simpa using e4 hz64
    have hss := skip_surface_eq map i j 64 b0 z e1 (by omega) hrun hend
    rw [hss] at hsave
    refine ⟨t0, t1, b0, z, a1, c1, d1, e1, e2, by omega, ht1pos, hair, htop, hmid, hrun,
      fun h => by omega, ?_⟩
    rw [hsave]
    simp [MAP_Z]

theorem save_span_progress (map : MapData) (i j k : Int) (h0 : 0 ≤ k) (hk : k < 64) :
    k < (save_span map i j k).2 ∧ (save_span map i j k).2 ≤ 64 := by
  obtain ⟨t0, t1, b0, b1, _, _, _, _, h5, h6, _, _, _, _, _, _, hs⟩ :=
    save_span_spec map i j k h0 hk
  rw [hs]
  exact ⟨h6, h5⟩

/-- The column loop never uses up its iterations: from `k ≥ 0` any `fuel`
of at least `64 - k` gives the same bytes. -/
theorem save_spans_fuel (map : MapData) (i j : Int) (fuel1 fuel2 : Nat) (k : Int)
    (h0 : 0 ≤ k) (h1 : 64 - k ≤ fuel1) (h2 : 64 - k ≤ fuel2) :
    save_spans map i j fuel1 k = save_spans map i j fuel2 k := by
  induction fuel1 generalizing k fuel2 with
  | zero =>
    cases fuel2 with
    | zero => rfl
    | succ n => simp only [save_spans, MAP_Z]; rw [if_neg (by omega)]
  | succ n ih =>
    cases fuel2 with
    | zero => simp only [save_spans, MAP_Z]; rw [if_neg (by omega)]
    | succ m =>
      simp only [save_spans, MAP_Z]
      by_cases hk : k < 64
      · rw [if_pos hk, if_pos hk]
        obtain ⟨p1, p2⟩ := save_span_progress map i j k h0 hk
        rw [ih m _ (by omega) (by omega) (by omega)]
      · rw [if_neg hk, if_neg hk]

theorem skip_while_eq (cond : Int → Bool) (k r : Int) (hkr : k ≤ r) (hr : r ≤ 64)
    (hrun : ∀ t, k ≤ t → t < r → cond t = true) (hend : r < 64 → cond r = false) :
    skip_while cond k = r := by
  obtain ⟨s1, s2, s3, s4⟩ := skip_while_spec cond k (by omega)
  by_contra hne
  rcases lt_or_gt_of_ne hne with h | h
  · have := hrun _ s1 h
    rw [s4 (by omega)] at this
    simp at this
  · have := s3 r hkr h
    rw [hend (by omega)] at this
    simp at this

/-- C9 (amended): for in-bounds `(x, y, z)`, `is_surface` returns 1 exactly
when the voxel is solid and either `z = 0` or one of its in-map axis
neighbours is air, and 0 otherwise; an off-map neighbour counts as air only
in the `-Z` direction (`z = 0`), never in `+Z` (`z = 63`) nor in `±X`, `±Y`. -/
theorem is_surface_iff (map : MapData) (x y z : Int) (hin : in_bounds x y z) :
    (is_surface map x y z = 1 ↔
      map.geometry (get_pos x y z) = true ∧
        (z = 0 ∨ ∃ a b c, adjacent ⟨x, y, z⟩ ⟨a, b, c⟩ ∧ in_bounds a b c ∧
          map.geometry (get_pos a b c) = false)) ∧
    (is_surface map x y z = 0 ∨ is_surface map x y z = 1) := by
  refine ⟨?_, is_surface_zero_or_one map x y z⟩
  obtain ⟨h1, h2, h3, h4, h5, h6⟩ := hin
  constructor
  · intro h
    have hs : map.geometry (get_pos x y z) = true :=
      is_surface_solid map x y z (by rw [h]; decide)
    refine ⟨hs, ?_⟩
    by_cases hz : z = 0
    · exact Or.inl hz
    · right
      unfold is_surface at h
      rw [if_neg (by simp [hs]), if_neg hz] at h
      unfold adjacent in_bounds
      simp only
      split_ifs at h with c1 c2 c3 c4 c5 c6
      · exact ⟨x - 1, y, z, by omega, by omega, c1.2⟩
      · exact ⟨x + 1, y, z, by omega, by omega, c2.2⟩
      · exact ⟨x, y - 1, z, by omega, by omega, c3.2⟩
      · exact ⟨x, y + 1, z, by omega, by omega, c4.2⟩
      · exact ⟨x, y, z - 1, by omega, by omega, c5.2⟩
      · exact ⟨x, y, z + 1, by omega, by omega, c6.2⟩
      · exact absurd h (by decide)
  · rintro ⟨hs, hz | ⟨a, b, c, hadj, hb, hair⟩⟩
    · unfold is_surface
      rw [if_neg (by simp [hs]), if_pos hz]
    · unfold is_surface
      rw [if_neg (by simp [hs])]
      unfold adjacent at hadj
      unfold in_bounds at hb
      simp only at hadj
      by_cases hz : z = 0
      · rw [if_pos hz]
      · rw [if_neg hz]
        rcases hadj with ⟨ea, eb, ec | ec⟩ | ⟨ea, ec, eb | eb⟩ | ⟨eb, ec, ea | ea⟩ <;>
          (rw [ea, eb, ec] at hair hb)
        · have c5 : z > 0 ∧ map.geometry (get_pos x y (z - 1)) = false := ⟨by omega, hair⟩
          split_ifs <;> rfl
        · have c6 : z + 1 < 64 ∧ map.geometry (get_pos x y (z + 1)) = false :=
            ⟨by omega, hair⟩
          split_ifs <;> rfl
        · have c3 : y > 0 ∧ map.geometry (get_pos x (y - 1) z) = false := ⟨by omega, hair⟩
          split_ifs <;> rfl
        · have c4 : y + 1 < 512 ∧ map.geometry (get_pos x (y + 1) z) = false :=
            ⟨by omega, hair⟩
          split_ifs <;> rfl
        · have c1 : x > 0 ∧ map.geometry (get_pos (x - 1) y z) = false := ⟨by omega, hair⟩
          rw [if_pos c1]
        · have c2 : x + 1 < 512 ∧ map.geometry (get_pos (x + 1) y z) = false :=
            ⟨by omega, hair⟩
          split_ifs <;> rfl

/-- C9 as stated fails at the bedrock layer: in the all-solid grid the voxel
(1,1,63) is solid and its `+Z` neighbour is off the map, yet `is_surface`
returns 0. -/
theorem is_surface_counterexample :
    in_bounds 1 1 63 ∧ solid_map.geometry (get_pos 1 1 63) = true ∧
      ¬ in_bounds 1 1 (63 + 1) ∧ is_surface solid_map 1 1 63 = 0 := by
  refine ⟨by decide, rfl, by decide, ?_⟩
  simp [is_surface, solid_map]

/-- C9 (amended), at the voxel (1,1,63) of the grid with only the bedrock
layer: it is solid, its `-Z` neighbour (1,1,62) is air, so it is a surface. -/
theorem is_surface_iff_witness :
    in_bounds 1 1 63 ∧ is_surface bedrock 1 1 63 = 1 := by
  refine ⟨by decide, ((is_surface_iff bedrock 1 1 63 (by decide)).1).2 ⟨by decide, Or.inr ?_⟩⟩
  exact ⟨1, 1, 62, by decide, by decide, by decide⟩

/-- The column `(i, j)` of the bedrock grid. -/
theorem bedrock_geometry (i j z : Int) (hi : 0 ≤ i ∧ i < 512) (hj : 0 ≤ j ∧ j < 512) :
    bedrock.geometry (get_pos i j z) = decide (z = 63) := by
  have : get_pos i j z / 262144 = z := by
    unfold get_pos
    omega
  simp [bedrock, this]

theorem bedrock_surface (i j : Int) (hi : 0 ≤ i ∧ i < 512) (hj : 0 ≤ j ∧ j < 512) (z : Int) :
    is_surface bedrock i j z = if z = 63 then 1 else 0 := by
  unfold is_surface
  rw [bedrock_geometry i j z hi hj]
  by_cases hz : z = 63
  · subst hz
    have h62 : bedrock.geometry (get_pos i j (63 - 1)) = false := by
      rw [bedrock_geometry i j _ hi hj]; decide
    simp only [decide_True, Bool.true_eq_false, if_false, if_true]
    rw [if_neg (by decide)]
    split_ifs with c1 c2 c3 c4 c5 <;> first | rfl | skip
    exact absurd ⟨by decide, h62⟩ c5
  · simp [hz]

/-- The bytes `save_vxl` writes for a column of the bedrock grid. -/
theorem bedrock_column (i j : Int) (hi : 0 ≤ i ∧ i < 512) (hj : 0 ≤ j ∧ j < 512) :
    save_column bedrock i j = [0, 63, 63, 0, 0x80, 0x80, 0x80, 0xFF] := by
  have e1 : skip_while (fun k => !bedrock.geometry (get_pos i j k)) 0 = 63 := by
    apply skip_while_eq _ _ _ (by decide) (by decide)
    · intro t h1 h2
      simp only [bedrock_geometry i j t hi hj]
      simp; omega
    · intro _
      simp only [bedrock_geometry i j 63 hi hj]
      simp
  have e2 : skip_while (fun k => decide (is_surface bedrock i j k ≠ 0)) 63 = 64 := by
    apply skip_while_eq _ _ _ (by decide) (by decide)
    · intro t h1 h2
      have : t = 63 := by omega
      simp [bedrock_surface i j hi hj, this]
    · intro h
      exact absurd h (by decide)
  have e3 : ∀ c : Int → Bool, skip_while c 64 = 64 := by
    intro c
    exact skip_while_eq _ _ _ (le_refl _) (le_refl _) (fun t h1 h2 => by omega)
      (fun h => absurd h (by decide))
  have hspan : save_span bedrock i j 0 = ([0, 63, 63, 0, 0x80, 0x80, 0x80, 0xFF], 64) := by
    simp only [save_span, e1, e2, e3]
    simp [MAP_Z, to_byte, write_colors, write_color, get_write_color, bedrock, get_pos,
      List.range_succ]
    have h2 : (i + j * 512 + 16515072) / 262144 = 63 := by omega
    simp [h2]
  unfold save_column
  rw [show (64 : Nat) = 63 + 1 from rfl, save_spans, if_pos (by decide), hspan]
  simp only
  rw [show (63 : Nat) = 62 + 1 from rfl, save_spans, if_neg (by decide)]
  simp

/-- Two nested loops over a grid of `a` rows and `b` columns visit the cells
in the order of the linear index `c = row * b + column`. -/
theorem flatMap_grid {α : Type} (a b : Nat) (hb : 0 < b) (f : Nat → Nat → List α) :
    ((List.range a).flatMap fun j => (List.range b).flatMap fun i => f i j) =
      (List.range (a * b)).flatMap fun c => f (c % b) (c / b) := by
  induction a with
  | zero => simp
  | succ a ih =>
    rw [List.range_succ, List.flatMap_append, List.flatMap_singleton, ih,
      Nat.succ_mul, List.range_add, List.flatMap_append, List.flatMap_map]
    congr 1
    apply List.flatMap_congr
    intro i hi
    have hi2 : i < b := List.mem_range.1 hi
    have e1 : (a * b + i) % b = i := by
      rw [Nat.add_comm, Nat.add_mul_mod_self_right, Nat.mod_eq_of_lt hi2]
    have e2 : (a * b + i) / b = a := by
      rw [Nat.add_comm, Nat.add_mul_div_right _ _ hb, Nat.div_eq_of_lt hi2, Nat.zero_add]
    rw [e1, e2]

theorem save_vxl_loops_linear (map : MapData) :
    save_vxl_loops map = (List.range 262144).flatMap (column_bytes map) := by
  unfold save_vxl_loops
  rw [flatMap_grid 512 512 (by decide) (fun i j => save_column map (i : Int) (j : Int))]
  rfl

/-- In the grid where exactly the voxels at `z = 63` are solid, each colored
0xFF808080, the loops of `save_vxl` write for every column the eight bytes
`0, 63, 63, 0, 0x80, 0x80, 0x80, 0xFF`. -/
theorem save_vxl_loops_bedrock :
    (∀ i j : Int, 0 ≤ i → i < 512 → 0 ≤ j → j < 512 →
      save_column bedrock i j = [0, 63, 63, 0, 0x80, 0x80, 0x80, 0xFF]) ∧
    save_vxl_loops bedrock =
      (List.range 262144).flatMap fun _ => [0, 63, 63, 0, 0x80, 0x80, 0x80, 0xFF] := by
  refine ⟨fun i j h1 h2 h3 h4 => bedrock_column i j ⟨h1, h2⟩ ⟨h3, h4⟩, ?_⟩
  rw [save_vxl_loops_linear]
  apply List.flatMap_congr
  intro c hc
  have hc2 : c < 262144 := List.mem_range.1 hc
  unfold column_bytes
  exact bedrock_column _ _ ⟨by omega, by omega⟩ ⟨by omega, by omega⟩

/-- C8 as stated fails: the fourth header byte of the column (0,0) of the
bedrock grid is `A = 0`, not 63. -/
theorem save_vxl_bedrock_counterexample :
    save_column bedrock 0 0 = [0, 63, 63, 0, 0x80, 0x80, 0x80, 0xFF] ∧
      save_column bedrock 0 0 ≠ [0, 63, 63, 63, 0x80, 0x80, 0x80, 0xFF] := by
  have h := bedrock_column 0 0 ⟨by decide, by decide⟩ ⟨by decide, by decide⟩
  refine ⟨h, ?_⟩
  rw [h]
  decide

theorem holds_nil (v : Int → Nat) (p : Int) : holds v p [] := by
  intro n hn
  simp at hn

theorem holds_cons (v : Int → Nat) (p : Int) (b : Nat) (bs : List Nat) :
    holds v p (b :: bs) ↔ v p = b ∧ holds v (p + 1) bs := by
  constructor
  · intro h
    constructor
    · have := h 0 (by simp)
      simpa using this.symm
    · intro n hn
      have := h (n + 1) (by simpa using hn)
      rw [List.getElem?_cons_succ] at this
      rw [this]
      congr 2
      push_cast
      ring
  · rintro ⟨h0, h1⟩ n hn
    cases n with
    | zero => simp [h0]
    | succ n =>
      rw [List.getElem?_cons_succ, h1 n (by simpa using hn)]
      congr 2
      push_cast
      ring

theorem holds_append (v : Int → Nat) (p : Int) (a b : List Nat) :
    holds v p (a ++ b) ↔ holds v p a ∧ holds v (p + a.length) b := by
  induction a generalizing p with
  | nil => simp [holds_nil]
  | cons x a ih =>
    rw [List.cons_append, holds_cons, holds_cons, ih, and_assoc]
    have : p + 1 + (a.length : Int) = p + (((x :: a).length : Nat) : Int) := by
      rw [List.length_cons]; push_cast; ring
    rw [this]

theorem holds_buffer_append (pre l : List Nat) :
    holds (buffer (pre ++ l)) pre.length l := by
  intro n hn
  simp only [buffer]
  rw [if_pos (by omega)]
  have e : ((pre.length : Int) + (n : Int)).toNat = pre.length + n := by omega
  rw [e, List.getD_eq_getElem?_getD, List.getElem?_append_right (by omega)]
  simp [List.getElem?_eq_getElem hn]

theorem holds_buffer (l : List Nat) : holds (buffer l) 0 l := by
  simpa using holds_buffer_append [] l

theorem set_geometry_geometry (m : MapData) (k : Int) (bit : Bool) (key : Int) :
    (m.set_geometry k bit).geometry key = if key = k then bit else m.geometry key := rfl

theorem set_geometry_colors (m : MapData) (k : Int) (bit : Bool) :
    (m.set_geometry k bit).colors = m.colors := rfl

theorem set_color_colors (m : MapData) (k : Int) (c : Nat) (key : Int) :
    (m.set_color k c).colors key = if key = k then some c else m.colors key := rfl

theorem set_color_geometry (m : MapData) (k : Int) (c : Nat) :
    (m.set_color k c).geometry = m.geometry := rfl

theorem read_byte_of (v : Int → Nat) (p x : Int) (h : v p = to_byte x) (h0 : 0 ≤ x)
    (h1 : x < 256) : read_byte v p = x := by
  unfold read_byte
  rw [h]
  unfold to_byte
  omega

theorem read_color_of (v : Int → Nat) (p : Int) (c : Nat) (h : holds v p (write_color c)) :
    read_color v p = c % 4294967296 := by
  simp only [write_color, holds_cons] at h
  obtain ⟨h0, h1, h2, h3, _⟩ := h
  unfold read_color
  have e2 : p + 1 + 1 = p + 2 := by ring
  have e3 : p + 1 + 1 + 1 = p + 3 := by ring
  rw [e2] at h2
  rw [e3] at h3
  rw [h0, h1, h2, h3]
  omega

theorem length_write_color (c : Nat) : (write_color c).length = 4 := rfl

theorem length_color_run (g : Nat → Nat) (n : Nat) :
    ((List.range n).flatMap fun z => write_color (g z)).length = 4 * n := by
  induction n with
  | zero => rfl
  | succ n ih =>
    rw [List.range_succ, List.flatMap_append, List.length_append, ih, List.flatMap_singleton,
      length_write_color]
    omega

theorem holds_color_run (v : Int → Nat) (p : Int) (g : Nat → Nat) (n : Nat)
    (h : holds v p ((List.range n).flatMap fun z => write_color (g z))) (m : Nat) (hm : m < n) :
    read_color v (p + 4 * m) = g m % 4294967296 := by
  induction n with
  | zero => omega
  | succ n ih =>
    rw [List.range_succ, List.flatMap_append, holds_append, List.flatMap_singleton,
      length_color_run] at h
    by_cases e : m = n
    · subst e
      apply read_color_of
      have := h.2
      push_cast at this
      exact this
    · exact ih h.1 (by omega)

theorem length_write_colors (map : MapData) (i j start len : Int) :
    (write_colors map i j start len).length = 4 * len.toNat := by
  unfold write_colors
  exact length_color_run (fun z => get_write_color map i j (start + z)) len.toNat

theorem holds_write_colors (v : Int → Nat) (p : Int) (map : MapData) (i j start len : Int)
    (h : holds v p (write_colors map i j start len)) (m : Nat) (hm : m < len.toNat) :
    read_color v (p + 4 * m) = get_write_color map i j (start + m) % 4294967296 := by
  unfold write_colors at h
  exact holds_color_run v p (fun z => get_write_color map i j (start + z)) len.toNat h m hm

theorem get_pos_column_inj (x y t s : Int) : get_pos x y t = get_pos x y s ↔ t = s := by
  unfold get_pos
  constructor
  · intro h; omega
  · intro h; rw [h]

theorem fold_set_geometry (map : MapData) (x y z : Int) (bit : Bool) (n : Nat) :
    ((List.range n).foldl (fun m k => m.set_geometry (get_pos x y (z + k)) bit) map).colors =
        map.colors ∧
    ∀ key, ((List.range n).foldl
        (fun m k => m.set_geometry (get_pos x y (z + k)) bit) map).geometry key =
      if ∃ k : Nat, k < n ∧ key = get_pos x y (z + k) then bit else map.geometry key := by
  induction n with
  | zero => simp
  | succ n ih =>
    rw [List.range_succ, List.foldl_append]
    simp only [List.foldl_cons, List.foldl_nil, set_geometry_geometry, set_geometry_colors]
    refine ⟨ih.1, ?_⟩
    intro key
    by_cases e : key = get_pos x y (z + n)
    · rw [if_pos e, if_pos ⟨n, by omega, e⟩]
    · rw [if_neg e, ih.2]
      by_cases h : ∃ k : Nat, k < n ∧ key = get_pos x y (z + k)
      · obtain ⟨k, hk, hkey⟩ := h
        rw [if_pos ⟨k, hk, hkey⟩, if_pos ⟨k, by omega, hkey⟩]
      · rw [if_neg h, if_neg]
        rintro ⟨k, hk, hkey⟩
        by_cases e2 : k = n
        · subst e2; exact e hkey
        · exact h ⟨k, by omega, hkey⟩

theorem carve_air_colors (map : MapData) (x y z s : Int) :
    (carve_air map x y z s).colors = map.colors := by
  unfold carve_air
  exact (fold_set_geometry map x y z false _).1

theorem carve_air_column (map : MapData) (x y z s t : Int) :
    (carve_air map x y z s).geometry (get_pos x y t) =
      if z ≤ t ∧ t < s then false else map.geometry (get_pos x y t) := by
  unfold carve_air
  rw [(fold_set_geometry map x y z false _).2]
  by_cases h : z ≤ t ∧ t < s
  · rw [if_pos h, if_pos]
    refine ⟨(t - z).toNat, by omega, ?_⟩
    rw [get_pos_column_inj]
    omega
  · rw [if_neg h, if_neg]
    rintro ⟨k, hk, hkey⟩
    rw [get_pos_column_inj] at hkey
    omega

theorem carve_air_other (map : MapData) (x y z s key : Int)
    (h : ∀ t, z ≤ t → t < s → key ≠ get_pos x y t) :
    (carve_air map x y z s).geometry key = map.geometry key := by
  unfold carve_air
  rw [(fold_set_geometry map x y z false _).2, if_neg]
  rintro ⟨k, hk, hkey⟩
  exact h (z + k) (by omega) (by omega) hkey

theorem read_colors_spec (v : Int → Nat) (map : MapData) (x y c s : Int) (n : Nat) :
    (read_colors v map x y c s n).geometry = map.geometry ∧
    (∀ t, (read_colors v map x y c s n).colors (get_pos x y t) =
      if s ≤ t ∧ t < s + n then some (read_color v (c + 4 * (t - s)))
      else map.colors (get_pos x y t)) ∧
    (∀ key, (∀ t, s ≤ t → t < s + n → key ≠ get_pos x y t) →
      (read_colors v map x y c s n).colors key = map.colors key) := by
  unfold read_colors
  induction n with
  | zero =>
    refine ⟨rfl, ?_, fun _ _ => rfl⟩
    intro t
    rw [if_neg (by push_cast; omega)]
    rfl
  | succ n ih =>
    rw [List.range_succ, List.foldl_append]
    simp only [List.foldl_cons, List.foldl_nil, set_color_colors, set_color_geometry]
    refine ⟨ih.1, ?_, ?_⟩
    · intro t
      by_cases e : t = s + n
      · rw [if_pos (by rw [e]), if_pos (by push_cast; omega)]
        rw [e]
        congr 3
        ring
      · rw [if_neg (by rw [get_pos_column_inj]; exact e), ih.2.1]
        by_cases h : s ≤ t ∧ t < s + n
        · rw [if_pos h, if_pos (by push_cast; omega)]
        · rw [if_neg h, if_neg (by push_cast; omega)]
    · intro key hkey
      rw [if_neg (hkey (s + n) (by omega) (by push_cast; omega))]
      exact ih.2.2 key (fun t h1 h2 => hkey t h1 (by push_cast; omega))

/-- One pass of the loop `for (;;)` of `load_vxl`, with the three header bytes
it reads named. -/
theorem load_spans_step (v : Int → Nat) (x y : Int) (fuel : Nat) (p z : Int) (M : MapData)
    (N S E : Int) (hN : read_byte v p = N) (hS : read_byte v (p + 1) = S)
    (hE : read_byte v (p + 2) = E) :
    load_spans v x y (fuel + 1) p z M =
      if N = 0 then
        some (p + 4 * (E - S + 1 + 1),
          read_colors v (carve_air M x y z S) x y (p + 4) S (E - S + 1).toNat)
      else
        load_spans v x y fuel (p + N * 4)
          (read_byte v (p + N * 4 + 3) - (N - 1 - (E - S + 1)) +
            ((N - 1 - (E - S + 1)).toNat : Int))
          (read_colors v
            (read_colors v (carve_air M x y z S) x y (p + 4) S (E - S + 1).toNat)
            x y (p + 4 + 4 * ((E - S + 1).toNat : Int))
            (read_byte v (p + N * 4 + 3) - (N - 1 - (E - S + 1)))
            (N - 1 - (E - S + 1)).toNat) := by
  subst hN hS hE
  rw [load_spans]

theorem is_surface_air (map : MapData) (x y z : Int)
    (h : map.geometry (get_pos x y z) = false) : is_surface map x y z = 0 := by
  unfold is_surface
  rw [if_pos h]

theorem read_colors_zero (v : Int → Nat) (M : MapData) (x y c s : Int) :
    read_colors v M x y c s 0 = M := rfl

theorem save_spans_end (map : MapData) (i j : Int) (fuel : Nat) (k : Int) (hk : 64 ≤ k) :
    save_spans map i j fuel k = [] := by
  cases fuel with
  | zero => rfl
  | succ n =>
    rw [save_spans, if_neg]
    simp only [MAP_Z]
    omega

/-- The effect on the map of decoding one span that `save_vxl` wrote. -/
theorem span_effect (G : MapData) (v : Int → Nat) (i j k p : Int) (M : MapData)
    (t0 t1 b0 b1 : Int) (q1 : k ≤ t0) (q2 : t0 ≤ t1) (q3 : t1 ≤ b0) (q4 : b0 ≤ b1)
    (hair : ∀ t, k ≤ t → t < t0 → G.geometry (get_pos i j t) = false)
    (htop : ∀ t, t0 ≤ t → t < t1 → is_surface G i j t ≠ 0)
    (hmid : ∀ t, t1 ≤ t → t < b0 →
      G.geometry (get_pos i j t) = true ∧ is_surface G i j t = 0)
    (hbot : ∀ t, b0 ≤ t → t < b1 → is_surface G i j t ≠ 0)
    (hv1 : holds v (p + 4) (write_colors G i j t0 (t1 - t0)))
    (hv2 : holds v (p + 4 + 4 * ((t1 - t0).toNat : Int)) (write_colors G i j b0 (b1 - b0))) :
    (∀ t, k ≤ t → t < b1 →
      (read_colors v (read_colors v (carve_air M i j k t0) i j (p + 4) t0 (t1 - t0).toNat)
        i j (p + 4 + 4 * ((t1 - t0).toNat : Int)) b0 (b1 - b0).toNat).geometry (get_pos i j t) =
        (G.geometry (get_pos i j t) && M.geometry (get_pos i j t))) ∧
    (∀ t, k ≤ t → t < b1 →
      (read_colors v (read_colors v (carve_air M i j k t0) i j (p + 4) t0 (t1 - t0).toNat)
        i j (p + 4 + 4 * ((t1 - t0).toNat : Int)) b0 (b1 - b0).toNat).colors (get_pos i j t) =
        if is_surface G i j t ≠ 0 then some (get_write_color G i j t % 4294967296)
        else M.colors (get_pos i j t)) ∧
    (∀ key, (∀ t, k ≤ t → t < b1 → key ≠ get_pos i j t) →
      (read_colors v (read_colors v (carve_air M i j k t0) i j (p + 4) t0 (t1 - t0).toNat)
        i j (p + 4 + 4 * ((t1 - t0).toNat : Int)) b0 (b1 - b0).toNat).geometry key =
        M.geometry key ∧
      (read_colors v (read_colors v (carve_air M i j k t0) i j (p + 4) t0 (t1 - t0).toNat)
        i j (p + 4 + 4 * ((t1 - t0).toNat : Int)) b0 (b1 - b0).toNat).colors key =
        M.colors key) := by
  obtain ⟨g2, c2, f2⟩ := read_colors_spec v (carve_air M i j k t0) i j (p + 4) t0 (t1 - t0).toNat
  obtain ⟨g3, c3, f3⟩ := read_colors_spec v
    (read_colors v (carve_air M i j k t0) i j (p + 4) t0 (t1 - t0).toNat) i j
    (p + 4 + 4 * ((t1 - t0).toNat : Int)) b0 (b1 - b0).toNat
  refine ⟨?_, ?_, ?_⟩
  · intro t h1 h2
    rw [g3, g2, carve_air_column]
    by_cases ht : t < t0
    · rw [if_pos ⟨h1, ht⟩, hair t h1 ht]
      rfl
    · rw [if_neg (by omega)]
      have hs : G.geometry (get_pos i j t) = true := by
        by_cases ha : t < t1
        · exact is_surface_solid G i j t (htop t (by omega) ha)
        · by_cases hb : t < b0
          · exact (hmid t (by omega) hb).1
          · exact is_surface_solid G i j t (hbot t (by omega) h2)
      rw [hs]
      rfl
  · intro t h1 h2
    rw [c3]
    by_cases hb : b0 ≤ t
    · rw [if_pos ⟨hb, by omega⟩, if_pos (hbot t hb h2)]
      have := holds_write_colors v _ G i j b0 (b1 - b0) hv2 (t - b0).toNat (by omega)
      have e1 : (((t - b0).toNat : Nat) : Int) = t - b0 := by omega
      rw [e1] at this
      rw [this]
      congr 3
      ring
    · rw [if_neg (by omega), c2]
      by_cases ha : t0 ≤ t ∧ t < t1
      · rw [if_pos ⟨ha.1, by omega⟩, if_pos (htop t ha.1 ha.2)]
        have := holds_write_colors v _ G i j t0 (t1 - t0) hv1 (t - t0).toNat (by omega)
        have e1 : (((t - t0).toNat : Nat) : Int) = t - t0 := by omega
        rw [e1] at this
        rw [this]
        congr 3
        ring
      · rw [if_neg (by omega), carve_air_colors]
        have hns : is_surface G i j t = 0 := by
          by_cases ht : t < t0
          · exact is_surface_air G i j t (hair t h1 ht)
          · exact (hmid t (by omega) (by omega)).2
        rw [if_neg (by simp [hns])]
  · intro key hkey
    constructor
    · rw [g3, g2]
      exact carve_air_other M i j k t0 key (fun t h1 h2 => hkey t h1 (by omega))
    · rw [f3 key (fun t h1 h2 => hkey t (by omega) (by omega)),
        f2 key (fun t h1 h2 => hkey t (by omega) (by omega)), carve_air_colors]

theorem to_byte_range (x : Int) : to_byte x < 256 := by
  unfold to_byte
  omega

/-- The fourth byte of the spans written from `k` on is `air_start = k`. -/
theorem save_spans_air_start (G : MapData) (v : Int → Nat) (i j : Int) (fuel : Nat)
    (k q : Int) (h0 : 0 ≤ k) (hk : k < 64) (h : holds v q (save_spans G i j (fuel + 1) k)) :
    read_byte v (q + 3) = k := by
  obtain ⟨t0, t1, b0, b1, _, _, _, _, _, _, _, _, _, _, _, _, hspan⟩ :=
    save_span_spec G i j k h0 hk
  rw [save_spans, if_pos (by simpa [MAP_Z] using hk), hspan] at h
  simp only [List.cons_append, List.nil_append, holds_cons] at h
  apply read_byte_of v (q + 3) k _ h0 (by omega)
  have e : q + 1 + 1 + 1 = q + 3 := by ring
  rw [← e]
  exact h.2.2.2.1

/-- Decoding the spans `save_vxl` wrote for the column `(i, j)` from `k` on:
the decoder arrives behind them with the column's geometry from `k` on carved
as in `G` and the surface voxels colored. -/
theorem load_spans_save_spans (G : MapData) (v : Int → Nat) (i j : Int) :
    ∀ (fuel : Nat) (k p : Int) (M : MapData) (fuel2 : Nat),
      0 ≤ k → k < 64 → 64 - k ≤ fuel → 64 - k ≤ fuel2 →
      holds v p (save_spans G i j fuel k) →
      ∃ M', load_spans v i j fuel2 p k M =
          some (p + ((save_spans G i j fuel k).length : Int), M') ∧
        (∀ t, k ≤ t → t < 64 → M'.geometry (get_pos i j t) =
          (G.geometry (get_pos i j t) && M.geometry (get_pos i j t))) ∧
        (∀ t, k ≤ t → t < 64 → M'.colors (get_pos i j t) =
          if is_surface G i j t ≠ 0 then some (get_write_color G i j t % 4294967296)
          else M.colors (get_pos i j t)) ∧
        (∀ key, (∀ t, k ≤ t → t < 64 → key ≠ get_pos i j t) →
          M'.geometry key = M.geometry key ∧ M'.colors key = M.colors key) := by
  intro fuel
  induction fuel with
  | zero =>
    intro k p M fuel2 h0 hk hf
    omega
  | succ n ih =>
    intro k p M fuel2 h0 hk hf hf2 hv
    obtain ⟨t0, t1, b0, b1, q1, q2, q3, q4, q5, q6, q7, hair, htop, hmid, hbot, hterm, hspan⟩ :=
      save_span_spec G i j k h0 hk
    obtain ⟨m, rfl⟩ : ∃ m, fuel2 = m + 1 := ⟨fuel2 - 1, by omega⟩
    have hsave : save_spans G i j (n + 1) k =
        [to_byte (if b1 = 64 then 0 else (t1 - t0) + (b1 - b0) + 1), to_byte t0,
          to_byte (t1 - 1), to_byte k]
          ++ write_colors G i j t0 (t1 - t0) ++ write_colors G i j b0 (b1 - b0)
          ++ save_spans G i j n b1 := by
      rw [save_spans, if_pos (by simpa [MAP_Z] using hk), hspan]
    rw [hsave] at hv ⊢
    rw [holds_append, holds_append, holds_append] at hv
    obtain ⟨⟨⟨hhdr, hv1⟩, hv2⟩, hrest⟩ := hv
    simp only [holds_cons] at hhdr
    obtain ⟨hb0, hb1, hb2, _, _⟩ := hhdr
    have e2 : p + 1 + 1 = p + 2 := by ring
    rw [e2] at hb2
    have hlen : (([to_byte (if b1 = 64 then 0 else (t1 - t0) + (b1 - b0) + 1), to_byte t0,
          to_byte (t1 - 1), to_byte k]
          ++ write_colors G i j t0 (t1 - t0) ++ write_colors G i j b0 (b1 - b0)
          ++ save_spans G i j n b1).length : Int) =
        4 + 4 * (t1 - t0) + 4 * (b1 - b0) + ((save_spans G i j n b1).length : Int) := by
      simp only [List.length_append, List.length_cons, List.length_nil, length_write_colors]
      push_cast
      omega
    have hS : read_byte v (p + 1) = t0 := read_byte_of v _ _ hb1 (by omega) (by omega)
    have hE : read_byte v (p + 2) = t1 - 1 := read_byte_of v _ _ hb2 (by omega) (by omega)
    have hcnt : t1 - 1 - t0 + 1 = t1 - t0 := by ring
    have hv1' : holds v (p + 4) (write_colors G i j t0 (t1 - t0)) := by
      simpa using hv1
    have hv2' : holds v (p + 4 + 4 * ((t1 - t0).toNat : Int))
        (write_colors G i j b0 (b1 - b0)) := by
      simp only [List.length_append, List.length_cons, List.length_nil,
        length_write_colors] at hv2
      have e : p + ((0 + 1 + 1 + 1 + 1 + 4 * (t1 - t0).toNat : Nat) : Int) =
          p + 4 + 4 * ((t1 - t0).toNat : Int) := by
        push_cast; ring
      rw [e] at hv2
      exact hv2
    obtain ⟨s1, s2, s3⟩ := span_effect G v i j k p M t0 t1 b0 b1 q1 q2 q3 q4 hair htop hmid
      hbot hv1' hv2'
    by_cases hend : b1 = 64
    · -- the terminal span
      have hN : read_byte v p = 0 := by
        rw [if_pos hend] at hb0
        exact read_byte_of v _ _ hb0 (by omega) (by omega)
      have hbb : b1 - b0 = 0 := by have := hterm hend; omega
      rw [load_spans_step v i j m p k M 0 t0 (t1 - 1) hN hS hE, if_pos rfl, hcnt]
      rw [hbb] at s1 s2 s3
      simp only [Int.toNat_zero, read_colors_zero] at s1 s2 s3
      refine ⟨read_colors v (carve_air M i j k t0) i j (p + 4) t0 (t1 - t0).toNat,
        ?_, ?_, ?_, ?_⟩
      · rw [hlen, save_spans_end G i j n b1 (by omega)]
        simp only [List.length_nil]
        congr 2
        push_cast
        omega
      · intro t h1 h2
        exact s1 t h1 (by omega)
      · intro t h1 h2
        exact s2 t h1 (by omega)
      · intro key hkey
        exact s3 key (fun t h1 h2 => hkey t h1 (by omega))
    · -- a span followed by another one
      have hb164 : b1 < 64 := by omega
      have hNval : (0 : Int) < (t1 - t0) + (b1 - b0) + 1 ∧ (t1 - t0) + (b1 - b0) + 1 < 256 := by
        constructor <;> omega
      have hN : read_byte v p = (t1 - t0) + (b1 - b0) + 1 := by
        rw [if_neg hend] at hb0
        exact read_byte_of v _ _ hb0 (by omega) (by omega)
      obtain ⟨n', rfl⟩ : ∃ n', n = n' + 1 := ⟨n - 1, by omega⟩
      have hptr : p + ((([to_byte (if b1 = 64 then 0 else (t1 - t0) + (b1 - b0) + 1),
          to_byte t0, to_byte (t1 - 1), to_byte k]
          ++ write_colors G i j t0 (t1 - t0) ++ write_colors G i j b0 (b1 - b0)).length : Nat)
            : Int) = p + ((t1 - t0) + (b1 - b0) + 1) * 4 := by
        simp only [List.length_append, List.length_cons, List.length_nil, length_write_colors]
        push_cast
        omega
      rw [hptr] at hrest
      have hA : read_byte v (p + ((t1 - t0) + (b1 - b0) + 1) * 4 + 3) = b1 :=
        save_spans_air_start G v i j n' b1 _ (by omega) hb164 hrest
      rw [load_spans_step v i j m p k M _ t0 (t1 - 1) hN hS hE, if_neg (by omega), hcnt, hA]
      have hlt : (t1 - t0) + (b1 - b0) + 1 - 1 - (t1 - t0) = b1 - b0 := by ring
      rw [hlt]
      have hz : b1 - (b1 - b0) + (((b1 - b0).toNat : Nat) : Int) = b1 := by omega
      have hbs : b1 - (b1 - b0) = b0 := by ring
      rw [hz, hbs]
      obtain ⟨M', r1, r2, r3, r4⟩ := ih b1 (p + ((t1 - t0) + (b1 - b0) + 1) * 4)
        (read_colors v (read_colors v (carve_air M i j k t0) i j (p + 4) t0 (t1 - t0).toNat)
          i j (p + 4 + 4 * ((t1 - t0).toNat : Int)) b0 (b1 - b0).toNat)
        m (by omega) hb164 (by omega) (by omega) hrest
      refine ⟨M', ?_, ?_, ?_, ?_⟩
      · rw [r1, hlen]
        congr 2
        ring
      · intro t h1 h2
        by_cases ht : b1 ≤ t
        · rw [r2 t ht h2, (s3 _ (fun t' h3 h4 => by
            rw [Ne, get_pos_column_inj]; omega)).1]
        · rw [(r4 _ (fun t' h3 h4 => by rw [Ne, get_pos_column_inj]; omega)).1]
          exact s1 t h1 (by omega)
      · intro t h1 h2
        by_cases ht : b1 ≤ t
        · rw [r3 t ht h2, (s3 _ (fun t' h3 h4 => by
            rw [Ne, get_pos_column_inj]; omega)).2]
        · rw [(r4 _ (fun t' h3 h4 => by rw [Ne, get_pos_column_inj]; omega)).2]
          exact s2 t h1 (by omega)
      · intro key hkey
        obtain ⟨a1, a2⟩ := r4 key (fun t h1 h2 => hkey t (by omega) h2)
        obtain ⟨a3, a4⟩ := s3 key (fun t h1 h2 => hkey t h1 (by omega))
        exact ⟨a1.trans a3, a2.trans a4⟩

theorem foldlM_congr_mem {σ : Type} (l : List Nat) (f g : σ → Nat → Option σ) (init : σ)
    (h : ∀ x ∈ l, ∀ s, f s x = g s x) : l.foldlM f init = l.foldlM g init := by
  induction l generalizing init with
  | nil => rfl
  | cons a l ih =>
    simp only [List.foldlM_cons]
    rw [h a (List.mem_cons_self _ _)]
    cases g init a with
    | none => rfl
    | some s =>
      simp only [Option.some_bind, Option.bind_eq_bind]
      exact ih s (fun x hx => h x (List.mem_cons_of_mem _ hx))

/-- Two nested monadic loops over a grid visit the cells in the order of the
linear index. -/
theorem foldlM_grid {σ : Type} (a b : Nat) (hb : 0 < b) (f : Nat → Nat → σ → Option σ)
    (init : σ) :
    (List.range a).foldlM (fun st y => (List.range b).foldlM (fun st x => f x y st) st) init =
      (List.range (a * b)).foldlM (fun st c => f (c % b) (c / b) st) init := by
  induction a with
  | zero => simp
  | succ a ih =>
    rw [List.range_succ, List.foldlM_append, ih, Nat.succ_mul, List.range_add,
      List.foldlM_append]
    congr 1
    funext st
    rw [List.foldlM_map]
    simp only [List.foldlM_cons, List.foldlM_nil, bind_pure]
    apply foldlM_congr_mem
    intro i hi s
    have hi2 : i < b := List.mem_range.1 hi
    have e1 : (a * b + i) % b = i := by
      rw [Nat.add_comm, Nat.add_mul_mod_self_right, Nat.mod_eq_of_lt hi2]
    have e2 : (a * b + i) / b = a := by
      rw [Nat.add_comm, Nat.add_mul_div_right _ _ hb, Nat.div_eq_of_lt hi2, Nat.zero_add]
    rw [e1, e2]

/-- A loop that keeps an invariant indexed by the number of passes ends with
the invariant of the full count. -/
theorem foldlM_range_inv {σ : Type} (f : σ → Nat → Option σ) (Inv : Nat → σ → Prop) (n : Nat)
    (init : σ) (h0 : Inv 0 init)
    (hstep : ∀ c, c < n → ∀ st, Inv c st → ∃ st', f st c = some st' ∧ Inv (c + 1) st') :
    ∃ st, (List.range n).foldlM f init = some st ∧ Inv n st := by
  induction n with
  | zero => exact ⟨init, rfl, h0⟩
  | succ n ih =>
    obtain ⟨st, h1, h2⟩ := ih (fun c hc => hstep c (by omega))
    obtain ⟨st', h3, h4⟩ := hstep n (by omega) st h2
    refine ⟨st', ?_, h4⟩
    rw [List.range_succ, List.foldlM_append, h1]
    simp [h3]

theorem load_vxl_linear (fuel : Nat) (v : Int → Nat) :
    load_vxl fuel (some v) =
      ((List.range 262144).foldlM (fun (st : Int × MapData) (c : Nat) =>
        load_column fuel v ((c % 512 : Nat) : Int) ((c / 512 : Nat) : Int) st)
        ((0 : Int), MapData.empty)).map Prod.snd := by
  unfold load_vxl
  simp only
  rw [foldlM_grid 512 512 (by decide)
    (fun x y st => load_column fuel v (x : Int) (y : Int) st)]

theorem holds_flatMap_at (v : Int → Nat) (q : Int) (f : Nat → List Nat) (n : Nat)
    (h : holds v q ((List.range n).flatMap f)) (c : Nat) (hc : c < n) :
    holds v (q + (((List.range c).flatMap f).length : Int)) (f c) := by
  induction n with
  | zero => omega
  | succ n ih =>
    rw [List.range_succ, List.flatMap_append, holds_append, List.flatMap_singleton] at h
    by_cases e : c = n
    · subst e
      exact h.2
    · exact ih h.1 (by omega)

theorem holds_flatMap (v : Int → Nat) (f : Nat → List Nat) (n : Nat)
    (h : holds v 0 ((List.range n).flatMap f)) (c : Nat) (hc : c < n) :
    holds v (((List.range c).flatMap f).length : Int) (f c) := by
  induction n with
  | zero => omega
  | succ n ih =>
    rw [List.range_succ, List.flatMap_append, holds_append, List.flatMap_singleton] at h
    by_cases e : c = n
    · subst e
      simpa using h.2
    · exact ih h.1 (by omega)

theorem fill_column (M : MapData) (x y : Int) :
    ((List.range 64).foldl
        (fun (m : MapData) (z : Nat) => m.set_geometry (get_pos x y z) true) M).colors =
      M.colors ∧
    (∀ t, 0 ≤ t → t < 64 → ((List.range 64).foldl
        (fun (m : MapData) (z : Nat) => m.set_geometry (get_pos x y z) true) M).geometry
        (get_pos x y t) = true) ∧
    (∀ key, (∀ t, 0 ≤ t → t < 64 → key ≠ get_pos x y t) → ((List.range 64).foldl
        (fun (m : MapData) (z : Nat) => m.set_geometry (get_pos x y z) true) M).geometry key =
        M.geometry key) := by
  have e : (fun (m : MapData) (z : Nat) => m.set_geometry (get_pos x y z) true) =
      (fun (m : MapData) (k : Nat) => m.set_geometry (get_pos x y (0 + k)) true) := by
    funext m k
    rw [Int.zero_add]
  rw [e]
  obtain ⟨h1, h2⟩ := fold_set_geometry M x y 0 true 64
  refine ⟨h1, ?_, ?_⟩
  · intro t ht0 ht1
    rw [h2, if_pos]
    exact ⟨t.toNat, by omega, by rw [get_pos_column_inj]; omega⟩
  · intro key hkey
    rw [h2, if_neg]
    rintro ⟨k, hk, e2⟩
    exact hkey (0 + k) (by omega) (by omega) e2

/-- Decoding the bytes `save_vxl` wrote for the column `(i, j)`. -/
theorem load_column_save_column (G : MapData) (v : Int → Nat) (i j p : Int) (M : MapData)
    (fuel : Nat) (hf : 64 ≤ fuel) (hv : holds v p (save_column G i j)) :
    ∃ M', load_column fuel v i j (p, M) = some (p + ((save_column G i j).length : Int), M') ∧
      (∀ t, 0 ≤ t → t < 64 → M'.geometry (get_pos i j t) = G.geometry (get_pos i j t)) ∧
      (∀ t, 0 ≤ t → t < 64 → M'.colors (get_pos i j t) =
        if is_surface G i j t ≠ 0 then some (get_write_color G i j t % 4294967296)
        else M.colors (get_pos i j t)) ∧
      (∀ key, (∀ t, 0 ≤ t → t < 64 → key ≠ get_pos i j t) →
        M'.geometry key = M.geometry key ∧ M'.colors key = M.colors key) := by
  obtain ⟨f1, f2, f3⟩ := fill_column M i j
  unfold save_column at hv ⊢
  unfold load_column
  obtain ⟨M', r1, r2, r3, r4⟩ := load_spans_save_spans G v i j 64 0 p
    ((List.range 64).foldl
      (fun (m : MapData) (z : Nat) => m.set_geometry (get_pos i j z) true) M)
    fuel (le_refl _) (by decide) (by decide) (by omega) hv
  refine ⟨M', r1, ?_, ?_, ?_⟩
  · intro t h1 h2
    rw [r2 t h1 h2, f2 t h1 h2]
    simp
  · intro t h1 h2
    rw [r3 t h1 h2, f1]
  · intro key hkey
    obtain ⟨a1, a2⟩ := r4 key hkey
    exact ⟨a1.trans (f3 key hkey), a2.trans (by rw [f1])⟩

/-- The linear index of the column of an in-bounds voxel. -/
theorem column_index (x y : Int) (c : Nat) (hx : 0 ≤ x ∧ x < 512)
    (h : y * 512 + x = c) : ((c % 512 : Nat) : Int) = x ∧ ((c / 512 : Nat) : Int) = y := by
  omega

theorem other_column (x y z i j t : Int) (hx : 0 ≤ x ∧ x < 512) (hy : 0 ≤ y ∧ y < 512)
    (hi : 0 ≤ i ∧ i < 512) (hj : 0 ≤ j ∧ j < 512)
    (hne : y * 512 + x ≠ j * 512 + i) : get_pos x y z ≠ get_pos i j t := by
  unfold get_pos
  omega

theorem decoded_upto_step (G : MapData) (v : Int → Nat) (fuel : Nat) (hf : 64 ≤ fuel)
    (hv : holds v 0 (save_vxl_loops G)) (c : Nat) (hc : c < 262144) (st : Int × MapData)
    (h : decoded_upto G c st) :
    ∃ st', load_column fuel v ((c % 512 : Nat) : Int) ((c / 512 : Nat) : Int) st = some st' ∧
      decoded_upto G (c + 1) st' := by
  obtain ⟨p, M⟩ := st
  obtain ⟨hp, hdone, hrest⟩ := h
  simp only at hp hdone hrest
  rw [save_vxl_loops_linear] at hv
  have hcol := holds_flatMap v (column_bytes G) _ hv c hc
  rw [← hp] at hcol
  obtain ⟨M', r1, r2, r3, r4⟩ := load_column_save_column G v _ _ p M fuel hf hcol
  have hi : (0 : Int) ≤ ((c % 512 : Nat) : Int) ∧ ((c % 512 : Nat) : Int) < 512 := by omega
  have hj : (0 : Int) ≤ ((c / 512 : Nat) : Int) ∧ ((c / 512 : Nat) : Int) < 512 := by omega
  refine ⟨_, r1, ?_, ?_, ?_⟩
  · simp only
    rw [List.range_succ, List.flatMap_append, List.length_append, List.flatMap_singleton, hp]
    push_cast
    rfl
  · intro x y z hb hlt
    simp only
    by_cases e : y * 512 + x = c
    · obtain ⟨e1, e2⟩ := column_index x y c ⟨hb.1, hb.2.1⟩ e
      have g1 := r2 z hb.2.2.2.2.1 hb.2.2.2.2.2
      have g2 := r3 z hb.2.2.2.2.1 hb.2.2.2.2.2
      rw [e1, e2] at g1 g2
      refine ⟨g1, ?_⟩
      rw [g2, hrest x y z hb (by omega)]
    · have hne : ∀ t, 0 ≤ t → t < 64 →
          get_pos x y z ≠ get_pos ((c % 512 : Nat) : Int) ((c / 512 : Nat) : Int) t := by
        intro t _ _
        exact other_column x y z _ _ t ⟨hb.1, hb.2.1⟩ ⟨hb.2.2.1, hb.2.2.2.1⟩ hi hj (by omega)
      obtain ⟨a1, a2⟩ := r4 _ hne
      rw [a1, a2]
      exact hdone x y z hb (by omega)
  · intro x y z hb hle
    simp only
    have hne : ∀ t, 0 ≤ t → t < 64 →
        get_pos x y z ≠ get_pos ((c % 512 : Nat) : Int) ((c / 512 : Nat) : Int) t := by
      intro t _ _
      exact other_column x y z _ _ t ⟨hb.1, hb.2.1⟩ ⟨hb.2.2.1, hb.2.2.2.1⟩ hi hj
        (by push_cast at hle; omega)
    rw [(r4 _ hne).2]
    exact hrest x y z hb (by push_cast at hle; omega)

/-- Decoding what the loops of `save_vxl` wrote: any memory that starts with
the bytes `save_vxl_loops G` decodes, with room for 64 spans per column, to a
grid with the geometry of `G` whose color map holds exactly the surface voxels
of `G`, each with the color `save_vxl` wrote for it. -/
theorem load_save (G : MapData) (v : Int → Nat) (fuel : Nat) (hf : 64 ≤ fuel)
    (hv : holds v 0 (save_vxl_loops G)) :
    ∃ G', load_vxl fuel (some v) = some G' ∧
      ∀ x y z, in_bounds x y z →
        G'.geometry (get_pos x y z) = G.geometry (get_pos x y z) ∧
        G'.colors (get_pos x y z) =
          if is_surface G x y z ≠ 0 then some (get_write_color G x y z % 4294967296)
          else none := by
  have h0 : decoded_upto G 0 ((0 : Int), MapData.empty) := by
    refine ⟨rfl, ?_, ?_⟩
    · intro x y z hb hlt
      obtain ⟨h1, h2, h3, h4, _⟩ := hb
      simp only [Nat.cast_zero] at hlt
      omega
    · intro x y z _ _
      rfl
  obtain ⟨st, h1, h2⟩ := foldlM_range_inv
    (fun (st : Int × MapData) (c : Nat) =>
      load_column fuel v ((c % 512 : Nat) : Int) ((c / 512 : Nat) : Int) st)
    (decoded_upto G) _ _ h0 (decoded_upto_step G v fuel hf hv)
  refine ⟨st.2, ?_, ?_⟩
  · rw [load_vxl_linear, h1]
    rfl
  · intro x y z hb
    have := hb
    obtain ⟨b1, b2, b3, b4, _⟩ := this
    exact h2.2.1 x y z hb (by push_cast; omega)

theorem get_write_color_fit (G : MapData) (h : colors_fit G) (x y z : Int) :
    get_write_color G x y z % 4294967296 = get_write_color G x y z := by
  apply Nat.mod_eq_of_lt
  unfold get_write_color
  cases hc : G.colors (get_pos x y z) with
  | none => simp [DEFAULT_COLOR]
  | some c => exact h _ c hc

theorem holds_get (v : Int → Nat) (p : Int) (l : List Nat) (h : holds v p l) (n : Nat)
    (hn : n < l.length) : v (p + n) = l.getD n 0 := by
  have := h n hn
  rw [List.getD_eq_getElem?_getD, this]
  rfl

theorem length_flatMap_const (l : List Nat) (c : Nat) :
    ((List.range c).flatMap fun _ => l).length = c * l.length := by
  induction c with
  | zero => simp
  | succ c ih =>
    rw [List.range_succ, List.flatMap_append, List.length_append, ih, List.flatMap_singleton]
    ring

/-- A column that starts with a terminal span. -/
theorem load_column_terminal (v : Int → Nat) (x y p : Int) (M : MapData) (fuel : Nat)
    (S E : Int) (hN : read_byte v p = 0) (hS : read_byte v (p + 1) = S)
    (hE : read_byte v (p + 2) = E) :
    load_column (fuel + 1) v x y (p, M) =
      some (p + 4 * (E - S + 1 + 1),
        read_colors v (carve_air ((List.range 64).foldl
          (fun (m : MapData) (z : Nat) => m.set_geometry (get_pos x y z) true) M) x y 0 S)
          x y (p + 4) S (E - S + 1).toNat) := by
  unfold load_column
  rw [load_spans_step v x y fuel p 0 _ 0 S E hN hS hE, if_pos rfl]

theorem read_byte_val (v : Int → Nat) (p : Int) (b : Nat) (h : v p = b) (hb : b < 256) :
    read_byte v p = b := by
  unfold read_byte
  rw [h, Nat.mod_eq_of_lt hb]

/-- C10 (amended): a non-terminal span (`N ≠ 0`) with `N < 1 + len_top`,
where `len_top = E - S + 1`, is not rejected, since `load_vxl` has no error
result: the decoder assigns the span's top colors, finds a negative count of
bottom colors and assigns none, and goes on with the span at offset `4·N`,
its cursor `z` set to `A' + (1 + len_top - N)` for the fourth byte `A'` of
that next header. -/
theorem load_spans_malformed (v : Int → Nat) (x y : Int) (fuel : Nat) (p z : Int)
    (M : MapData) (hN : read_byte v p ≠ 0)
    (hbad : read_byte v p < 1 + (read_byte v (p + 2) - read_byte v (p + 1) + 1)) :
    load_spans v x y (fuel + 1) p z M =
      load_spans v x y fuel (p + read_byte v p * 4)
        (read_byte v (p + read_byte v p * 4 + 3) +
          (1 + (read_byte v (p + 2) - read_byte v (p + 1) + 1) - read_byte v p))
        (read_colors v (carve_air M x y z (read_byte v (p + 1))) x y (p + 4)
          (read_byte v (p + 1)) (read_byte v (p + 2) - read_byte v (p + 1) + 1).toNat) := by
  rw [load_spans_step v x y fuel p z M _ _ _ rfl rfl rfl, if_neg hN]
  have h0 : (read_byte v p - 1 - (read_byte v (p + 2) - read_byte v (p + 1) + 1)).toNat = 0 := by
    omega
  rw [h0, read_colors_zero]
  congr 1
  push_cast
  ring

theorem malformed_stream_header :
    read_byte (buffer malformed_stream) 0 = 1 ∧
    read_byte (buffer malformed_stream) (0 + 1) = 0 ∧
    read_byte (buffer malformed_stream) (0 + 2) = 0 := by
  have hv := holds_buffer malformed_stream
  unfold malformed_stream at hv
  rw [holds_append] at hv
  have b0 := holds_get _ _ _ hv.1 0 (by decide)
  have b1 := holds_get _ _ _ hv.1 1 (by decide)
  have b2 := holds_get _ _ _ hv.1 2 (by decide)
  simp only [Nat.cast_zero, add_zero, Nat.cast_one, Nat.cast_ofNat, List.getD_cons_zero,
    List.getD_cons_succ] at b0 b1 b2
  exact ⟨read_byte_val _ _ _ b0 (by decide), read_byte_val _ _ _ b1 (by decide),
    read_byte_val _ _ _ b2 (by decide)⟩

/-- C10 (amended), at the first span of `malformed_stream`: `N = 1`, `S = 0`,
`E = 0`, and the decoder goes on at offset 4. -/
theorem load_spans_malformed_witness :
    read_byte (buffer malformed_stream) 0 ≠ 0 ∧
    read_byte (buffer malformed_stream) 0 <
      1 + (read_byte (buffer malformed_stream) (0 + 2) -
        read_byte (buffer malformed_stream) (0 + 1) + 1) ∧
    load_spans (buffer malformed_stream) 0 0 (1 + 1) 0 0 MapData.empty =
      load_spans (buffer malformed_stream) 0 0 1 (0 + read_byte (buffer malformed_stream) 0 * 4)
        (read_byte (buffer malformed_stream)
            (0 + read_byte (buffer malformed_stream) 0 * 4 + 3) +
          (1 + (read_byte (buffer malformed_stream) (0 + 2) -
            read_byte (buffer malformed_stream) (0 + 1) + 1) -
            read_byte (buffer malformed_stream) 0))
        (read_colors (buffer malformed_stream)
          (carve_air MapData.empty 0 0 0 (read_byte (buffer malformed_stream) (0 + 1))) 0 0
          (0 + 4) (read_byte (buffer malformed_stream) (0 + 1))
          (read_byte (buffer malformed_stream) (0 + 2) -
            read_byte (buffer malformed_stream) (0 + 1) + 1).toNat) := by
  obtain ⟨e0, e1, e2⟩ := malformed_stream_header
  have h1 : read_byte (buffer malformed_stream) 0 ≠ 0 := by rw [e0]; decide
  have h2 : read_byte (buffer malformed_stream) 0 <
      1 + (read_byte (buffer malformed_stream) (0 + 2) -
        read_byte (buffer malformed_stream) (0 + 1) + 1) := by
    rw [e0, e1, e2]; decide
  exact ⟨h1, h2, load_spans_malformed (buffer malformed_stream) 0 0 1 0 0 MapData.empty h1 h2⟩

theorem malformed_step (c : Nat) (hc : c < 262144) (st : Int × MapData)
    (h : malformed_upto c st) :
    ∃ st', load_column 2 (buffer malformed_stream) ((c % 512 : Nat) : Int)
        ((c / 512 : Nat) : Int) st = some st' ∧ malformed_upto (c + 1) st' := by
  obtain ⟨p, M⟩ := st
  unfold malformed_upto at h
  simp only at h
  have hv := holds_buffer malformed_stream
  unfold malformed_stream at hv
  rw [holds_append] at hv
  obtain ⟨_, hv1⟩ := hv
  have hcol : ∀ k : Nat, k < 262144 →
      read_byte (buffer malformed_stream) (4 + 4 * (k : Int)) = 0 ∧
      read_byte (buffer malformed_stream) (4 + 4 * (k : Int) + 1) = 64 ∧
      read_byte (buffer malformed_stream) (4 + 4 * (k : Int) + 2) = 63 := by
    intro k hk
    have hk4 := holds_flatMap_at (buffer malformed_stream) _ (fun _ => [0, 64, 63, 0]) _ hv1 k hk
    rw [length_flatMap_const] at hk4
    simp only [List.length_cons, List.length_nil] at hk4
    have e : (0 : Int) + ((0 + 1 + 1 + 1 + 1 : Nat) : Int) +
        ((k * (0 + 1 + 1 + 1 + 1) : Nat) : Int) = 4 + 4 * (k : Int) := by
      push_cast; ring
    rw [e] at hk4
    have b0 := holds_get _ _ _ hk4 0 (by decide)
    have b1 := holds_get _ _ _ hk4 1 (by decide)
    have b2 := holds_get _ _ _ hk4 2 (by decide)
    simp only [Nat.cast_zero, add_zero, Nat.cast_one, Nat.cast_ofNat, List.getD_cons_zero,
      List.getD_cons_succ] at b0 b1 b2
    exact ⟨read_byte_val _ _ _ b0 (by decide), read_byte_val _ _ _ b1 (by decide),
      read_byte_val _ _ _ b2 (by decide)⟩
  by_cases e : c = 0
  · subst e
    rw [if_pos rfl] at h
    subst h
    obtain ⟨e0, e1, e2⟩ := malformed_stream_header
    obtain ⟨t0, t1, t2⟩ := hcol 0 (by decide)
    simp only [Nat.cast_zero, mul_zero, add_zero] at t0 t1 t2
    unfold load_column
    simp only [Nat.zero_mod, Nat.zero_div, Nat.cast_zero]
    rw [load_spans_step _ 0 0 1 0 0 _ 1 0 0 e0 e1 e2, if_neg (by decide)]
    have p4 : (0 : Int) + 1 * 4 = 4 := by decide
    rw [p4]
    rw [load_spans_step _ 0 0 0 4 _ _ 0 64 63 t0 t1 t2, if_pos rfl]
    refine ⟨_, rfl, ?_⟩
    unfold malformed_upto
    simp only
    decide
  · rw [if_neg e] at h
    subst h
    obtain ⟨t0, t1, t2⟩ := hcol c hc
    rw [load_column_terminal _ _ _ _ M 1 64 63 t0 t1 t2]
    refine ⟨_, rfl, ?_⟩
    unfold malformed_upto
    simp only
    rw [if_neg (by omega)]
    push_cast
    ring

/-- C10 as stated fails: the first span of `malformed_stream` has `N = 1`,
`S = 0`, `E = 0`, so `N ≠ 0` and `N < 1 + len_top = 2`, and `load_vxl`
returns a grid for the stream. -/
theorem load_vxl_malformed_counterexample :
    read_byte (buffer malformed_stream) 0 = 1 ∧
    read_byte (buffer malformed_stream) (0 + 1) = 0 ∧
    read_byte (buffer malformed_stream) (0 + 2) = 0 ∧
    ∃ G, load_vxl 2 (some (buffer malformed_stream)) = some G := by
  obtain ⟨e0, e1, e2⟩ := malformed_stream_header
  refine ⟨e0, e1, e2, ?_⟩
  have h0 : malformed_upto 0 ((0 : Int), MapData.empty) := by
    unfold malformed_upto
    simp
  obtain ⟨st, h1, _⟩ := foldlM_range_inv
    (fun (st : Int × MapData) (c : Nat) =>
      load_column 2 (buffer malformed_stream) ((c % 512 : Nat) : Int)
        ((c / 512 : Nat) : Int) st)
    malformed_upto _ _ h0 malformed_step
  refine ⟨st.2, ?_⟩
  rw [load_vxl_linear, h1]
  rfl

theorem generator_span_eq (map : MapData) (i j k : Int) :
    generator_span map i j k = save_span map i j k := rfl

theorem generator_spans_eq (map : MapData) (i j : Int) (fuel : Nat) (k : Int) :
    generator_spans map i j fuel k = save_spans map i j fuel k := by
  induction fuel generalizing k with
  | zero => rfl
  | succ n ih =>
    rw [generator_spans, save_spans, generator_span_eq, ih]

theorem generator_column_eq (map : MapData) (i j : Int) :
    generator_column map i j = save_column map i j := by
  unfold generator_column save_column
  exact generator_spans_eq map i j 64 0

/-- The inner loop of `get_generator_data` from column `a` of row `j` with
`n` columns left in the row: it stops at the column budget or at the row end. -/
theorem generator_row_spec (map : MapData) (columns j : Int) :
    ∀ (n a : Nat) (col : Int) (out : List Nat), a + n = 512 → col ≤ columns →
      generator_row map columns j ⟨out, a, col, false⟩ =
        if columns - col < n then
          ⟨out ++ (List.range' a (columns - col).toNat).flatMap
              (fun x : Nat => generator_column map x j),
            ((a + (columns - col).toNat : Nat) : Int), columns, true⟩
        else
          ⟨out ++ (List.range' a n).flatMap (fun x : Nat => generator_column map x j),
            512, col + n, false⟩ := by
  intro n
  induction n with
  | zero =>
    intro a col out ha hcol
    rw [generator_row, if_neg (by simp only [MAP_X]; omega), if_neg (by push_cast; omega)]
    have e : (a : Int) = 512 := by omega
    simp [e]
  | succ n ih =>
    intro a col out ha hcol
    rw [generator_row, if_pos (by simp only [MAP_X]; omega)]
    by_cases hc : col = columns
    · rw [if_pos hc, if_pos (by push_cast; omega)]
      have e : (columns - col).toNat = 0 := by omega
      simp [e, hc]
    · rw [if_neg hc]
      have := ih (a + 1) (col + 1) (out ++ generator_column map a j) (by omega) (by omega)
      push_cast at this
      simp only at this ⊢
      rw [this]
      have e1 : (columns - col).toNat = (columns - (col + 1)).toNat + 1 := by omega
      by_cases hlt : columns - (col + 1) < n
      · rw [if_pos hlt, if_pos (by push_cast; omega), e1, List.range'_succ]
        simp only [List.flatMap_cons, List.append_assoc, GeneratorLoop.mk.injEq, and_true,
          true_and]
        push_cast
        omega
      · rw [if_neg hlt, if_neg (by push_cast; omega), List.range'_succ]
        simp only [List.flatMap_cons, List.append_assoc, GeneratorLoop.mk.injEq, and_true,
          true_and]
        push_cast
        omega

theorem column_bytes_row (map : MapData) (j a : Nat) (ha : a < 512) :
    column_bytes map (j * 512 + a) = generator_column map a j := by
  have e1 : (j * 512 + a) % 512 = a := by omega
  have e2 : (j * 512 + a) / 512 = j := by omega
  unfold column_bytes
  rw [generator_column_eq, e1, e2]

theorem flatMap_row_shift (map : MapData) (j a n : Nat) (hj : a + n ≤ 512) :
    (List.range' (j * 512 + a) n).flatMap (column_bytes map) =
      (List.range' a n).flatMap (fun x : Nat => generator_column map x j) := by
  induction n generalizing a with
  | zero => simp only [List.range'_zero, List.flatMap_nil]
  | succ n ih =>
    rw [List.range'_succ, List.range'_succ, List.flatMap_cons, List.flatMap_cons,
      ← ih (a + 1) (by omega), column_bytes_row map j a (by omega), Nat.add_assoc]

theorem flatMap_range_split (f : Nat → List Nat) (s m n : Nat) :
    (List.range' s (m + n)).flatMap f =
      (List.range' s m).flatMap f ++ (List.range' (s + m) n).flatMap f := by
  rw [← List.flatMap_append, List.range'_append_1, Nat.add_comm]

/-- The two loops of `get_generator_data` from column `a` of row `j`, with `m`
rows left: they emit the columns in linear order until the column budget or the
map is used up, and leave the cursor behind the last column emitted. -/
theorem generator_rows_spec (map : MapData) (columns : Int) :
    ∀ (m j a : Nat) (x y col : Int) (out : List Nat) (iprev : Int),
      x = a → y = j → j + m = 512 → (0 < m → a < 512) → col ≤ columns →
      generator_rows map columns x y ⟨out, iprev, col, false⟩ =
        if (columns - col).toNat < 512 * m - a then
          (out ++ (List.range' (j * 512 + a) (columns - col).toNat).flatMap (column_bytes map),
            (((j * 512 + a + (columns - col).toNat) % 512 : Nat) : Int),
            (((j * 512 + a + (columns - col).toNat) / 512 : Nat) : Int))
        else
          (out ++ (List.range' (j * 512 + a) (512 * m - a)).flatMap (column_bytes map),
            (if m = 0 then iprev else 512), 512) := by
  intro m
  induction m with
  | zero =>
    intro j a x y col out iprev hx hy hj _ hcol
    subst hx hy
    rw [generator_rows, if_neg (by simp only [MAP_Y]; omega),
      if_neg (show ¬ (columns - col).toNat < 512 * 0 - a from by omega), if_pos rfl]
    have e : (j : Int) = 512 := by omega
    simp [e]
  | succ m ih =>
    intro j a x y col out iprev hx hy hj ha hcol
    subst hx hy
    have ha2 : a < 512 := ha (by omega)
    rw [generator_rows, if_pos (by simp only [MAP_Y]; omega)]
    simp only
    rw [generator_row_spec map columns j (512 - a) a col out (by omega) hcol]
    by_cases hlt : columns - col < ((512 - a : Nat) : Int)
    · rw [if_pos hlt]
      simp only [if_true]
      rw [if_pos (show (columns - col).toNat < 512 * (m + 1) - a from by omega),
        flatMap_row_shift map j a (columns - col).toNat (by omega)]
      have e1 : (j * 512 + a + (columns - col).toNat) % 512 = a + (columns - col).toNat := by
        omega
      have e2 : (j * 512 + a + (columns - col).toNat) / 512 = j := by omega
      rw [e1, e2]
    · rw [if_neg hlt]
      simp only [Bool.false_eq_true, if_false]
      rw [ih (j + 1) 0 0 ((j : Int) + 1) (col + ((512 - a : Nat) : Int)) _ 512 rfl
        (by push_cast; rfl) (by omega) (fun _ => by decide) (by omega),
        ← flatMap_row_shift map j a (512 - a) (by omega)]
      generalize hr : (columns - (col + ((512 - a : Nat) : Int))).toNat = r
      have er : r + (512 - a) = (columns - col).toNat := by omega
      have es : (j + 1) * 512 + 0 = j * 512 + a + (512 - a) := by omega
      by_cases hlt2 : r < 512 * m - 0
      · rw [if_pos hlt2,
          if_pos (show (columns - col).toNat < 512 * (m + 1) - a from by omega),
          ← er, Nat.add_comm r (512 - a), flatMap_range_split, es, List.append_assoc]
        have e3 : j * 512 + a + (512 - a) + r = j * 512 + a + (512 - a + r) := by omega
        rw [e3]
      · rw [if_neg hlt2,
          if_neg (show ¬ (columns - col).toNat < 512 * (m + 1) - a from by omega),
          if_neg (show ¬ m + 1 = 0 from by omega), ite_self]
        have e4 : 512 * (m + 1) - a = (512 - a) + (512 * m - 0) := by omega
        rw [e4, flatMap_range_split, es, List.append_assoc]

/-- One call of `get_generator_data` with a column count that is not negative
emits the next `columns` columns, or all that are left, and moves the cursor
behind them. -/
theorem get_generator_data_loops_spec (map : MapData) (g : MapGenerator) (c : Nat)
    (columns i0 : Int) (h : generator_at map c g) (hpos : 0 ≤ columns) :
    (get_generator_data_loops g columns i0).1 =
        (List.range' c (min columns.toNat (262144 - c))).flatMap (column_bytes map) ∧
      generator_at map (c + min columns.toNat (262144 - c))
        (get_generator_data_loops g columns i0).2 := by
  obtain ⟨hm, hcur⟩ := h
  unfold get_generator_data_loops
  simp only
  rw [hm]
  rcases hcur with ⟨hc, hx, hy⟩ | ⟨hc, hy⟩
  · rw [generator_rows_spec map columns (512 - c / 512) (c / 512) (c % 512) g.x g.y 0 [] i0
      hx hy (by omega) (fun _ => by omega) hpos]
    have ec : c / 512 * 512 + c % 512 = c := by omega
    have eT : 512 * (512 - c / 512) - c % 512 = 262144 - c := by omega
    rw [ec, eT, sub_zero]
    by_cases hlt : columns.toNat < 262144 - c
    · rw [if_pos hlt, Nat.min_eq_left (by omega)]
      refine ⟨by simp, rfl, Or.inl ⟨by omega, rfl, rfl⟩⟩
    · rw [if_neg hlt, Nat.min_eq_right (by omega)]
      refine ⟨by simp, rfl, Or.inr ⟨by omega, rfl⟩⟩
  · rw [hy, generator_rows, if_neg (by simp only [MAP_Y]; decide)]
    subst hc
    simp only [Nat.sub_self, Nat.min_zero, List.range'_zero, List.flatMap_nil, Nat.add_zero]
    exact ⟨trivial, rfl, Or.inr ⟨rfl, rfl⟩⟩

theorem generator_stream_loops_spec (map : MapData) :
    ∀ (calls : List (Int × Int)) (g : MapGenerator) (c : Nat), generator_at map c g →
      (∀ call ∈ calls, 0 ≤ call.1) →
      generator_stream_loops g calls =
        (List.range' c (min (calls.map Prod.fst).sum.toNat (262144 - c))).flatMap
          (column_bytes map) := by
  intro calls
  induction calls with
  | nil =>
    intro g c _ _
    simp [generator_stream_loops]
  | cons call calls ih =>
    intro g c hg hpos
    obtain ⟨columns, i0⟩ := call
    have h0 : 0 ≤ columns := hpos (columns, i0) (List.mem_cons_self _ _)
    have hrest : ∀ call ∈ calls, 0 ≤ call.1 := fun x hx => hpos x (List.mem_cons_of_mem _ hx)
    have hsum : 0 ≤ (calls.map Prod.fst).sum := by
      apply List.sum_nonneg
      intro x hx
      obtain ⟨call, hc, rfl⟩ := List.mem_map.1 hx
      exact hrest call hc
    obtain ⟨s1, s2⟩ := get_generator_data_loops_spec map g c columns i0 hg h0
    rw [generator_stream_loops, s1, ih _ _ s2 hrest, ← flatMap_range_split]
    congr 2
    simp only [List.map_cons, List.sum_cons]
    omega

/-- For every grid `G` and every sequence of calls with positive column counts
that add up to at least 512·512, made on a generator freshly created from `G`,
the bytes the loops of `get_generator_data` write, call after call, are the
bytes the loops of `save_vxl` write for `G`. -/
theorem generator_stream_loops_eq (G : MapData) (calls : List (Int × Int))
    (hpos : ∀ call ∈ calls, 0 < call.1) (hall : 262144 ≤ (calls.map Prod.fst).sum) :
    generator_stream_loops (create_map_generator G) calls = save_vxl_loops G := by
  have hg : generator_at G 0 (create_map_generator G) :=
    ⟨rfl, Or.inl ⟨by decide, rfl, rfl⟩⟩
  rw [generator_stream_loops_spec G calls _ 0 hg (fun call hc => le_of_lt (hpos call hc)),
    save_vxl_loops_linear, List.range_eq_range']
  congr 2
  omega

theorem sunblock_loop_eq (map : MapData) (x : Int) :
    ∀ (fuel m : Nat) (i y z : Int), m ≤ fuel → 0 ≤ z →
      sunblock_loop map x fuel (2 * (m : Int)) i y z =
        i - ∑ n in Finset.range (min m z.toNat),
          (if get_solid_wrap x (y - ((n : Int) + 1)) (z - ((n : Int) + 1)) map
            then 2 * (m : Int) - 2 * (n : Int) else 0) := by
  intro fuel
  induction fuel with
  | zero =>
    intro m i y z hm hz
    have : m = 0 := by omega
    subst this
    simp [sunblock_loop]
  | succ fuel ih =>
    intro m i y z hm hz
    rw [sunblock_loop]
    by_cases hc : (2 * (m : Int)) ≠ 0 ∧ z ≠ 0
    · rw [if_pos hc]
      obtain ⟨hc1, hc2⟩ := hc
      obtain ⟨m', rfl⟩ : ∃ m', m = m' + 1 := ⟨m - 1, by omega⟩
      have hdec : 2 * ((m' + 1 : Nat) : Int) - SHADOW_STEP = 2 * (m' : Int) := by
        simp only [SHADOW_STEP]; push_cast; ring
      rw [hdec, ih m' _ (y - 1) (z - 1) (by omega) (by omega)]
      have hmin : min (m' + 1) z.toNat = min m' (z - 1).toNat + 1 := by omega
      rw [hmin, Finset.sum_range_succ']
      have hterm : ∀ n : Nat,
          (if get_solid_wrap x (y - 1 - ((n : Int) + 1)) (z - 1 - ((n : Int) + 1)) map
            then 2 * (m' : Int) - 2 * (n : Int) else 0) =
          (if get_solid_wrap x (y - (((n + 1 : Nat) : Int) + 1))
              (z - (((n + 1 : Nat) : Int) + 1)) map
            then 2 * ((m' + 1 : Nat) : Int) - 2 * ((n + 1 : Nat) : Int) else 0) := by
        intro n
        have e1 : y - 1 - ((n : Int) + 1) = y - (((n + 1 : Nat) : Int) + 1) := by
          push_cast; ring
        have e2 : z - 1 - ((n : Int) + 1) = z - (((n + 1 : Nat) : Int) + 1) := by
          push_cast; ring
        have e3 : 2 * (m' : Int) - 2 * (n : Int) =
            2 * ((m' + 1 : Nat) : Int) - 2 * ((n + 1 : Nat) : Int) := by
          push_cast; ring
        rw [e1, e2, e3]
      rw [Finset.sum_congr rfl (fun n _ => hterm n)]
      simp only [Nat.cast_zero, zero_add, mul_zero, sub_zero]
      split_ifs <;> ring
    · rw [if_neg hc]
      have : min m z.toNat = 0 := by
        by_cases h1 : m = 0
        · simp [h1]
        · have : z = 0 := by
            by_contra h2
            exact hc ⟨by omega, h2⟩
          simp [this]
      rw [this]
      simp

theorem sunblock_loop_bounds (map : MapData) (x : Int) :
    ∀ (fuel m : Nat) (i y z : Int), m ≤ fuel →
      i - (m : Int) * ((m : Int) + 1) ≤ sunblock_loop map x fuel (2 * (m : Int)) i y z ∧
        sunblock_loop map x fuel (2 * (m : Int)) i y z ≤ i := by
  intro fuel
  induction fuel with
  | zero =>
    intro m i y z hm
    have : m = 0 := by omega
    subst this
    simp [sunblock_loop]
  | succ fuel ih =>
    intro m i y z hm
    rw [sunblock_loop]
    by_cases hc : (2 * (m : Int)) ≠ 0 ∧ z ≠ 0
    · rw [if_pos hc]
      obtain ⟨hc1, hc2⟩ := hc
      obtain ⟨m', rfl⟩ : ∃ m', m = m' + 1 := ⟨m - 1, by omega⟩
      have hdec : 2 * ((m' + 1 : Nat) : Int) - SHADOW_STEP = 2 * (m' : Int) := by
        simp only [SHADOW_STEP]; push_cast; ring
      rw [hdec]
      have hsq : ((m' + 1 : Nat) : Int) * (((m' + 1 : Nat) : Int) + 1) =
          (m' : Int) * ((m' : Int) + 1) + 2 * ((m' : Int) + 1) := by
        push_cast; ring
      rw [hsq]
      have hm0 : (0 : Int) ≤ (m' : Int) := Int.ofNat_nonneg _
      have hmm : (0 : Int) ≤ (m' : Int) * ((m' : Int) + 1) := by positivity
      have hcast : ((m' + 1 : Nat) : Int) = (m' : Int) + 1 := by push_cast; ring
      split_ifs
      · obtain ⟨b1, b2⟩ := ih m' (i - 2 * ((m' + 1 : Nat) : Int)) (y - 1) (z - 1) (by omega)
        constructor <;> linarith
      · obtain ⟨b1, b2⟩ := ih m' i (y - 1) (z - 1) (by omega)
        constructor <;> linarith
    · rw [if_neg hc]
      have hm0 : (0 : Int) ≤ (m : Int) := Int.ofNat_nonneg _
      have hmm : (0 : Int) ≤ (m : Int) * ((m : Int) + 1) := by positivity
      constructor <;> linarith

/-- Nine iterations are all the loop of `sunblock` can make: more fuel gives
the same value. -/
theorem sunblock_loop_fuel (map : MapData) (x : Int) :
    ∀ (fuel m extra : Nat) (i y z : Int), m ≤ fuel →
      sunblock_loop map x (fuel + extra) (2 * (m : Int)) i y z =
        sunblock_loop map x fuel (2 * (m : Int)) i y z := by
  intro fuel
  induction fuel with
  | zero =>
    intro m extra i y z hm
    have : m = 0 := by omega
    subst this
    cases extra with
    | zero => rfl
    | succ e =>
      simp [sunblock_loop]
  | succ fuel ih =>
    intro m extra i y z hm
    rw [show fuel + 1 + extra = (fuel + extra) + 1 from by omega, sunblock_loop, sunblock_loop]
    by_cases hc : (2 * (m : Int)) ≠ 0 ∧ z ≠ 0
    · rw [if_pos hc, if_pos hc]
      obtain ⟨hc1, hc2⟩ := hc
      obtain ⟨m', rfl⟩ : ∃ m', m = m' + 1 := ⟨m - 1, by omega⟩
      have hdec : 2 * ((m' + 1 : Nat) : Int) - SHADOW_STEP = 2 * (m' : Int) := by
        simp only [SHADOW_STEP]; push_cast; ring
      rw [hdec]
      exact ih m' extra _ _ _ (by omega)
    · rw [if_neg hc, if_neg hc]

/-- C13: for in-bounds `(x, y, z)`, `sunblock` is 127 minus the sum, over
`k = 1 .. min(9, z)`, of `20 - 2k` for each `k` at which
`solid_wrap(x, y - k, z - k)` is solid (the weights 18, 16, ..., 2 along the
`-Y,-Z` diagonal, X and Y wrapping modulo 512). -/
theorem sunblock_formula (map : MapData) (x y z : Int) (hin : in_bounds x y z) :
    sunblock map x y z =
      127 - ∑ k in Finset.Icc 1 (min 9 z.toNat), shadow_weight map x y z k := by
  obtain ⟨_, _, _, _, hz, _⟩ := hin
  unfold sunblock
  have h18 : SHADOW_DISTANCE = 2 * ((9 : Nat) : Int) := by simp [SHADOW_DISTANCE]
  rw [h18, sunblock_loop_eq map x 9 9 127 y z (le_refl _) hz]
  congr 1
  rw [← Nat.Ico_succ_right, Finset.sum_Ico_eq_sum_range]
  apply Finset.sum_congr (by simp)
  intro n _
  unfold shadow_weight
  have e1 : y - ((n : Int) + 1) = y - ((1 + n : Nat) : Int) := by push_cast; ring
  have e2 : z - ((n : Int) + 1) = z - ((1 + n : Nat) : Int) := by push_cast; ring
  have e3 : 2 * ((9 : Nat) : Int) - 2 * (n : Int) = 20 - 2 * ((1 + n : Nat) : Int) := by
    push_cast; ring
  rw [e1, e2, e3]

/-- C13, the shadow ray at the origin: with (5,0,0) solid, `sunblock(5,1,1)`
is 127 - 18 = 109. -/
theorem sunblock_formula_witness :
    in_bounds 5 1 1 ∧ sunblock shadow_block 5 1 1 = 109 := by
  refine ⟨by decide, ?_⟩
  rw [sunblock_formula shadow_block 5 1 1 (by decide)]
  have h : min 9 (1 : Int).toNat = 1 := by decide
  rw [h]
  simp [shadow_weight, get_solid_wrap, shadow_block]

theorem sunblock_range_all (map : MapData) (x y z : Int) :
    37 ≤ sunblock map x y z ∧ sunblock map x y z ≤ 127 := by
  unfold sunblock
  have h18 : SHADOW_DISTANCE = 2 * ((9 : Nat) : Int) := by simp [SHADOW_DISTANCE]
  rw [h18]
  obtain ⟨b1, b2⟩ := sunblock_loop_bounds map x 9 9 127 y z (le_refl _)
  norm_num at b1 b2 ⊢
  exact ⟨b1, b2⟩

/-- The value `(color & 0x00FFFFFF) | (a << 24)` for a byte `a`. -/
theorem shade_eq (c A : Nat) :
    (c &&& 0x00FFFFFF) ||| (A * 16777216) = A * 16777216 + c % 16777216 := by
  have h1 : c &&& 0x00FFFFFF = c % 2 ^ 24 := Nat.and_pow_two_sub_one_eq_mod c 24
  have h2 : c % 2 ^ 24 < 2 ^ 24 := Nat.mod_lt _ (by decide)
  have h3 := Nat.mul_add_lt_is_or h2 A
  rw [h1, Nat.lor_comm, Nat.mul_comm A, ← show 2 ^ 24 = 16777216 from by norm_num, ← h3]

theorem update_shadows_colors (map : MapData) (k : Int) :
    (update_shadows map).colors k =
      (map.colors k).map fun c =>
        (sunblock map (get_xyz k).x (get_xyz k).y (get_xyz k).z).toNat * 16777216 +
          c % 16777216 := by
  unfold update_shadows
  simp only
  obtain ⟨b1, b2⟩ := sunblock_range_all map (get_xyz k).x (get_xyz k).y (get_xyz k).z
  have hs : ((sunblock map (get_xyz k).x (get_xyz k).y (get_xyz k).z * 16777216) %
      4294967296).toNat =
      (sunblock map (get_xyz k).x (get_xyz k).y (get_xyz k).z).toNat * 16777216 := by
    omega
  rw [hs]
  congr 1
  funext c
  exact shade_eq c _

theorem sunblock_loop_congr (a b : MapData) (h : ∀ k, a.geometry k = b.geometry k) (x : Int) :
    ∀ (fuel : Nat) (dec i y z : Int),
      sunblock_loop a x fuel dec i y z = sunblock_loop b x fuel dec i y z := by
  intro fuel
  induction fuel with
  | zero => intro dec i y z; rfl
  | succ fuel ih =>
    intro dec i y z
    rw [sunblock_loop, sunblock_loop]
    have hw : get_solid_wrap x (y - 1) (z - 1) a = get_solid_wrap x (y - 1) (z - 1) b := by
      unfold get_solid_wrap
      rw [h]
    rw [hw, ih]

theorem sunblock_congr (a b : MapData) (h : ∀ k, a.geometry k = b.geometry k) (x y z : Int) :
    sunblock a x y z = sunblock b x y z := by
  unfold sunblock
  exact sunblock_loop_congr a b h x 9 _ _ _ _

/-- More solid voxels never brighten: the loop of `sunblock` is monotone in
the geometry. -/
theorem sunblock_loop_mono (a b : MapData)
    (h : ∀ k, a.geometry k = true → b.geometry k = true) (x : Int) :
    ∀ (fuel m : Nat) (i1 i2 y z : Int), i2 ≤ i1 →
      sunblock_loop b x fuel (2 * (m : Int)) i2 y z ≤
        sunblock_loop a x fuel (2 * (m : Int)) i1 y z := by
  intro fuel
  induction fuel with
  | zero => intro m i1 i2 y z hi; exact hi
  | succ fuel ih =>
    intro m i1 i2 y z hi
    rw [sunblock_loop, sunblock_loop]
    by_cases hc : (2 * (m : Int)) ≠ 0 ∧ z ≠ 0
    · rw [if_pos hc, if_pos hc]
      obtain ⟨hc1, hc2⟩ := hc
      obtain ⟨m', rfl⟩ : ∃ m', m = m' + 1 := ⟨m - 1, by omega⟩
      have hdec : 2 * ((m' + 1 : Nat) : Int) - SHADOW_STEP = 2 * (m' : Int) := by
        simp only [SHADOW_STEP]; push_cast; ring
      rw [hdec]
      apply ih
      have hw : get_solid_wrap x (y - 1) (z - 1) a = true →
          get_solid_wrap x (y - 1) (z - 1) b = true := by
        unfold get_solid_wrap
        split_ifs
        · exact id
        · exact h _
      have hpos : (0 : Int) ≤ 2 * ((m' + 1 : Nat) : Int) := by positivity
      by_cases ha : get_solid_wrap x (y - 1) (z - 1) a = true
      · rw [if_pos ha, if_pos (hw ha)]
        omega
      · rw [if_neg ha]
        split_ifs <;> omega
    · rw [if_neg hc, if_neg hc]
      exact hi

/-- C20: for in-bounds `(x, y, z)`, `sunblock` lies between 37 and 127, and
the color `update_shadows` stores for a colored voxel has `sunblock` itself
above its low 24 bits: the alpha byte is the value, not a truncation of it. -/
theorem sunblock_range (map : MapData) (x y z : Int) (hin : in_bounds x y z) :
    37 ≤ sunblock map x y z ∧ sunblock map x y z ≤ 127 ∧
      ∀ c, map.colors (get_pos x y z) = some c →
        ∃ c', (update_shadows map).colors (get_pos x y z) = some c' ∧
          ((c' / 16777216 : Nat) : Int) = sunblock map x y z ∧
          c' / 16777216 % 256 = c' / 16777216 ∧
          c' % 16777216 = c % 16777216 := by
  obtain ⟨b1, b2⟩ := sunblock_range_all map x y z
  refine ⟨b1, b2, ?_⟩
  intro c hc
  rw [update_shadows_colors, hc, get_xyz_get_pos x y z hin]
  refine ⟨(sunblock map x y z).toNat * 16777216 + c % 16777216, rfl, ?_, ?_, ?_⟩ <;> omega

/-- C20, at the floating voxel (256,256,30) with the color 0xFFFF0000: nothing
shades it, and `update_shadows` stores 0x7FFF0000, alpha 127. -/
theorem sunblock_range_witness :
    in_bounds 256 256 30 ∧ 37 ≤ sunblock floating_voxel 256 256 30 ∧
      sunblock floating_voxel 256 256 30 ≤ 127 := by
  have h := sunblock_range floating_voxel 256 256 30 (by decide)
  exact ⟨by decide, h.1, h.2.1⟩

/-- Making a voxel solid never raises `sunblock` anywhere. -/
theorem sunblock_set_solid_le (G : MapData) (key : Int) (vx vy vz : Int) :
    sunblock (G.set_geometry key true) vx vy vz ≤ sunblock G vx vy vz := by
  unfold sunblock
  have h18 : SHADOW_DISTANCE = 2 * ((9 : Nat) : Int) := by simp [SHADOW_DISTANCE]
  rw [h18]
  apply sunblock_loop_mono G _ _ vx 9 9 127 127 vy vz (le_refl _)
  intro k hk
  rw [set_geometry_geometry]
  split_ifs
  · rfl
  · exact hk

/-- C14: when an air voxel `p` of `G` is made solid, every voxel `v` that is a
surface in `G` and no surface afterwards has `sunblock` no larger than before
(the bound holds for every `v`, these included). -/
theorem sunblock_monotone (G : MapData) (px py pz vx vy vz : Int) :
    G.geometry (get_pos px py pz) = false →
    is_surface G vx vy vz ≠ 0 →
    is_surface (G.set_geometry (get_pos px py pz) true) vx vy vz = 0 →
    sunblock (G.set_geometry (get_pos px py pz) true) vx vy vz ≤ sunblock G vx vy vz :=
  fun _ _ _ => sunblock_set_solid_le G (get_pos px py pz) vx vy vz

theorem solid_with_hole_surface :
    solid_with_hole.geometry (get_pos 1 1 2) = false ∧
    is_surface solid_with_hole 1 1 3 ≠ 0 ∧
    is_surface (solid_with_hole.set_geometry (get_pos 1 1 2) true) 1 1 3 = 0 := by
  refine ⟨?_, ?_, ?_⟩
  · simp [solid_with_hole, set_geometry_geometry]
  · have h : is_surface solid_with_hole 1 1 3 = 1 := by
      simp [is_surface, solid_with_hole, solid_map, set_geometry_geometry, get_pos]
    rw [h]
    decide
  · simp [is_surface, solid_with_hole, solid_map, set_geometry_geometry, get_pos]

/-- C14, in the all-solid grid with the hole (1,1,2): the voxel (1,1,3) is a
surface because of the hole and none once the hole is filled, and its
`sunblock` does not grow. -/
theorem sunblock_monotone_witness :
    solid_with_hole.geometry (get_pos 1 1 2) = false ∧
    is_surface solid_with_hole 1 1 3 ≠ 0 ∧
    is_surface (solid_with_hole.set_geometry (get_pos 1 1 2) true) 1 1 3 = 0 ∧
    sunblock (solid_with_hole.set_geometry (get_pos 1 1 2) true) 1 1 3 ≤
      sunblock solid_with_hole 1 1 3 :=
  ⟨solid_with_hole_surface.1, solid_with_hole_surface.2.1, solid_with_hole_surface.2.2,
    sunblock_monotone solid_with_hole 1 1 2 1 1 3 solid_with_hole_surface.1
      solid_with_hole_surface.2.1 solid_with_hole_surface.2.2⟩

/-- C12: `update_shadows` leaves the geometry, the set of color keys and the
low 24 bits of every color unchanged, and a second pass changes nothing. -/
theorem update_shadows_frame (map : MapData) :
    (update_shadows map).geometry = map.geometry ∧
    (∀ k, ((update_shadows map).colors k).isSome = (map.colors k).isSome) ∧
    (∀ k c, map.colors k = some c →
      ∃ c', (update_shadows map).colors k = some c' ∧ c' % 16777216 = c % 16777216) ∧
    update_shadows (update_shadows map) = update_shadows map := by
  refine ⟨rfl, ?_, ?_, ?_⟩
  · intro k
    rw [update_shadows_colors]
    cases map.colors k <;> rfl
  · intro k c hc
    rw [update_shadows_colors, hc]
    refine ⟨(sunblock map (get_xyz k).x (get_xyz k).y (get_xyz k).z).toNat * 16777216 +
      c % 16777216, rfl, ?_⟩
    omega
  · apply MapData.ext_fields
    · intro k
      rfl
    · intro k
      rw [update_shadows_colors (update_shadows map) k,
        sunblock_congr (update_shadows map) map (fun _ => rfl), update_shadows_colors map k]
      cases map.colors k with
      | none => rfl
      | some c =>
        simp only [Option.map_some', Option.some.injEq]
        omega

/-- C17: if every key of the color map belongs to a solid voxel, this is so
again after `check_node`, with either `destroy` flag, and after
`update_shadows`. -/
theorem color_keys_preserved (map : MapData) (h : color_keys_solid map) :
    (∀ (x y z : Int) (destroy : Bool) (marked : Finset Int),
      color_keys_solid (check_node x y z map destroy marked).map) ∧
    color_keys_solid (update_shadows map) := by
  constructor
  · intro x y z destroy marked
    cases hl : check_loop map (push_back_node [] x y z) marked with
    | none =>
      rw [check_node_of_loop_none destroy hl]
      exact h
    | some m =>
      rw [check_node_of_loop_some destroy hl]
      cases destroy with
      | false => exact h
      | true =>
        intro k c hk
        simp only [if_true] at hk ⊢
        rw [destroy_marked_colors] at hk
        rw [destroy_marked_geometry]
        split_ifs at hk with hm
        rw [if_neg hm]
        exact h k c hk
  · intro k c hk
    rw [update_shadows_colors] at hk
    cases hc : map.colors k with
    | none => rw [hc] at hk; cases hk
    | some c0 => exact h k c0 hc

theorem floating_voxel_keys : color_keys_solid floating_voxel := by
  intro k c hk
  unfold floating_voxel at hk ⊢
  simp only at hk ⊢
  split_ifs at hk with e
  simp [e]

/-- C17, at the floating voxel: its one color key is solid, and the invariant
holds after a destroying `check_node` on it and after `update_shadows`. -/
theorem color_keys_preserved_witness :
    color_keys_solid floating_voxel ∧
    color_keys_solid (check_node 256 256 30 floating_voxel true ∅).map ∧
    color_keys_solid (update_shadows floating_voxel) :=
  ⟨floating_voxel_keys,
    (color_keys_preserved floating_voxel floating_voxel_keys).1 256 256 30 true ∅,
    (color_keys_preserved floating_voxel floating_voxel_keys).2⟩

set_option maxRecDepth 100000 in
/-- Every entry of `crc32_table` is eight steps of the bit-by-bit CRC applied
to its index. -/
theorem crc32_table_steps : ∀ i < 256, crc32_table.getD i 0 = crc_bit_step^[8] i := by
  decide

theorem xor_cancel_right (p q r : Nat) : (p ^^^ r) ^^^ (q ^^^ r) = p ^^^ q := by
  apply Nat.eq_of_testBit_eq
  intro i
  simp only [Nat.testBit_xor]
  cases p.testBit i <;> cases q.testBit i <;> cases r.testBit i <;> rfl

theorem xor_right_comm (p q r : Nat) : (p ^^^ q) ^^^ r = (p ^^^ r) ^^^ q := by
  apply Nat.eq_of_testBit_eq
  intro i
  simp only [Nat.testBit_xor]
  cases p.testBit i <;> cases q.testBit i <;> cases r.testBit i <;> rfl

theorem shiftRight_xor (a b n : Nat) : (a ^^^ b) >>> n = a >>> n ^^^ b >>> n := by
  apply Nat.eq_of_testBit_eq
  intro i
  simp only [Nat.testBit_shiftRight, Nat.testBit_xor]

/-- The bit step is linear over XOR. -/
theorem crc_bit_step_xor (a b : Nat) :
    crc_bit_step (a ^^^ b) = crc_bit_step a ^^^ crc_bit_step b := by
  unfold crc_bit_step
  have hx : (a ^^^ b) % 2 = (a + b) % 2 := Nat.xor_mod_two_eq
  have hs : (a ^^^ b) >>> 1 = a >>> 1 ^^^ b >>> 1 := shiftRight_xor a b 1
  rw [hs]
  rcases Nat.mod_two_eq_zero_or_one a with ha | ha <;>
    rcases Nat.mod_two_eq_zero_or_one b with hb | hb
  · rw [if_neg (by omega), if_neg (by omega), if_neg (by omega)]
  · rw [if_pos (by omega), if_neg (by omega), if_pos (by omega), Nat.xor_assoc]
  · rw [if_pos (by omega), if_pos (by omega), if_neg (by omega), xor_right_comm]
  · rw [if_neg (by omega), if_pos (by omega), if_pos (by omega), xor_cancel_right]

theorem crc_bit_steps_xor (n a b : Nat) :
    crc_bit_step^[n] (a ^^^ b) = crc_bit_step^[n] a ^^^ crc_bit_step^[n] b := by
  induction n generalizing a b with
  | zero => rfl
  | succ n ih =>
    rw [Function.iterate_succ_apply, Function.iterate_succ_apply,
      Function.iterate_succ_apply, crc_bit_step_xor, ih]

/-- A value whose low `n` bits are zero is only shifted by `n` steps. -/
theorem crc_bit_steps_shift (n h : Nat) : crc_bit_step^[n] (h <<< n) = h := by
  induction n with
  | zero => rfl
  | succ n ih =>
    rw [Function.iterate_succ_apply]
    have e : crc_bit_step (h <<< (n + 1)) = h <<< n := by
      unfold crc_bit_step
      rw [Nat.shiftLeft_succ, if_neg (by omega), Nat.shiftRight_eq_div_pow]
      omega
    rw [e, ih]

theorem low_byte_split (x : Nat) : x = (x &&& 0xFF) ^^^ ((x >>> 8) <<< 8) := by
  apply Nat.eq_of_testBit_eq
  intro i
  have h255 : (0xFF : Nat) = 2 ^ 8 - 1 := by norm_num
  rw [Nat.testBit_xor, Nat.testBit_and, h255, Nat.testBit_two_pow_sub_one,
    Nat.testBit_shiftLeft, Nat.testBit_shiftRight]
  by_cases hi : i < 8
  · have h2 : ¬ i ≥ 8 := by omega
    simp [hi, h2]
  · have h2 : i ≥ 8 := by omega
    have h3 : 8 + (i - 8) = i := by omega
    simp [hi, h2, h3]

/-- Eight bit steps: the low byte goes through the polynomial, the rest is
shifted down by eight. -/
theorem crc_bit_steps_split (x : Nat) :
    crc_bit_step^[8] x = crc_bit_step^[8] (x &&& 0xFF) ^^^ (x >>> 8) := by
  conv_lhs => rw [low_byte_split x]
  rw [crc_bit_steps_xor, crc_bit_steps_shift]

/-- One iteration of the loop of `compute_crc32` is one byte of the
bit-by-bit CRC. -/
theorem crc_table_step (crc b : Nat) (hb : b < 256) :
    crc32_table.getD ((crc ^^^ b) &&& 0xFF) 0 ^^^ (crc >>> 8) = crc_byte_step crc b := by
  unfold crc_byte_step
  have hlt : (crc ^^^ b) &&& 0xFF < 256 :=
    Nat.and_lt_two_pow _ (show (0xFF : Nat) < 2 ^ 8 from by norm_num)
  have hshift : (crc ^^^ b) >>> 8 = crc >>> 8 := by
    have hb0 : b >>> 8 = 0 := by
      rw [Nat.shiftRight_eq_div_pow]
      omega
    rw [shiftRight_xor, hb0, Nat.xor_zero]
  rw [crc_bit_steps_split (crc ^^^ b), hshift, crc32_table_steps _ hlt]

theorem crc_fold_eq (buf : List Nat) (hbytes : ∀ b ∈ buf, b < 256) (crc : Nat) :
    buf.foldl (fun (crc : Nat) (b : Nat) =>
      crc32_table.getD ((crc ^^^ b) &&& 0xFF) 0 ^^^ (crc >>> 8)) crc =
      buf.foldl crc_byte_step crc := by
  induction buf generalizing crc with
  | nil => rfl
  | cons b rest ih =>
    rw [List.foldl_cons, List.foldl_cons, crc_table_step crc b (hbytes b (List.mem_cons_self _ _))]
    exact ih (fun x hx => hbytes x (List.mem_cons_of_mem _ hx)) _

/-- C16: for every sequence of bytes, `compute_crc32(0, buf)` is the
bit-by-bit reflected CRC with polynomial 0xEDB88320, initial value 0xFFFFFFFF
and final XOR 0xFFFFFFFF, and every `crc32_table[i]` is eight
shift-and-conditional-XOR steps applied to `i`. -/
theorem compute_crc32_ieee (buf : List Nat) (hbytes : ∀ b ∈ buf, b < 256) :
    compute_crc32 0 buf = crc32_bitwise buf ∧
      ∀ i < 256, crc32_table.getD i 0 = crc_bit_step^[8] i := by
  refine ⟨?_, crc32_table_steps⟩
  unfold compute_crc32 crc32_bitwise
  rw [crc_fold_eq buf hbytes, Nat.zero_xor]

set_option maxRecDepth 100000 in
/-- The check value of the CRC: the ASCII bytes of "123456789". -/
theorem compute_crc32_check :
    compute_crc32 0 [49, 50, 51, 52, 53, 54, 55, 56, 57] = 0xCBF43926 := by
  decide

/-- C16, at the ASCII bytes of "123456789": both definitions give
0xCBF43926. -/
theorem compute_crc32_ieee_witness :
    (∀ b ∈ [49, 50, 51, 52, 53, 54, 55, 56, 57], b < 256) ∧
      compute_crc32 0 [49, 50, 51, 52, 53, 54, 55, 56, 57] =
        crc32_bitwise [49, 50, 51, 52, 53, 54, 55, 56, 57] ∧
      compute_crc32 0 [49, 50, 51, 52, 53, 54, 55, 56, 57] = 0xCBF43926 :=
  ⟨by decide, (compute_crc32_ieee _ (by decide)).1, compute_crc32_check⟩

theorem colors_fit_bedrock : colors_fit bedrock := by
  intro k c hk
  unfold bedrock at hk
  simp only at hk
  split_ifs at hk
  cases hk
  decide

theorem stripes_geometry (i j z : Int) :
    stripes.geometry (get_pos i j z) = decide (i % 2 = 0) := by
  have : get_pos i j z % 2 = i % 2 := by
    unfold get_pos
    omega
  unfold stripes
  simp only
  rw [this]

theorem stripes_surface_even (i j z : Int) (hi : 0 ≤ i ∧ i < 512) (he : i % 2 = 0) :
    is_surface stripes i j z = 1 := by
  unfold is_surface
  rw [stripes_geometry i j z, if_neg (by simp [he])]
  by_cases hz : z = 0
  · rw [if_pos hz]
  · rw [if_neg hz]
    by_cases h0 : i = 0
    · have c2 : i + 1 < 512 ∧ stripes.geometry (get_pos (i + 1) j z) = false := by
        refine ⟨by omega, ?_⟩
        rw [stripes_geometry]
        simp; omega
      have c1 : ¬ (i > 0 ∧ stripes.geometry (get_pos (i - 1) j z) = false) := by
        intro h; omega
      rw [if_neg c1, if_pos c2]
    · have c1 : i > 0 ∧ stripes.geometry (get_pos (i - 1) j z) = false := by
        refine ⟨by omega, ?_⟩
        rw [stripes_geometry]
        simp; omega
      rw [if_pos c1]

theorem skip_while_top (c : Int → Bool) : skip_while c 64 = 64 :=
  skip_while_eq _ _ _ (le_refl _) (le_refl _) (fun t h1 h2 => by omega)
    (fun h => absurd h (by decide))

theorem length_save_spans_done (map : MapData) (i j : Int) (bytes : List Nat)
    (h : save_span map i j 0 = (bytes, 64)) : (save_column map i j).length = bytes.length := by
  unfold save_column
  rw [show (64 : Nat) = 63 + 1 from rfl, save_spans, if_pos (by decide), h]
  simp only
  rw [show (63 : Nat) = 62 + 1 from rfl, save_spans, if_neg (by decide)]
  simp

/-- A solid column of `stripes` is one terminal span with 64 colors: 260
bytes. -/
theorem stripes_column_even (i j : Int) (hi : 0 ≤ i ∧ i < 512) (he : i % 2 = 0) :
    (save_column stripes i j).length = 260 := by
  have e1 : skip_while (fun k => !stripes.geometry (get_pos i j k)) 0 = 0 := by
    apply skip_while_eq _ _ _ (le_refl _) (by decide)
    · intro t h1 h2
      omega
    · intro _
      simp only [stripes_geometry]
      simp [he]
  have e2 : skip_while (fun k => decide (is_surface stripes i j k ≠ 0)) 0 = 64 := by
    apply skip_while_eq _ _ _ (by decide) (le_refl _)
    · intro t h1 h2
      simp [stripes_surface_even i j t hi he]
    · intro h
      exact absurd h (by decide)
  have hspan : save_span stripes i j 0 =
      ([0, 0, 63, 0] ++ write_colors stripes i j 0 64 ++ write_colors stripes i j 64 0, 64) := by
    simp only [save_span, e1, e2, skip_while_top]
    simp [MAP_Z, to_byte]
  rw [length_save_spans_done stripes i j _ hspan]
  simp only [List.length_append, length_write_colors, List.length_cons, List.length_nil]
  decide

/-- An air column of `stripes` is one terminal span without colors: 4
bytes. -/
theorem stripes_column_odd (i j : Int) (ho : i % 2 = 1) :
    (save_column stripes i j).length = 4 := by
  have e1 : skip_while (fun k => !stripes.geometry (get_pos i j k)) 0 = 64 := by
    apply skip_while_eq _ _ _ (by decide) (le_refl _)
    · intro t h1 h2
      simp only [stripes_geometry]
      simp; omega
    · intro h
      exact absurd h (by decide)
  have hspan : save_span stripes i j 0 =
      ([0, 64, 63, 0] ++ write_colors stripes i j 64 0 ++ write_colors stripes i j 64 0, 64) := by
    simp only [save_span, e1, skip_while_top]
    simp [MAP_Z, to_byte]
  rw [length_save_spans_done stripes i j _ hspan]
  simp only [List.length_append, length_write_colors, List.length_cons, List.length_nil]
  decide

theorem stripes_length_upto (n : Nat) (hn : 2 * n ≤ 262144) :
    ((List.range (2 * n)).flatMap (column_bytes stripes)).length = 264 * n := by
  induction n with
  | zero => rfl
  | succ n ih =>
    rw [show 2 * (n + 1) = 2 * n + 1 + 1 from by ring, List.range_succ, List.range_succ,
      List.flatMap_append, List.flatMap_append, List.length_append, List.length_append,
      ih (by omega), List.flatMap_singleton, List.flatMap_singleton]
    unfold column_bytes
    rw [stripes_column_even _ _ ⟨by omega, by omega⟩ (by omega),
      stripes_column_odd _ _ (by omega)]
    omega

/-- For the grid `stripes` the loops of `save_vxl` write 34603008 bytes, and
so do the loops of one call of `get_generator_data` for all 262144 columns:
more than the 10485760 bytes of the block that `create_temp` allocates. -/
theorem save_vxl_loops_stripes_length :
    (save_vxl_loops stripes).length = 34603008 ∧
    (∀ i0 : Int, (get_generator_data_loops (create_map_generator stripes) 262144 i0).1.length =
      34603008) ∧
    10 * 1024 * 1024 < 34603008 := by
  have hlen : (save_vxl_loops stripes).length = 34603008 := by
    rw [save_vxl_loops_linear]
    exact stripes_length_upto 131072 (by decide)
  refine ⟨hlen, ?_, by decide⟩
  intro i0
  have hg : generator_at stripes 0 (create_map_generator stripes) :=
    ⟨rfl, Or.inl ⟨by decide, rfl, rfl⟩⟩
  obtain ⟨h1, _⟩ := get_generator_data_loops_spec stripes _ 0 262144 i0 hg (by decide)
  have hmin : min (262144 : Int).toNat (262144 - 0) = 262144 := by decide
  rw [h1, hmin, ← List.range_eq_range', ← save_vxl_loops_linear, hlen]

theorem save_span_runs (map : MapData) (i j k : Int) :
    save_span map i j k =
      ([to_byte (if (span_runs map i j k).2.2.2 = MAP_Z then 0
          else ((span_runs map i j k).2.1 - (span_runs map i j k).1) +
            ((span_runs map i j k).2.2.2 - (span_runs map i j k).2.2.1) + 1),
        to_byte (span_runs map i j k).1, to_byte ((span_runs map i j k).2.1 - 1), to_byte k]
        ++ write_colors map i j (span_runs map i j k).1
          ((span_runs map i j k).2.1 - (span_runs map i j k).1)
        ++ write_colors map i j (span_runs map i j k).2.2.1
          ((span_runs map i j k).2.2.2 - (span_runs map i j k).2.2.1),
        (span_runs map i j k).2.2.2) := rfl

theorem span_runs_order (map : MapData) (i j k : Int) (h0 : 0 ≤ k) (hk : k < 64) :
    k ≤ (span_runs map i j k).1 ∧ (span_runs map i j k).1 ≤ (span_runs map i j k).2.1 ∧
    (span_runs map i j k).2.1 ≤ (span_runs map i j k).2.2.1 ∧
    (span_runs map i j k).2.2.1 ≤ (span_runs map i j k).2.2.2 ∧
    (span_runs map i j k).2.2.2 ≤ 64 ∧ k < (span_runs map i j k).2.2.2 := by
  have hprog := save_span_progress map i j k h0 hk
  rw [save_span_runs] at hprog
  simp only at hprog
  obtain ⟨a1, a2, _, _⟩ :=
    skip_while_spec (fun k => !map.geometry (get_pos i j k)) k (by omega)
  obtain ⟨c1, c2, _, _⟩ := skip_while_spec (fun k => decide (is_surface map i j k ≠ 0))
    (skip_while (fun k => !map.geometry (get_pos i j k)) k) a2
  obtain ⟨d1, d2, _, _⟩ := skip_while_spec
    (fun k => map.geometry (get_pos i j k) && !decide (is_surface map i j k ≠ 0))
    (skip_while (fun k => decide (is_surface map i j k ≠ 0))
      (skip_while (fun k => !map.geometry (get_pos i j k)) k)) c2
  obtain ⟨e1, e2, e3, e4⟩ := skip_while_spec (fun k => decide (is_surface map i j k ≠ 0))
    (skip_while
      (fun k => map.geometry (get_pos i j k) && !decide (is_surface map i j k ≠ 0))
      (skip_while (fun k => decide (is_surface map i j k ≠ 0))
        (skip_while (fun k => !map.geometry (get_pos i j k)) k))) d2
  refine ⟨a1, c1, d1, ?_, hprog.2, hprog.1⟩
  simp only [span_runs]
  split_ifs with hz
  · exact le_refl _
  · have hz64 : skip_while (fun k => decide (is_surface map i j k ≠ 0))
        (skip_while
          (fun k => map.geometry (get_pos i j k) && !decide (is_surface map i j k ≠ 0))
          (skip_while (fun k => decide (is_surface map i j k ≠ 0))
            (skip_while (fun k => !map.geometry (get_pos i j k)) k))) < 64 := by
      have : skip_while (fun k => decide (is_surface map i j k ≠ 0))
        (skip_while
          (fun k => map.geometry (get_pos i j k) && !decide (is_surface map i j k ≠ 0))
          (skip_while (fun k => decide (is_surface map i j k ≠ 0))
            (skip_while (fun k => !map.geometry (get_pos i j k)) k))) ≠ 64 := by
        simpa [MAP_Z] using hz
      omega
    rw [skip_surface_eq map i j 64 _ _ e1 (by omega)
      (fun t h1 h2 => by simpa using e3 t h1 h2) (by simpa using e4 hz64)]
    exact e1

theorem save_spans_starts (map : MapData) (i j : Int) (fuel : Nat) (k : Int) :
    save_spans map i j fuel k =
      (span_starts map i j fuel k).flatMap fun s => (save_span map i j s).1 := by
  induction fuel generalizing k with
  | zero => rfl
  | succ fuel ih =>
    rw [save_spans, span_starts]
    split_ifs
    · rw [List.flatMap_cons, ih]
    · rfl

theorem span_starts_top (map : MapData) (i j : Int) (fuel : Nat) :
    span_starts map i j fuel 64 = [] := by
  cases fuel with
  | zero => rfl
  | succ fuel => rw [span_starts, if_neg (by decide)]

/-- Every span of a column begins inside the column, and it is the last one
exactly when its final `k` is `MAP_Z`. -/
theorem span_starts_last (map : MapData) (i j : Int) :
    ∀ (fuel : Nat) (k : Int), 0 ≤ k → 64 - k ≤ fuel →
      ∀ (pre : List Int) (s : Int) (post : List Int),
        span_starts map i j fuel k = pre ++ s :: post →
          0 ≤ s ∧ s < 64 ∧ (post = [] ↔ (span_runs map i j s).2.2.2 = 64) := by
  intro fuel
  induction fuel with
  | zero =>
    intro k _ _ pre s post h
    simp [span_starts] at h
  | succ fuel ih =>
    intro k h0 hf pre s post h
    rw [span_starts] at h
    by_cases hk : k < MAP_Z
    · rw [if_pos hk] at h
      have hk64 : k < 64 := by simpa [MAP_Z] using hk
      obtain ⟨_, _, _, _, o5, o6⟩ := span_runs_order map i j k h0 hk64
      have hnext : (save_span map i j k).2 = (span_runs map i j k).2.2.2 := rfl
      rw [hnext] at h
      cases pre with
      | nil =>
        simp only [List.nil_append, List.cons.injEq] at h
        obtain ⟨rfl, hpost⟩ := h
        refine ⟨h0, hk64, ?_⟩
        constructor
        · intro hnil
          by_contra hne
          rw [hnil] at hpost
          obtain ⟨f, rfl⟩ : ∃ f, fuel = f + 1 := ⟨fuel - 1, by omega⟩
          rw [span_starts, if_pos (by simp only [MAP_Z]; omega)] at hpost
          cases hpost
        · intro h64
          rw [h64, span_starts_top] at hpost
          exact hpost.symm
      | cons p pre =>
        simp only [List.cons_append, List.cons.injEq] at h
        exact ih _ (by omega) (by omega) pre s post h.2
    · rw [if_neg hk] at h
      cases pre <;> cases h

/-- C11: for every grid and column, the loop of `save_vxl` writes at least
one span; every span is a header `N, S, E, A` followed by `top_len +
bottom_len` colors; `N` is 0 on the last span and on no other, and on every
earlier span `N` is `top_len + bottom_len + 1`, a non-zero value below 256. -/
theorem save_vxl_terminator (map : MapData) (i j : Int) :
    span_starts map i j 64 0 ≠ [] ∧
    save_column map i j =
      (span_starts map i j 64 0).flatMap (fun s => (save_span map i j s).1) ∧
    ∀ (pre : List Int) (s : Int) (post : List Int),
      span_starts map i j 64 0 = pre ++ s :: post →
      ∃ (N S E A : Nat) (colors : List Nat),
        (save_span map i j s).1 = N :: S :: E :: A :: colors ∧
        colors.length = 4 * (((span_runs map i j s).2.1 - (span_runs map i j s).1) +
          ((span_runs map i j s).2.2.2 - (span_runs map i j s).2.2.1)).toNat ∧
        (N = 0 ↔ post = []) ∧
        (post ≠ [] → (N : Int) = ((span_runs map i j s).2.1 - (span_runs map i j s).1) +
            ((span_runs map i j s).2.2.2 - (span_runs map i j s).2.2.1) + 1 ∧ N < 256) := by
  refine ⟨?_, ?_, ?_⟩
  · rw [show (64 : Nat) = 63 + 1 from rfl, span_starts, if_pos (by decide)]
    exact List.cons_ne_nil _ _
  · unfold save_column
    exact save_spans_starts map i j 64 0
  · intro pre s post h
    obtain ⟨s0, s64, hlast⟩ := span_starts_last map i j 64 0 (le_refl _) (by decide) pre s post h
    obtain ⟨o1, o2, o3, o4, o5, o6⟩ := span_runs_order map i j s s0 s64
    rw [save_span_runs]
    refine ⟨_, _, _, _, _, rfl, ?_, ?_, ?_⟩
    · simp only [List.append_eq, List.nil_append, List.length_append, length_write_colors]
      omega
    · rw [hlast]
      simp only [MAP_Z, to_byte]
      split_ifs with h64
      · simp [h64]
      · constructor
        · intro hN
          omega
        · intro h
          exact absurd h h64
    · intro hpost
      have h64 : (span_runs map i j s).2.2.2 ≠ 64 := fun h => hpost (hlast.2 h)
      simp only [MAP_Z, to_byte]
      rw [if_neg h64]
      constructor <;> omega

/-- A call on a generator whose cursor has `y = MAP_Y` runs no loop: it
returns no bytes and stores the uninitialised `i`. -/
theorem exhausted_call (g : MapGenerator) (hy : g.y = 512) (columns i0 : Int) :
    get_generator_data_loops g columns i0 = ([], ⟨g.map, i0, 512⟩) := by
  unfold get_generator_data_loops
  simp only
  rw [hy, generator_rows, if_neg (by simp only [MAP_Y]; decide)]

/-- The call that emits the last column leaves the cursor at (512, 512). -/
theorem final_call (map : MapData) (g : MapGenerator) (c : Nat) (columns i0 : Int)
    (h : generator_at map c g) (hc : c < 262144) (hall : 262144 - (c : Int) ≤ columns) :
    (get_generator_data_loops g columns i0).2 = ⟨map, 512, 512⟩ := by
  obtain ⟨hm, hcur⟩ := h
  rcases hcur with ⟨_, hx, hy⟩ | ⟨hc2, _⟩
  · unfold get_generator_data_loops
    simp only
    rw [hm, generator_rows_spec map columns (512 - c / 512) (c / 512) (c % 512) g.x g.y 0 [] i0
      hx hy (by omega) (fun _ => by omega) (by omega)]
    rw [if_neg (by omega), if_neg (by omega)]
  · omega

theorem generator_after_loops_append (g : MapGenerator) (l1 l2 : List (Int × Int)) :
    generator_after_loops g (l1 ++ l2) = generator_after_loops (generator_after_loops g l1) l2 := by
  induction l1 generalizing g with
  | nil => rfl
  | cons call l1 ih =>
    obtain ⟨columns, i0⟩ := call
    rw [List.cons_append, generator_after_loops, generator_after_loops, ih]

theorem generator_after_loops_exhausted (g : MapGenerator) (hy : g.y = 512)
    (calls : List (Int × Int)) : (generator_after_loops g calls).y = 512 := by
  induction calls generalizing g with
  | nil => exact hy
  | cons call calls ih =>
    obtain ⟨columns, i0⟩ := call
    rw [generator_after_loops, exhausted_call g hy]
    exact ih _ rfl

theorem generator_after_loops_at (map : MapData) :
    ∀ (calls : List (Int × Int)) (g : MapGenerator) (c : Nat), generator_at map c g →
      (∀ call ∈ calls, 0 < call.1) → (c : Int) + (calls.map Prod.fst).sum < 262144 →
      generator_at map (c + (calls.map Prod.fst).sum.toNat) (generator_after_loops g calls) := by
  intro calls
  induction calls with
  | nil =>
    intro g c hg _ _
    simpa [generator_after_loops] using hg
  | cons call calls ih =>
    intro g c hg hpos hsum
    obtain ⟨columns, i0⟩ := call
    have h0 : 0 < columns := hpos (columns, i0) (List.mem_cons_self _ _)
    have hrest : ∀ call ∈ calls, 0 < call.1 := fun x hx => hpos x (List.mem_cons_of_mem _ hx)
    have hnn : 0 ≤ (calls.map Prod.fst).sum := by
      apply List.sum_nonneg
      intro x hx
      obtain ⟨call, hc, rfl⟩ := List.mem_map.1 hx
      exact le_of_lt (hrest call hc)
    simp only [List.map_cons, List.sum_cons] at hsum ⊢
    obtain ⟨_, s2⟩ := get_generator_data_loops_spec map g c columns i0 hg (le_of_lt h0)
    rw [Nat.min_eq_left (by omega)] at s2
    have := ih (get_generator_data_loops g columns i0).2 (c + columns.toNat) s2 hrest
      (by push_cast; omega)
    rw [generator_after_loops]
    have e : c + (columns + (calls.map Prod.fst).sum).toNat =
        c + columns.toNat + (calls.map Prod.fst).sum.toNat := by omega
    rw [e]
    exact this

/-- The cursor the loops of `get_generator_data` leave: when calls with
positive column counts have emitted fewer than all 262144 columns and one more
call emits the last column, the cursor is then (512, 512); from then on its `y`
stays 512 whatever calls follow, and the loops of every further call write
nothing. -/
theorem generator_loops_exhausted (G : MapData) (pre : List (Int × Int)) (last : Int × Int)
    (hpos : ∀ call ∈ pre, 0 < call.1) (hpre : (pre.map Prod.fst).sum < 262144)
    (hlast : 262144 ≤ (pre.map Prod.fst).sum + last.1) :
    generator_after_loops (create_map_generator G) (pre ++ [last]) = ⟨G, 512, 512⟩ ∧
    ∀ (later : List (Int × Int)) (columns i0 : Int),
      (generator_after_loops (create_map_generator G) (pre ++ [last] ++ later)).y = 512 ∧
      (get_generator_data_loops
        (generator_after_loops (create_map_generator G) (pre ++ [last] ++ later)) columns i0).1 =
        [] := by
  have hg : generator_at G 0 (create_map_generator G) :=
    ⟨rfl, Or.inl ⟨by decide, rfl, rfl⟩⟩
  have hnn : 0 ≤ (pre.map Prod.fst).sum := by
    apply List.sum_nonneg
    intro x hx
    obtain ⟨call, hc, rfl⟩ := List.mem_map.1 hx
    exact le_of_lt (hpos call hc)
  have hat := generator_after_loops_at G pre _ 0 hg hpos (by simpa using hpre)
  obtain ⟨columns, i0⟩ := last
  have hfin : generator_after_loops (create_map_generator G) (pre ++ [(columns, i0)]) =
      ⟨G, 512, 512⟩ := by
    rw [generator_after_loops_append, generator_after_loops, generator_after_loops]
    exact final_call G _ _ columns i0 hat (by omega) (by simp only at hlast; omega)
  refine ⟨hfin, ?_⟩
  intro later cols j0
  rw [generator_after_loops_append, hfin]
  have hy := generator_after_loops_exhausted ⟨G, 512, 512⟩ rfl later
  refine ⟨hy, ?_⟩
  rw [exhausted_call _ hy]

theorem check_loop_steps_fst (map : MapData) (nodes : List Position) (marked : Finset Int) :
    (check_loop_steps map nodes marked).1 = check_loop map nodes marked := by
  induction nodes, marked using check_loop.induct map with
  | case1 marked => rw [check_loop_steps, check_loop]
  | case2 p rest marked hz => rw [check_loop_steps, check_loop, if_pos hz, if_pos hz]
  | case3 p rest marked hz hm ih =>
    rw [check_loop_steps, check_loop, if_neg hz, if_neg hz, if_pos hm, if_pos hm]
    exact ih
  | case4 p rest marked hz hm ih =>
    rw [check_loop_steps, check_loop, if_neg hz, if_neg hz, if_neg hm, if_neg hm]
    exact ih

theorem add_node_push (x y z : Int) (map : MapData) (nodes : List Position) :
    (add_node x y z map nodes).length ≤
        nodes.length + (if in_bounds x y z then 1 else 0) ∧
      outside_nodes (add_node x y z map nodes) = outside_nodes nodes := by
  unfold add_node push_back_node
  by_cases hb : x < 0 ∨ x > 511 ∨ y < 0 ∨ y > 511 ∨ z < 0 ∨ z > 63
  · rw [if_pos hb]
    exact ⟨Nat.le_add_right _ _, rfl⟩
  · rw [if_neg hb]
    have hin : in_bounds x y z := by
      unfold in_bounds
      omega
    rw [if_pos hin]
    by_cases hg : (!map.geometry (get_pos x y z)) = true
    · rw [if_pos hg]
      exact ⟨Nat.le_succ _, rfl⟩
    · rw [if_neg hg]
      refine ⟨by simp, ?_⟩
      simp [outside_nodes, List.filter_cons, hin]

/-- The six `add_node` calls push at most one node for every neighbour that
is in bounds, and no node out of bounds. -/
theorem add_neighbors_push (x y z : Int) (map : MapData) (nodes : List Position) :
    (add_neighbors x y z map nodes).length ≤ nodes.length +
        ((if in_bounds x y (z - 1) then 1 else 0) + (if in_bounds x (y - 1) z then 1 else 0) +
          (if in_bounds x (y + 1) z then 1 else 0) + (if in_bounds (x - 1) y z then 1 else 0) +
          (if in_bounds (x + 1) y z then 1 else 0) + (if in_bounds x y (z + 1) then 1 else 0)) ∧
      outside_nodes (add_neighbors x y z map nodes) = outside_nodes nodes := by
  unfold add_neighbors
  have h1 := add_node_push x y (z - 1) map nodes
  have h2 := add_node_push x (y - 1) z map (add_node x y (z - 1) map nodes)
  have h3 := add_node_push x (y + 1) z map (add_node x (y - 1) z map
    (add_node x y (z - 1) map nodes))
  have h4 := add_node_push (x - 1) y z map (add_node x (y + 1) z map
    (add_node x (y - 1) z map (add_node x y (z - 1) map nodes)))
  have h5 := add_node_push (x + 1) y z map (add_node (x - 1) y z map
    (add_node x (y + 1) z map (add_node x (y - 1) z map (add_node x y (z - 1) map nodes))))
  have h6 := add_node_push x y (z + 1) map (add_node (x + 1) y z map
    (add_node (x - 1) y z map (add_node x (y + 1) z map (add_node x (y - 1) z map
      (add_node x y (z - 1) map nodes)))))
  refine ⟨by omega, ?_⟩
  rw [h6.2, h5.2, h4.2, h3.2, h2.2, h1.2]

/-- What one first visit pushes: at most six nodes, at most five at the corner
voxel (0,0,0), and at most one from a position out of bounds. -/
theorem push_bound (x y z : Int) (map : MapData) (rest : List Position) :
    (add_neighbors x y z map rest).length ≤ rest.length +
      (if in_bounds x y z then (if get_pos x y z = 0 then 5 else 6) else 1) := by
  have h := (add_neighbors_push x y z map rest).1
  unfold in_bounds get_pos at *
  split_ifs at h ⊢ <;> omega

theorem low_card (marked : Finset Int) :
    (marked.filter low_key).card + (if (0 : Int) ∈ marked then 0 else 1) ≤ 16252928 := by
  by_cases h0 : (0 : Int) ∈ marked
  · rw [if_pos h0]
    have hsub : marked.filter low_key ⊆ Finset.Ico (0 : Int) 16252928 := by
      intro k hk
      exact Finset.mem_Ico.2 (Finset.mem_filter.1 hk).2
    have := Finset.card_le_card hsub
    rw [Int.card_Ico] at this
    simpa using this
  · rw [if_neg h0]
    have hsub : marked.filter low_key ⊆ Finset.Ico (1 : Int) 16252928 := by
      intro k hk
      obtain ⟨hm, hl1, hl2⟩ := Finset.mem_filter.1 hk
      have : k ≠ 0 := fun e => h0 (e ▸ hm)
      exact Finset.mem_Ico.2 ⟨by omega, hl2⟩
    have := Finset.card_le_card hsub
    rw [Int.card_Ico] at this
    have e : ((16252928 : Int) - 1).toNat = 16252927 := by decide
    omega

theorem low_card_insert (marked : Finset Int) (k : Int) (hk : k ∉ marked) :
    ((insert k marked).filter low_key).card =
      (marked.filter low_key).card + (if low_key k then 1 else 0) := by
  rw [Finset.filter_insert]
  split_ifs with hl
  · rw [Finset.card_insert_of_not_mem]
    intro hmem
    exact hk (Finset.mem_filter.1 hmem).1
  · rfl

/-- Every iteration of the loop uses up one unit of `walk_budget`. -/
theorem steps_le_budget (map : MapData) (nodes : List Position) (marked : Finset Int) :
    ((check_loop_steps map nodes marked).2 : Int) ≤ walk_budget nodes marked := by
  induction nodes, marked using check_loop.induct map with
  | case1 marked =>
    rw [check_loop_steps]
    have h := low_card marked
    unfold walk_budget outside_nodes
    simp only [List.length_nil, List.filter_nil, Nat.cast_zero]
    split_ifs at h ⊢ <;> omega
  | case2 p rest marked hz =>
    rw [check_loop_steps, if_pos hz]
    have h := low_card marked
    unfold walk_budget
    simp only [List.length_cons, Nat.cast_add, Nat.cast_one]
    split_ifs at h ⊢ <;> omega
  | case3 p rest marked hz hm ih =>
    rw [check_loop_steps, if_neg hz, if_pos hm]
    simp only
    have ho : outside_nodes rest ≤ outside_nodes (p :: rest) := by
      unfold outside_nodes
      rw [List.filter_cons]
      split_ifs <;> simp
    unfold walk_budget at ih ⊢
    simp only [List.length_cons, Nat.cast_add, Nat.cast_one]
    omega
  | case4 p rest marked hz hm ih =>
    rw [check_loop_steps, if_neg hz, if_neg hm]
    simp only
    have hpush := push_bound p.x p.y p.z map rest
    have hout := (add_neighbors_push p.x p.y p.z map rest).2
    have hcard := low_card_insert marked _ hm
    have ho : outside_nodes (p :: rest) =
        outside_nodes rest + (if in_bounds p.x p.y p.z then 0 else 1) := by
      unfold outside_nodes
      rw [List.filter_cons]
      split_ifs with h1 h2 h2
      · simp at h1
        exact absurd h2 h1
      · simp
      · simp
      · simp at h1
        exact absurd h1 h2
    have hlow : in_bounds p.x p.y p.z → low_key (get_pos p.x p.y p.z) := by
      intro hb
      unfold in_bounds at hb
      unfold low_key get_pos
      omega
    have h0 : get_pos p.x p.y p.z = 0 → low_key (get_pos p.x p.y p.z) := by
      intro e
      rw [e]
      decide
    have hmem : (0 : Int) ∈ insert (get_pos p.x p.y p.z) marked ↔
        get_pos p.x p.y p.z = 0 ∨ (0 : Int) ∈ marked := by
      rw [Finset.mem_insert]
      constructor
      · rintro (e | e)
        · exact Or.inl e.symm
        · exact Or.inr e
      · rintro (e | e)
        · exact Or.inl e.symm
        · exact Or.inr e
    have hnot : get_pos p.x p.y p.z = 0 → (0 : Int) ∉ marked := fun e h => hm (e ▸ h)
    unfold walk_budget at ih ⊢
    rw [hout, hcard] at ih
    rw [ho]
    simp only [List.length_cons, Nat.cast_add, Nat.cast_one]
    by_cases hb : in_bounds p.x p.y p.z
    · have hl := hlow hb
      rw [if_pos hb] at hpush ⊢
      rw [if_pos hl] at ih
      by_cases e0 : get_pos p.x p.y p.z = 0
      · rw [if_pos e0] at hpush
        rw [if_pos (hmem.2 (Or.inl e0))] at ih
        rw [if_neg (hnot e0)]
        push_cast at ih ⊢
        omega
      · rw [if_neg e0] at hpush
        by_cases hz0 : (0 : Int) ∈ marked
        · rw [if_pos (hmem.2 (Or.inr hz0))] at ih
          rw [if_pos hz0]
          push_cast at ih ⊢
          omega
        · have : ¬ (0 : Int) ∈ insert (get_pos p.x p.y p.z) marked := by
            rw [hmem]
            exact fun h => h.elim e0 hz0
          rw [if_neg this] at ih
          rw [if_neg hz0]
          push_cast at ih ⊢
          omega
    · rw [if_neg hb] at hpush ⊢
      by_cases e0 : get_pos p.x p.y p.z = 0
      · rw [if_pos (h0 e0), if_pos (hmem.2 (Or.inl e0))] at ih
        rw [if_neg (hnot e0)]
        push_cast at ih ⊢
        omega
      · by_cases hz0 : (0 : Int) ∈ marked
        · rw [if_pos (hmem.2 (Or.inr hz0))] at ih
          rw [if_pos hz0]
          split_ifs at ih <;> push_cast at ih ⊢ <;> omega
        · have : ¬ (0 : Int) ∈ insert (get_pos p.x p.y p.z) marked := by
            rw [hmem]
            exact fun h => h.elim e0 hz0
          rw [if_neg this] at ih
          rw [if_neg hz0]
          split_ifs at ih <;> push_cast at ih ⊢ <;> omega

theorem mem_low_voxels (p : Position) :
    p ∈ low_voxels ↔ in_bounds p.x p.y p.z ∧ p.z < 62 := by
  unfold low_voxels
  rw [Finset.mem_image]
  constructor
  · rintro ⟨k, hk, rfl⟩
    obtain ⟨h1, h2⟩ := Finset.mem_Ico.1 hk
    unfold in_bounds get_xyz
    simp only
    omega
  · rintro ⟨hb, hz⟩
    refine ⟨get_pos p.x p.y p.z, ?_, get_xyz_get_pos _ _ _ hb⟩
    unfold in_bounds at hb
    rw [Finset.mem_Ico]
    unfold get_pos
    omega

theorem card_low_voxels : low_voxels.card = 16252928 := by
  unfold low_voxels
  rw [Finset.card_image_of_injOn, Int.card_Ico]
  · decide
  · intro a ha b hb e
    have ha2 := Finset.mem_Ico.1 (Finset.mem_coe.1 ha)
    have hb2 := Finset.mem_Ico.1 (Finset.mem_coe.1 hb)
    simp only [get_xyz, Position.mk.injEq] at e
    omega

/-- C21: for every grid, every seed and every content of the visited set, the
work-stack loop of `check_node` ends (`check_loop_steps` is a total function
whose first component is the result of the loop), a first visit pushes at most
six nodes, and the number of iterations, each of which pops one node, is at
most 1 + 6 · (number of in-bounds voxels with `z < 62`), these voxels being
the members of `low_voxels`. -/
theorem check_node_terminates (map : MapData) (x y z : Int) (marked : Finset Int) :
    (check_loop_steps map (push_back_node [] x y z) marked).1 =
      check_loop map (push_back_node [] x y z) marked ∧
    (∀ p : Position, p ∈ low_voxels ↔ in_bounds p.x p.y p.z ∧ p.z < 62) ∧
    (∀ (a b c : Int) (nodes : List Position),
      (add_neighbors a b c map nodes).length ≤ nodes.length + 6) ∧
    (check_loop_steps map (push_back_node [] x y z) marked).2 ≤ 1 + 6 * low_voxels.card := by
  refine ⟨check_loop_steps_fst _ _ _, mem_low_voxels,
    fun a b c nodes => (add_neighbors_measure a b c map nodes).1, ?_⟩
  have h := steps_le_budget map (push_back_node [] x y z) marked
  have hc := low_card marked
  rw [card_low_voxels]
  unfold walk_budget push_back_node at h
  unfold push_back_node
  have ho : outside_nodes [(⟨x, y, z⟩ : Position)] ≤ 1 := by
    unfold outside_nodes
    rw [List.filter_cons]
    split_ifs <;> simp
  simp only [List.length_cons, List.length_nil] at h
  by_cases h0 : (0 : Int) ∈ marked
  · have hpos : 0 < (marked.filter low_key).card := by
      apply Finset.card_pos.2
      exact ⟨0, Finset.mem_filter.2 ⟨h0, by decide⟩⟩
    rw [if_pos h0] at h
    omega
  · rw [if_neg h0] at h
    omega

/-- The walk from the floating voxel (256,256,30) makes one iteration. -/
theorem check_loop_steps_floating :
    check_loop_steps floating_voxel (push_back_node [] 256 256 30) ∅ =
      (some {get_pos 256 256 30}, 1) := by
  have hnb : add_neighbors 256 256 30 floating_voxel [] = [] := by
    apply List.eq_nil_iff_forall_not_mem.2
    intro q hq
    rcases (mem_add_neighbors q ⟨256, 256, 30⟩ floating_voxel []).1 hq with h | h
    · simp at h
    · exact floating_voxel_isolated q h
  unfold push_back_node
  rw [check_loop_steps, if_neg (by decide), if_neg (by simp)]
  simp only [hnb]
  rw [check_loop_steps]
  rfl

theorem save_vxl_of_fits (map : MapData) (h : (save_vxl_loops map).length ≤ TEMP_SIZE) :
    save_vxl map = some (save_vxl_loops map) := by
  unfold save_vxl
  rw [if_pos h]

theorem save_vxl_overflow (map : MapData) (h : TEMP_SIZE < (save_vxl_loops map).length) :
    save_vxl map = none := by
  unfold save_vxl
  rw [if_neg (by omega)]

/-- When `save_vxl` returns, it returns what its loops wrote, and that fits
the block. -/
theorem save_vxl_some (map : MapData) (bytes : List Nat) (h : save_vxl map = some bytes) :
    bytes = save_vxl_loops map ∧ (save_vxl_loops map).length ≤ TEMP_SIZE := by
  unfold save_vxl at h
  split_ifs at h with hfit
  exact ⟨(Option.some.inj h).symm, hfit⟩

theorem get_generator_data_of_fits (g : MapGenerator) (columns i0 : Int)
    (h : (get_generator_data_loops g columns i0).1.length ≤ TEMP_SIZE) :
    get_generator_data g columns i0 = some (get_generator_data_loops g columns i0) := by
  unfold get_generator_data
  rw [if_pos h]

theorem get_generator_data_overflow (g : MapGenerator) (columns i0 : Int)
    (h : TEMP_SIZE < (get_generator_data_loops g columns i0).1.length) :
    get_generator_data g columns i0 = none := by
  unfold get_generator_data
  rw [if_neg (by omega)]

/-- When no call runs past the block, the calls return what their loops
wrote. -/
theorem generator_stream_of_fit (g : MapGenerator) (calls : List (Int × Int))
    (h : calls_fit g calls) :
    generator_stream g calls = some (generator_stream_loops g calls) := by
  induction calls generalizing g with
  | nil => rfl
  | cons call calls ih =>
    obtain ⟨columns, i0⟩ := call
    obtain ⟨h1, h2⟩ := h
    rw [generator_stream, get_generator_data_of_fits g columns i0 h1]
    simp only
    rw [ih _ h2, generator_stream_loops]

theorem generator_after_of_fit (g : MapGenerator) (calls : List (Int × Int))
    (h : calls_fit g calls) :
    generator_after g calls = some (generator_after_loops g calls) := by
  induction calls generalizing g with
  | nil => rfl
  | cons call calls ih =>
    obtain ⟨columns, i0⟩ := call
    obtain ⟨h1, h2⟩ := h
    rw [generator_after, get_generator_data_of_fits g columns i0 h1]
    simp only
    rw [ih _ h2, generator_after_loops]

/-- When a sequence of calls returns, no call ran past the block, and the
generator is the one the loops leave. -/
theorem generator_after_some (g g' : MapGenerator) (calls : List (Int × Int))
    (h : generator_after g calls = some g') :
    calls_fit g calls ∧ g' = generator_after_loops g calls := by
  induction calls generalizing g with
  | nil =>
    rw [generator_after] at h
    exact ⟨trivial, (Option.some.inj h).symm⟩
  | cons call calls ih =>
    obtain ⟨columns, i0⟩ := call
    rw [generator_after] at h
    by_cases hfit : (get_generator_data_loops g columns i0).1.length ≤ TEMP_SIZE
    · rw [get_generator_data_of_fits g columns i0 hfit] at h
      simp only at h
      obtain ⟨c1, c2⟩ := ih _ h
      exact ⟨⟨hfit, c1⟩, by rw [generator_after_loops]; exact c2⟩
    · rw [get_generator_data_overflow g columns i0 (by omega)] at h
      cases h

theorem calls_fit_append (g : MapGenerator) (l1 l2 : List (Int × Int)) :
    calls_fit g (l1 ++ l2) ↔ calls_fit g l1 ∧ calls_fit (generator_after_loops g l1) l2 := by
  induction l1 generalizing g with
  | nil => simp [calls_fit, generator_after_loops]
  | cons call l1 ih =>
    obtain ⟨columns, i0⟩ := call
    rw [List.cons_append, calls_fit, calls_fit, generator_after_loops, ih, and_assoc]

/-- An exhausted generator writes nothing, so its calls fit. -/
theorem calls_fit_exhausted (g : MapGenerator) (hy : g.y = 512) (calls : List (Int × Int)) :
    calls_fit g calls := by
  induction calls generalizing g with
  | nil => trivial
  | cons call calls ih =>
    obtain ⟨columns, i0⟩ := call
    rw [calls_fit, exhausted_call g hy]
    exact ⟨Nat.zero_le _, ih _ rfl⟩

theorem length_flatMap_le (f : Nat → List Nat) (B : Nat) (s n : Nat)
    (h : ∀ c, s ≤ c → c < s + n → (f c).length ≤ B) :
    ((List.range' s n).flatMap f).length ≤ B * n := by
  induction n generalizing s with
  | zero => simp
  | succ n ih =>
    rw [List.range'_succ, List.flatMap_cons, List.length_append]
    have h1 := h s (le_refl _) (by omega)
    have h2 := ih (s + 1) (fun c hc1 hc2 => h c (by omega) (by omega))
    rw [Nat.mul_succ]
    omega

/-- A run of columns is no longer than the whole encoding. -/
theorem chunk_le_total (f : Nat → List Nat) (s n : Nat) (h : s + n ≤ 262144) :
    ((List.range' s n).flatMap f).length ≤ ((List.range 262144).flatMap f).length := by
  have e : 262144 = s + (n + (262144 - s - n)) := by omega
  rw [List.range_eq_range']
  conv_rhs => rw [e]
  rw [flatMap_range_split, Nat.zero_add, flatMap_range_split, List.length_append,
    List.length_append]
  omega

/-- When every run of at most `K` columns fits the block, so does every call
that asks for at most `K` columns. -/
theorem calls_fit_of_chunks (map : MapData) (K : Nat)
    (hchunk : ∀ s n, s + n ≤ 262144 → n ≤ K →
      ((List.range' s n).flatMap (column_bytes map)).length ≤ TEMP_SIZE) :
    ∀ (calls : List (Int × Int)) (g : MapGenerator) (c : Nat), generator_at map c g →
      (∀ call ∈ calls, 0 ≤ call.1 ∧ min call.1.toNat 262144 ≤ K) → calls_fit g calls := by
  intro calls
  induction calls with
  | nil => intro g c _ _; trivial
  | cons call calls ih =>
    intro g c hg hcalls
    obtain ⟨columns, i0⟩ := call
    obtain ⟨h0, hK⟩ := hcalls (columns, i0) (List.mem_cons_self _ _)
    obtain ⟨s1, s2⟩ := get_generator_data_loops_spec map g c columns i0 hg h0
    have hc : c ≤ 262144 := by
      rcases hg.2 with ⟨h, _⟩ | ⟨h, _⟩ <;> omega
    refine ⟨?_, ih _ _ s2 (fun x hx => hcalls x (List.mem_cons_of_mem _ hx))⟩
    rw [s1]
    apply hchunk
    · omega
    · simp only at hK
      omega

theorem save_vxl_loops_bedrock_fits : (save_vxl_loops bedrock).length ≤ TEMP_SIZE := by
  rw [save_vxl_loops_bedrock.2, length_flatMap_const]
  decide

/-- C8 (amended): in the grid where exactly the voxels at `z = 63` are solid,
each colored 0xFF808080, `save_vxl` emits for every column a single terminal
span with the header bytes `N = 0, S = 63, E = 63, A = 0` (the air run of a
column's first span starts at 0) followed by the one color word
0x80,0x80,0x80,0xFF: eight bytes per column, 2097152 bytes in all, which fit
the block, so that `save_vxl` returns them. -/
theorem save_vxl_bedrock :
    (∀ i j : Int, 0 ≤ i → i < 512 → 0 ≤ j → j < 512 →
      save_column bedrock i j = [0, 63, 63, 0, 0x80, 0x80, 0x80, 0xFF]) ∧
    save_vxl bedrock =
      some ((List.range 262144).flatMap fun _ => [0, 63, 63, 0, 0x80, 0x80, 0x80, 0xFF]) := by
  refine ⟨save_vxl_loops_bedrock.1, ?_⟩
  rw [save_vxl_of_fits bedrock save_vxl_loops_bedrock_fits, save_vxl_loops_bedrock.2]

/-- C19 fails on the code: for the grid `stripes` the loops of `save_vxl`
write 34603008 bytes, and so do the loops of one call of `get_generator_data`
for all 262144 columns: more than the 10485760 bytes of the block that
`create_temp` allocates, so both run past its end. -/
theorem save_vxl_stripes_length :
    (save_vxl_loops stripes).length = 34603008 ∧ save_vxl stripes = none ∧
    (∀ i0 : Int,
      (get_generator_data_loops (create_map_generator stripes) 262144 i0).1.length = 34603008 ∧
      get_generator_data (create_map_generator stripes) 262144 i0 = none) ∧
    TEMP_SIZE = 10 * 1024 * 1024 ∧ TEMP_SIZE < 34603008 := by
  obtain ⟨h1, h2, _⟩ := save_vxl_loops_stripes_length
  have ht : TEMP_SIZE < 34603008 := by decide
  refine ⟨h1, save_vxl_overflow stripes (by rw [h1]; exact ht), ?_, rfl, ht⟩
  intro i0
  exact ⟨h2 i0, get_generator_data_overflow _ _ _ (by rw [h2 i0]; exact ht)⟩

/-- Stream equals batch inside the block: when `save_vxl G` returns, every
sequence of calls of `get_generator_data` with positive column counts that add
up to at least 512·512, made on a generator freshly created from `G`, returns
the same bytes, call after call. -/
theorem generator_stream_eq_save_vxl (G : MapData) (calls : List (Int × Int))
    (hpos : ∀ call ∈ calls, 0 < call.1) (hall : 262144 ≤ (calls.map Prod.fst).sum)
    (bytes : List Nat) (henc : save_vxl G = some bytes) :
    generator_stream (create_map_generator G) calls = some bytes := by
  obtain ⟨hb, hfit⟩ := save_vxl_some G bytes henc
  rw [hb]
  have hg : generator_at G 0 (create_map_generator G) :=
    ⟨rfl, Or.inl ⟨by decide, rfl, rfl⟩⟩
  have hcf : calls_fit (create_map_generator G) calls := by
    apply calls_fit_of_chunks G 262144 _ calls _ 0 hg
    · intro call hc
      exact ⟨le_of_lt (hpos call hc), Nat.min_le_right _ _⟩
    · intro s n hsn _
      rw [save_vxl_loops_linear] at hfit
      exact le_trans (chunk_le_total _ s n hsn) hfit
  rw [generator_stream_of_fit _ _ hcf, generator_stream_loops_eq G calls hpos hall]

/-- Stream equals batch for the bedrock grid streamed in three calls of
100000, 100000 and 62144 columns. -/
theorem generator_stream_eq_save_vxl_bedrock :
    generator_stream (create_map_generator bedrock)
      [((100000 : Int), (0 : Int)), (100000, 7), (62144, -1)] = save_vxl bedrock := by
  have h1 : ∀ call ∈ [((100000 : Int), (0 : Int)), (100000, 7), (62144, -1)], 0 < call.1 := by
    intro call hc
    simp only [List.mem_cons, List.mem_singleton, List.not_mem_nil, or_false] at hc
    rcases hc with rfl | rfl | rfl <;> decide
  have h2 : 262144 ≤ ([((100000 : Int), (0 : Int)), (100000, 7), (62144, -1)].map
      Prod.fst).sum := by decide
  have h3 := save_vxl_of_fits bedrock save_vxl_loops_bedrock_fits
  rw [h3]
  exact generator_stream_eq_save_vxl bedrock _ h1 h2 _ h3

theorem stripes_column_le (c : Nat) : (column_bytes stripes c).length ≤ 260 := by
  unfold column_bytes
  rcases Nat.mod_two_eq_zero_or_one (c % 512) with h | h
  · rw [stripes_column_even _ _ ⟨by omega, by omega⟩ (by omega)]
  · rw [stripes_column_odd _ _ (by omega)]
    decide

theorem stripes_rows_fit :
    calls_fit (create_map_generator stripes) (List.replicate 512 (512, 0)) := by
  have hg : generator_at stripes 0 (create_map_generator stripes) :=
    ⟨rfl, Or.inl ⟨by decide, rfl, rfl⟩⟩
  apply calls_fit_of_chunks stripes 512 _ _ _ 0 hg
  · intro call hc
    rw [List.eq_of_mem_replicate hc]
    decide
  · intro s n _ hn
    have h := length_flatMap_le (column_bytes stripes) 260 s n
      (fun c _ _ => stripes_column_le c)
    have ht : TEMP_SIZE = 10485760 := rfl
    omega

/-- C2 fails on the code: for the grid `stripes`, streamed row by row in 512
calls of 512 columns, every call of `get_generator_data` fits the block and
the calls return, one after the other, the 34603008 bytes the loops of
`save_vxl` write; `save_vxl` itself runs past the end of the block and returns
nothing to compare them with. -/
theorem generator_stream_stripes :
    generator_stream (create_map_generator stripes) (List.replicate 512 (512, 0)) =
      some (save_vxl_loops stripes) ∧
    (save_vxl_loops stripes).length = 34603008 ∧
    save_vxl stripes = none := by
  have hpos : ∀ call ∈ List.replicate 512 (((512 : Int), (0 : Int))), 0 < call.1 := by
    intro call hc
    rw [List.eq_of_mem_replicate hc]
    decide
  have hall : 262144 ≤ ((List.replicate 512 (((512 : Int), (0 : Int)))).map Prod.fst).sum := by
    rw [List.map_replicate, List.sum_replicate]
    decide
  have hlen := save_vxl_loops_stripes_length.1
  refine ⟨?_, hlen, save_vxl_overflow stripes (by rw [hlen]; decide)⟩
  rw [generator_stream_of_fit _ _ stripes_rows_fit, generator_stream_loops_eq stripes _ hpos hall]

/-- C15 (amended): when calls with positive column counts have emitted fewer
than all 262144 columns and one more call emits the last column, all of them
returning, the cursor is then (512, 512); from then on every sequence of
further calls returns and leaves `y` at 512, and every further call, for any
column count, returns an empty byte string. -/
theorem generator_exhausted (G : MapData) (pre : List (Int × Int)) (last : Int × Int)
    (hpos : ∀ call ∈ pre, 0 < call.1) (hpre : (pre.map Prod.fst).sum < 262144)
    (hlast : 262144 ≤ (pre.map Prod.fst).sum + last.1) (g : MapGenerator)
    (hemit : generator_after (create_map_generator G) (pre ++ [last]) = some g) :
    g = ⟨G, 512, 512⟩ ∧
    ∀ (later : List (Int × Int)) (columns i0 : Int),
      ∃ g', generator_after (create_map_generator G) (pre ++ [last] ++ later) = some g' ∧
        g'.y = 512 ∧ get_generator_data g' columns i0 = some ([], ⟨g'.map, i0, 512⟩) := by
  obtain ⟨hcf, hg⟩ := generator_after_some _ _ _ hemit
  obtain ⟨l1, l2⟩ := generator_loops_exhausted G pre last hpos hpre hlast
  refine ⟨by rw [hg, l1], ?_⟩
  intro later columns i0
  have hcf2 : calls_fit (create_map_generator G) (pre ++ [last] ++ later) :=
    (calls_fit_append _ _ _).2 ⟨hcf, calls_fit_exhausted _ (by rw [l1]) later⟩
  have hy := (l2 later columns i0).1
  refine ⟨_, generator_after_of_fit _ _ hcf2, hy, ?_⟩
  rw [get_generator_data_of_fits _ _ _ (by rw [exhausted_call _ hy]; exact Nat.zero_le _),
    exhausted_call _ hy]

theorem bedrock_calls_fit (calls : List (Int × Int)) (hpos : ∀ call ∈ calls, 0 ≤ call.1) :
    calls_fit (create_map_generator bedrock) calls := by
  have hg : generator_at bedrock 0 (create_map_generator bedrock) :=
    ⟨rfl, Or.inl ⟨by decide, rfl, rfl⟩⟩
  apply calls_fit_of_chunks bedrock 262144 _ calls _ 0 hg
  · intro call hc
    exact ⟨hpos call hc, Nat.min_le_right _ _⟩
  · intro s n hsn _
    have h := save_vxl_loops_bedrock_fits
    rw [save_vxl_loops_linear] at h
    exact le_trans (chunk_le_total _ s n hsn) h

/-- C15 (amended), for the bedrock grid streamed in calls of 200000 and 100000
columns: both return, and the cursor is then (512, 512). -/
theorem generator_exhausted_witness :
    (∀ call ∈ [((200000 : Int), (0 : Int))], 0 < call.1) ∧
    ([((200000 : Int), (0 : Int))].map Prod.fst).sum < 262144 ∧
    262144 ≤ ([((200000 : Int), (0 : Int))].map Prod.fst).sum + ((100000 : Int), (0 : Int)).1 ∧
    generator_after (create_map_generator bedrock) ([(200000, 0)] ++ [(100000, 0)]) =
      some ⟨bedrock, 512, 512⟩ := by
  have h1 : ∀ call ∈ [((200000 : Int), (0 : Int))], 0 < call.1 := by
    intro call hc
    simp only [List.mem_singleton] at hc
    rw [hc]
    decide
  have h2 : ([((200000 : Int), (0 : Int))].map Prod.fst).sum < 262144 := by decide
  have h3 : 262144 ≤ ([((200000 : Int), (0 : Int))].map Prod.fst).sum +
      ((100000 : Int), (0 : Int)).1 := by decide
  have hfit : calls_fit (create_map_generator bedrock) ([(200000, 0)] ++ [(100000, 0)]) := by
    apply bedrock_calls_fit
    intro call hc
    simp only [List.singleton_append, List.mem_cons, List.mem_singleton, List.not_mem_nil,
      or_false] at hc
    rcases hc with rfl | rfl <;> decide
  have hemit := generator_after_of_fit _ _ hfit
  have h := (generator_exhausted bedrock _ _ h1 h2 h3 _ hemit).1
  rw [h] at hemit
  exact ⟨h1, h2, h3, hemit⟩

/-- C15 as stated fails: one call for all 262144 columns of the bedrock grid
returns and emits the last column, and the cursor is then (512, 512), not
(0, 512). -/
theorem generator_exhausted_counterexample :
    ∃ g, generator_after (create_map_generator bedrock) [(262144, 0)] = some g ∧
      g.x = 512 ∧ g.y = 512 ∧ g.x ≠ 0 := by
  have hg : generator_at bedrock 0 (create_map_generator bedrock) :=
    ⟨rfl, Or.inl ⟨by decide, rfl, rfl⟩⟩
  have hfit : calls_fit (create_map_generator bedrock) [(262144, 0)] := by
    apply bedrock_calls_fit
    intro call hc
    simp only [List.mem_singleton] at hc
    rw [hc]
    decide
  have h : generator_after_loops (create_map_generator bedrock) [(262144, 0)] =
      ⟨bedrock, 512, 512⟩ := by
    rw [generator_after_loops, generator_after_loops]
    exact final_call bedrock _ 0 262144 0 hg (by decide) (by decide)
  refine ⟨_, generator_after_of_fit _ _ hfit, ?_⟩
  rw [h]
  exact ⟨rfl, rfl, by decide⟩

/-- In a grid whose in-bounds voxels are all solid, the surfaces are the
voxels of the top layer `z = 0`. -/
theorem solid_surface (G : MapData)
    (hsolid : ∀ x y z, in_bounds x y z → G.geometry (get_pos x y z) = true)
    (i j t : Int) (hi : 0 ≤ i ∧ i < 512) (hj : 0 ≤ j ∧ j < 512) (ht : 0 ≤ t ∧ t < 64) :
    is_surface G i j t = if t = 0 then 1 else 0 := by
  unfold is_surface
  have g0 := hsolid i j t (by unfold in_bounds; omega)
  rw [if_neg (by simp [g0])]
  by_cases hz : t = 0
  · rw [if_pos hz, if_pos hz]
  · have c1 : ¬ (i > 0 ∧ G.geometry (get_pos (i - 1) j t) = false) := by
      rintro ⟨h1, h2⟩
      rw [hsolid (i - 1) j t (by unfold in_bounds; omega)] at h2
      cases h2
    have c2 : ¬ (i + 1 < 512 ∧ G.geometry (get_pos (i + 1) j t) = false) := by
      rintro ⟨h1, h2⟩
      rw [hsolid (i + 1) j t (by unfold in_bounds; omega)] at h2
      cases h2
    have c3 : ¬ (j > 0 ∧ G.geometry (get_pos i (j - 1) t) = false) := by
      rintro ⟨h1, h2⟩
      rw [hsolid i (j - 1) t (by unfold in_bounds; omega)] at h2
      cases h2
    have c4 : ¬ (j + 1 < 512 ∧ G.geometry (get_pos i (j + 1) t) = false) := by
      rintro ⟨h1, h2⟩
      rw [hsolid i (j + 1) t (by unfold in_bounds; omega)] at h2
      cases h2
    have c5 : ¬ (t > 0 ∧ G.geometry (get_pos i j (t - 1)) = false) := by
      rintro ⟨h1, h2⟩
      rw [hsolid i j (t - 1) (by unfold in_bounds; omega)] at h2
      cases h2
    have c6 : ¬ (t + 1 < 64 ∧ G.geometry (get_pos i j (t + 1)) = false) := by
      rintro ⟨h1, h2⟩
      rw [hsolid i j (t + 1) (by unfold in_bounds; omega)] at h2
      cases h2
    rw [if_neg hz, if_neg c1, if_neg c2, if_neg c3, if_neg c4, if_neg c5, if_neg c6, if_neg hz]

/-- A column of such a grid is one terminal span with the one color of its
top voxel: 8 bytes. -/
theorem solid_column (G : MapData)
    (hsolid : ∀ x y z, in_bounds x y z → G.geometry (get_pos x y z) = true)
    (i j : Int) (hi : 0 ≤ i ∧ i < 512) (hj : 0 ≤ j ∧ j < 512) :
    (save_column G i j).length = 8 := by
  have e1 : skip_while (fun k => !G.geometry (get_pos i j k)) 0 = 0 := by
    apply skip_while_eq _ _ _ (le_refl _) (by decide)
    · intro t h1 h2
      omega
    · intro _
      simp [hsolid i j 0 (by unfold in_bounds; omega)]
  have e2 : skip_while (fun k => decide (is_surface G i j k ≠ 0)) 0 = 1 := by
    apply skip_while_eq _ _ _ (by decide) (by decide)
    · intro t h1 h2
      have : t = 0 := by omega
      subst this
      simp [solid_surface G hsolid i j 0 hi hj (by decide)]
    · intro _
      simp [solid_surface G hsolid i j 1 hi hj (by decide)]
  have e3 : skip_while
      (fun k => G.geometry (get_pos i j k) && !decide (is_surface G i j k ≠ 0)) 1 = 64 := by
    apply skip_while_eq _ _ _ (by decide) (le_refl _)
    · intro t h1 h2
      have hne : t ≠ 0 := by omega
      simp [solid_surface G hsolid i j t hi hj (by omega), hne,
        hsolid i j t (by unfold in_bounds; omega)]
    · intro h
      exact absurd h (by decide)
  have hspan : save_span G i j 0 =
      ([0, 0, 0, 0] ++ write_colors G i j 0 1 ++ write_colors G i j 64 0, 64) := by
    simp only [save_span, e1, e2, e3, skip_while_top]
    simp [MAP_Z, to_byte]
  rw [length_save_spans_done G i j _ hspan]
  simp only [List.length_append, length_write_colors, List.length_cons, List.length_nil]
  decide

theorem solid_fits (G : MapData)
    (hsolid : ∀ x y z, in_bounds x y z → G.geometry (get_pos x y z) = true) :
    (save_vxl_loops G).length ≤ TEMP_SIZE := by
  rw [save_vxl_loops_linear, List.range_eq_range']
  have h := length_flatMap_le (column_bytes G) 8 0 262144 (fun c _ hc => by
    unfold column_bytes
    rw [solid_column G hsolid _ _ ⟨by omega, by omega⟩ ⟨by omega, by omega⟩])
  have ht : TEMP_SIZE = 10485760 := rfl
  omega

theorem get_write_color_getD (G : MapData) (x y z : Int) :
    get_write_color G x y z = (G.colors (get_pos x y z)).getD DEFAULT_COLOR := by
  unfold get_write_color
  cases G.colors (get_pos x y z) <;> rfl

/-- The round trip inside the block: for every grid `G` (its colors being
32-bit values) for which `save_vxl G` returns, decoding the returned bytes,
with room for 64 spans per column, gives a grid with the geometry bit of `G`
at every in-bounds voxel, whose color map has an entry exactly at the surface
voxels of `G`, each holding the color `G` has there, or `DEFAULT_COLOR` when
`G` has none. -/
theorem load_save_any (G : MapData) (hfit : colors_fit G) (bytes : List Nat)
    (henc : save_vxl G = some bytes) (fuel : Nat) (hfuel : 64 ≤ fuel) :
    ∃ G', round_trip fuel G = some G' ∧
      ∀ x y z, in_bounds x y z →
        G'.geometry (get_pos x y z) = G.geometry (get_pos x y z) ∧
        G'.colors (get_pos x y z) =
          if is_surface G x y z ≠ 0 then some ((G.colors (get_pos x y z)).getD DEFAULT_COLOR)
          else none := by
  obtain ⟨hb, _⟩ := save_vxl_some G bytes henc
  obtain ⟨G', h1, h2⟩ := load_save G _ fuel hfuel (holds_buffer (save_vxl_loops G))
  refine ⟨G', ?_, ?_⟩
  · unfold round_trip
    rw [henc]
    simp only
    rw [hb]
    exact h1
  · intro x y z hin
    obtain ⟨g1, g2⟩ := h2 x y z hin
    rw [get_write_color_fit G hfit, get_write_color_getD] at g2
    exact ⟨g1, g2⟩

/-- The round trip of the bedrock grid: the surface voxel (1,1,63) comes back
solid with its color 0xFF808080, the air voxel (1,1,62) without a color. -/
theorem load_save_any_bedrock :
    ∃ G', round_trip 64 bedrock = some G' ∧
      G'.geometry (get_pos 1 1 63) = true ∧
      G'.colors (get_pos 1 1 63) = some 0xFF808080 ∧
      G'.colors (get_pos 1 1 62) = none := by
  obtain ⟨G', h1, h2⟩ := load_save_any bedrock colors_fit_bedrock _
    (save_vxl_of_fits bedrock save_vxl_loops_bedrock_fits) 64 (le_refl _)
  refine ⟨G', h1, ?_, ?_, ?_⟩
  · rw [(h2 1 1 63 (by decide)).1]
    decide
  · rw [(h2 1 1 63 (by decide)).2, bedrock_surface 1 1 (by decide) (by decide) 63]
    decide
  · rw [(h2 1 1 62 (by decide)).2, bedrock_surface 1 1 (by decide) (by decide) 62]
    decide

/-- The round trip of the all-solid grid without colors: the surface voxel
(0,0,0) comes back with `DEFAULT_COLOR`, 0x674028. -/
theorem load_save_any_solid :
    ∃ G', round_trip 64 solid_map = some G' ∧
      G'.colors (get_pos 0 0 0) = some 0x674028 ∧ G'.colors (get_pos 0 0 1) = none := by
  have hsolid : ∀ x y z, in_bounds x y z → solid_map.geometry (get_pos x y z) = true :=
    fun _ _ _ _ => rfl
  have hfit : colors_fit solid_map := by
    intro k c hk
    cases hk
  obtain ⟨G', h1, h2⟩ := load_save_any solid_map hfit _
    (save_vxl_of_fits solid_map (solid_fits solid_map hsolid)) 64 (le_refl _)
  refine ⟨G', h1, ?_, ?_⟩
  · rw [(h2 0 0 0 (by decide)).2,
      solid_surface solid_map hsolid 0 0 0 (by decide) (by decide) (by decide)]
    decide
  · rw [(h2 0 0 1 (by decide)).2,
      solid_surface solid_map hsolid 0 0 1 (by decide) (by decide) (by decide)]
    decide

theorem round_trip_of_none (fuel : Nat) (G : MapData) (h : save_vxl G = none) :
    round_trip fuel G = none := by
  unfold round_trip
  rw [h]

theorem colors_fit_stripes : colors_fit stripes := by
  intro k c hk
  cases hk

theorem stripes_overflow : TEMP_SIZE < (save_vxl_loops stripes).length := by
  have hlen := save_vxl_loops_stripes_length.1
  rw [hlen]
  decide

/-- C18 fails on the code: the grid `stripes` is a grid like any other (no
voxel colored), but the loops of `save_vxl` write 34603008 bytes for it, past
the end of the block of 10485760 bytes, so `save_vxl` returns nothing and
`load_vxl(save_vxl(stripes))` has no value, whatever room the decoder is
given. -/
theorem round_trip_stripes :
    colors_fit stripes ∧ TEMP_SIZE < (save_vxl_loops stripes).length ∧
    save_vxl stripes = none ∧ ∀ fuel, round_trip fuel stripes = none :=
  ⟨colors_fit_stripes, stripes_overflow, save_vxl_overflow stripes stripes_overflow,
    fun fuel => round_trip_of_none fuel stripes (save_vxl_overflow stripes stripes_overflow)⟩

end Vxl
